import Mathlib

/-!
# csi-driver-projected-resource: the projection engine of `pkg/hostpath`

A shallow embedding of `pkg/hostpath/hostpath.go`, `pkg/hostpath/file.go` and
`pkg/hostpath/nodeserver.go`.

* Go strings are Lean `String`s; `path/filepath` (`Join`, `Clean`, `Dir`) is
  embedded on the character level.
* The node file system is an explicit value: a finite map from resolved
  absolute paths to nodes.  The `os` functions the driver calls have their
  documented behaviour on it; the process working directory is `/`, so a
  relative path is resolved from the root.
* `hostPathVolumes` is a Go `map[string]*hostPathVolume`: a finite map from
  volume ids to pointers, with the records in a heap.  A `range` over a Go map
  has no fixed order; here it follows the order of the association list, and
  every theorem quantifies over all association lists.
* The closures registered with the object cache are kept as the data they
  capture, together with the function that runs their body.
* The volume map file holds the encoded map as a value; a regular file with
  other bytes does not decode.  The loop variable of `loadVolMapFromDisk`,
  whose address the loop takes, is one cell of the heap.
* The mount table of the node is part of the state; the mounter of the node
  server, an interface value of `k8s.io/utils/mount`, is a parameter that
  works on the file system and the mount table.  The access review and the
  pod lookup of `pkg/client` are parameters of the state.
-/

namespace ProjectedResource

/-! ## Finite maps with Go `map` semantics -/

/-- Reading `m[k]`. -/
def mapGet {κ α : Type} [DecidableEq κ] : List (κ × α) → κ → Option α
  | [], _ => none
  | (k', v) :: rest, k => if k' = k then some v else mapGet rest k

/-- Assignment `m[k] = v`: replaces the value of an existing key, adds a new key otherwise. -/
def mapSet {κ α : Type} [DecidableEq κ] : List (κ × α) → κ → α → List (κ × α)
  | [], k, v => [(k, v)]
  | (k', v') :: rest, k, v => if k' = k then (k, v) :: rest else (k', v') :: mapSet rest k v

/-- Removal `delete(m, k)`. -/
def mapDelete {κ α : Type} [DecidableEq κ] (m : List (κ × α)) (k : κ) : List (κ × α) :=
  m.filter (fun e => !decide (e.1 = k))

/-! ## Strings and `path/filepath` -/

/-- The fields of a character sequence between the separators `/`, empty fields included. -/
def splitSep : List Char → List (List Char)
  | [] => [[]]
  | c :: cs =>
    if c = '/' then [] :: splitSep cs
    else
      match splitSep cs with
      | [] => [[c]]
      | h :: t => (c :: h) :: t

/-- The path elements of a string. -/
def segments (s : String) : List String := (splitSep s.data).map String.mk

/-- A path is rooted when it starts with the separator. -/
def isRooted (s : String) : Bool :=
  match s.data with
  | c :: _ => decide (c = '/')
  | [] => false

/-- One element of the lexical processing of `filepath.Clean`, on the stack of the elements kept
so far (innermost first): empty elements and `.` are dropped, `..` removes the element before it,
is dropped at the root, and is kept at the start of a relative path. -/
def cleanStep (rooted : Bool) (stack : List String) (seg : String) : List String :=
  if seg = "" ∨ seg = "." then stack
  else if seg = ".." then
    match stack with
    | [] => if rooted then [] else [".."]
    | t :: st => if t = ".." then ".." :: t :: st else st
  else seg :: stack

/-- The elements `filepath.Clean` keeps. -/
def cleanSegs (rooted : Bool) (segs : List String) : List String :=
  (segs.foldl (cleanStep rooted) []).reverse

/-- Go `strings.Join(elems, "/")`. -/
def joinSep : List String → String
  | [] => ""
  | [s] => s
  | s :: t :: rest => s ++ "/" ++ joinSep (t :: rest)

/-- The string of a cleaned path: the separator in front of a rooted path, `.` for an empty
relative path. -/
def render (rooted : Bool) (segs : List String) : String :=
  if rooted then "/" ++ joinSep segs
  else if segs = [] then "." else joinSep segs

/-- Go `filepath.Clean`. -/
def Clean (s : String) : String :=
  render (isRooted s) (cleanSegs (isRooted s) (segments s))

/-- Go `filepath.Join`: empty elements before the first non-empty one are skipped, the rest is
joined with the separator and cleaned; the result is empty when every element is empty. -/
def Join (elem : List String) : String :=
  match elem.dropWhile (fun e => decide (e = "")) with
  | [] => ""
  | e :: rest => Clean (joinSep (e :: rest))

/-- The part of a path up to and including its last separator. -/
def dirPrefix (l : List Char) : List Char :=
  (l.reverse.dropWhile (fun c => !decide (c = '/'))).reverse

/-- Go `filepath.Dir`. -/
def Dir (path : String) : String := Clean (String.mk (dirPrefix path.data))

/-- The file a path names: its elements followed from the root, the working directory. -/
def resolve (path : String) : List String := cleanSegs true (segments path)

/-- An element that is a file name: not empty, without separator, neither `.` nor `..`. -/
def plainSegment (s : String) : Prop := s ≠ "" ∧ s ≠ "." ∧ s ≠ ".." ∧ '/' ∉ s.data

instance (s : String) : Decidable (plainSegment s) := by
  unfold plainSegment; exact inferInstance

/-- Go `strings.TrimSpace` cuts the white space of `unicode.IsSpace`. -/
def isSpace (c : Char) : Bool :=
  let n := c.toNat
  (9 ≤ n && n ≤ 13) || n = 32 || n = 0x85 || n = 0xA0 || n = 0x1680 ||
  (0x2000 ≤ n && n ≤ 0x200a) || n = 0x2028 || n = 0x2029 || n = 0x202f || n = 0x205f || n = 0x3000

/-- Go `strings.TrimSpace`. -/
def TrimSpace (s : String) : String :=
  String.mk ((s.data.dropWhile isSpace).reverse.dropWhile isSpace).reverse

/-- The UTF-8 bytes of a character. -/
def utf8Char (c : Char) : List Nat :=
  let n := c.toNat
  if n < 0x80 then [n]
  else if n < 0x800 then [0xC0 + n / 64, 0x80 + n % 64]
  else if n < 0x10000 then [0xE0 + n / 4096, 0x80 + n / 64 % 64, 0x80 + n % 64]
  else [0xF0 + n / 262144, 0x80 + n / 4096 % 64, 0x80 + n / 64 % 64, 0x80 + n % 64]

/-- Go conversion `[]byte(s)`. -/
def bytesOf (s : String) : List Nat := s.data.flatMap utf8Char

/-! ## Data model (`hostpath.go`, `file.go`) -/

/-- The access type of a volume; only `mountAccess` is supported. -/
inductive accessType where
  | mountAccess
  | blockAccess
  deriving DecidableEq, Repr, Inhabited

/-- The per-volume record of `hostpath.go`. -/
structure hostPathVolume where
  VolName : String := ""
  VolID : String := ""
  VolSize : Int := 0
  VolPath : String := ""
  VolAccessType : accessType := accessType.mountAccess
  TargetPath : String := ""
  SharedDataKey : String := ""
  SharedDataKind : String := ""
  SharedDataId : String := ""
  PodNamespace : String := ""
  PodName : String := ""
  PodUID : String := ""
  PodSA : String := ""
  Allowed : Bool := false
  deriving DecidableEq, Repr, Inhabited

/-- The transient shape handed to the file writer (`file.go`). -/
structure Payload where
  StringData : List (String × String) := []
  ByteData : List (String × List Nat) := []
  deriving DecidableEq, Repr, Inhabited

/-- The part of `corev1.ConfigMap` the driver reads. -/
structure ConfigMap where
  Data : List (String × String) := []
  BinaryData : List (String × List Nat) := []
  deriving DecidableEq, Repr, Inhabited

/-- The part of `corev1.Secret` the driver reads. -/
structure Secret where
  Data : List (String × List Nat) := []
  deriving DecidableEq, Repr, Inhabited

/-- The backing resource a share names (`share.Spec.BackingResource`). -/
structure BackingResource where
  Kind : String := ""
  Namespace : String := ""
  Name : String := ""
  deriving DecidableEq, Repr, Inhabited

/-- The spec of a share. -/
structure ShareSpec where
  BackingResource : BackingResource := {}
  deriving DecidableEq, Repr, Inhabited

/-- The part of `sharev1alpha1.Share` the driver reads. -/
structure Share where
  Name : String := ""
  Spec : ShareSpec := {}
  deriving DecidableEq, Repr, Inhabited

/-! ## The node file system and the `os` functions -/

/-- What a regular file holds: bytes, or the volume map that `gob` encoded into it. -/
inductive Content where
  | bytes (b : List Nat)
  | volMap (m : List (String × hostPathVolume))
  deriving DecidableEq, Repr

/-- A node of the file system. -/
inductive Node where
  | dir
  | file (c : Content)
  deriving DecidableEq, Repr

/-- The file system: resolved paths with their nodes; the root directory always exists. -/
abbrev FS := List (List String × Node)

/-- The node at a resolved path. -/
def FS.node (fs : FS) (p : List String) : Option Node :=
  if p = [] then some Node.dir else mapGet fs p

/-- Whether anything exists at a path; the empty path names nothing. -/
def FS.pathExists (fs : FS) (path : String) : Bool :=
  if path = "" then false else (fs.node (resolve path)).isSome

/-- The content of the regular file at a path, if there is one. -/
def FS.readFile (fs : FS) (path : String) : Option Content :=
  if path = "" then none
  else
    match fs.node (resolve path) with
    | some (Node.file c) => some c
    | _ => none

/-- Whether a directory has no entry: no path below it exists. -/
def FS.noChild (fs : FS) (p : List String) : Bool :=
  fs.all (fun e => !(p.isPrefixOf e.1 && !decide (e.1 = p)))

/-- Go `os.MkdirAll` on the elements of the path, innermost first: an existing directory is kept,
a regular file in the way is an error, otherwise the parent is made first and then the directory. -/
def mkdirAllRev (fs : FS) : List String → FS × Option String
  | [] => (fs, none)
  | s :: parentRev =>
    match fs.node (s :: parentRev).reverse with
    | some Node.dir => (fs, none)
    | some (Node.file _) => (fs, some "not a directory")
    | none =>
      match mkdirAllRev fs parentRev with
      | (fs1, some e) => (fs1, some e)
      | (fs1, none) => (mapSet fs1 (s :: parentRev).reverse Node.dir, none)

/-- Go `os.MkdirAll(path, perm)`. -/
def MkdirAll (fs : FS) (path : String) : FS × Option String :=
  if path = "" then (fs, some "no such file or directory")
  else mkdirAllRev fs (resolve path).reverse

/-- Go `ioutil.WriteFile(path, data, perm)` and `os.Create` followed by a write: the file is
created or truncated; a directory at the path, or a parent that is not a directory, is an error. -/
def WriteFile (fs : FS) (path : String) (data : Content) : FS × Option String :=
  if path = "" then (fs, some "no such file or directory")
  else
    match fs.node (resolve path) with
    | some Node.dir => (fs, some "is a directory")
    | _ =>
      match fs.node (resolve path).dropLast with
      | some Node.dir => (mapSet fs (resolve path) (Node.file data), none)
      | some (Node.file _) => (fs, some "not a directory")
      | none => (fs, some "no such file or directory")

/-- Go `os.RemoveAll` rejects a path that is `.` or ends in `/.`. -/
def endsWithDot (path : String) : Bool :=
  match path.data.reverse with
  | ['.'] => true
  | '.' :: '/' :: _ => true
  | _ => false

/-- Go `os.RemoveAll(path)`: removes the path and everything below it; the empty path and a path
that does not exist are no error; the root directory itself cannot be removed. -/
def RemoveAll (fs : FS) (path : String) : FS × Option String :=
  if path = "" then (fs, none)
  else if endsWithDot path then (fs, some "invalid argument")
  else if resolve path = [] then ([], some "device or resource busy")
  else (fs.filter (fun e => !(resolve path).isPrefixOf e.1), none)

/-- Go `os.Remove(path)`: removes a regular file or an empty directory. -/
def Remove (fs : FS) (path : String) : FS × Option String :=
  if path = "" then (fs, some "no such file or directory")
  else
    match fs.node (resolve path) with
    | none => (fs, some "no such file or directory")
    | some (Node.file _) => (mapDelete fs (resolve path), none)
    | some Node.dir =>
      if resolve path = [] then (fs, some "device or resource busy")
      else if fs.noChild (resolve path) then (mapDelete fs (resolve path), none)
      else (fs, some "directory not empty")

/-- Source `isDirEmpty`: `os.Open` followed by `Readdirnames(1)`. The result is the pair of the
source: whether the directory is empty, and the error if there is one. -/
def isDirEmpty (fs : FS) (name : String) : Bool × Option String :=
  if name = "" then (false, some "no such file or directory")
  else
    match fs.node (resolve name) with
    | none => (false, some "no such file or directory")
    | some (Node.file _) => (false, some "not a directory")
    | some Node.dir => if fs.noChild (resolve name) then (true, none) else (false, none)

/-- Source `deleteIfEmpty`: removes the directory when it is empty and the test gave no error. -/
def deleteIfEmpty (fs : FS) (name : String) : FS :=
  match isDirEmpty fs name with
  | (true, none) => (RemoveAll fs name).1
  | _ => fs

/-! ## Process state -/

/-- A pointer to a volume record. -/
abbrev Ptr := Nat

/-- What the upsert and delete closures of `mapBackingResourceToPod` capture: the target
subdirectory computed at registration, and the pointer `hpv`. -/
structure Ranger where
  podPath : String
  hpv : Ptr
  deriving DecidableEq, Repr

/-- The state of the driver process and of the node: the package variables of `hostpath.go`,
the file system, the content and the callback tables of the object cache, and the answers of
the client package. -/
structure World where
  /-- The package variable `hostPathVolumes`. -/
  hostPathVolumes : List (String × Ptr) := []
  /-- The records the pointers refer to. -/
  heap : Ptr → hostPathVolume := fun _ => {}
  /-- The next pointer an allocation returns. -/
  nextPtr : Ptr := 0
  /-- The package variable `volMapOnDiskPath`. -/
  volMapOnDiskPath : String := "/csi-volumes-map/volumemap.gob"
  /-- The node file system. -/
  fs : FS := []
  /-- The config maps the object cache holds, by key. -/
  configMaps : List (String × ConfigMap) := []
  /-- The secrets the object cache holds, by key. -/
  secrets : List (String × Secret) := []
  configMapUpsertCallbacks : List (String × Ranger) := []
  configMapDeleteCallbacks : List (String × Ranger) := []
  secretUpsertCallbacks : List (String × Ranger) := []
  secretDeleteCallbacks : List (String × Ranger) := []
  shareUpdateCallbacks : List (String × Unit) := []
  shareDeleteCallbacks : List (String × Unit) := []
  /-- The answer of `client.ExecuteSAR(shareId, podNamespace, podName, podSA)`: the verdict, and
  whether the error is non-nil. Package `pkg/client` is not part of the sources, so the access
  review is a parameter. -/
  ExecuteSAR : String → String → String → String → Bool × Bool := fun _ _ _ _ => (true, false)
  /-- The key builder `objcache.BuildKey(namespace, name)`. Package `pkg/cache` is not part of
  the sources, so the builder is a parameter; the default joins with a colon, as in the key
  `openshift-config:openshift-install` of the e2e test. -/
  BuildKey : String → String → String := fun ns name => ns ++ ":" ++ name
  /-- The answer of `client.GetPod(namespace, name)`: the UID of the pod, or nothing when the
  lookup returns an error. Package `pkg/client` is not part of the sources, so the pod lookup is
  a parameter. -/
  GetPod : String → String → Option String := fun _ _ => none
  /-- The mount table of the node: the target paths that have a mount on them. -/
  mountPoints : List String := []

/-! ### The object cache `pkg/cache` -/

/-- Modelled from the spec: `objcache.GetConfigMap` of package `pkg/cache`, a lookup by key
that may find nothing. -/
def GetConfigMap (w : World) (key : String) : Option ConfigMap := mapGet w.configMaps key

/-- Modelled from the spec: `objcache.GetSecret` of package `pkg/cache`, a lookup by key that
may find nothing. -/
def GetSecret (w : World) (key : String) : Option Secret := mapGet w.secrets key

/-- Modelled from the spec: `objcache.RegisterConfigMapUpsertCallback` of package `pkg/cache`,
which stores the function under the token. -/
def RegisterConfigMapUpsertCallback (w : World) (token : String) (r : Ranger) : World :=
  { w with configMapUpsertCallbacks := mapSet w.configMapUpsertCallbacks token r }

/-- Modelled from the spec: `objcache.RegisterConfigMapDeleteCallback` of package `pkg/cache`. -/
def RegisterConfigMapDeleteCallback (w : World) (token : String) (r : Ranger) : World :=
  { w with configMapDeleteCallbacks := mapSet w.configMapDeleteCallbacks token r }

/-- Modelled from the spec: `objcache.RegisterSecretUpsertCallback` of package `pkg/cache`. -/
def RegisterSecretUpsertCallback (w : World) (token : String) (r : Ranger) : World :=
  { w with secretUpsertCallbacks := mapSet w.secretUpsertCallbacks token r }

/-- Modelled from the spec: `objcache.RegisterSecretDeleteCallback` of package `pkg/cache`. -/
def RegisterSecretDeleteCallback (w : World) (token : String) (r : Ranger) : World :=
  { w with secretDeleteCallbacks := mapSet w.secretDeleteCallbacks token r }

/-- Modelled from the spec: `objcache.RegisterShareUpdateCallback` of package `pkg/cache`. -/
def RegisterShareUpdateCallback (w : World) (token : String) : World :=
  { w with shareUpdateCallbacks := mapSet w.shareUpdateCallbacks token () }

/-- Modelled from the spec: `objcache.RegisterShareDeleteCallback` of package `pkg/cache`. -/
def RegisterShareDeleteCallback (w : World) (token : String) : World :=
  { w with shareDeleteCallbacks := mapSet w.shareDeleteCallbacks token () }

/-- Modelled from the spec: `objcache.UnregisterConfigMapUpsertCallback` of package `pkg/cache`;
a token that is not registered is a no-op. -/
def UnregisterConfigMapUpsertCallback (w : World) (token : String) : World :=
  { w with configMapUpsertCallbacks := mapDelete w.configMapUpsertCallbacks token }

/-- Modelled from the spec: `objcache.UnregisterConfigMapDeleteCallback` of package `pkg/cache`. -/
def UnregisterConfigMapDeleteCallback (w : World) (token : String) : World :=
  { w with configMapDeleteCallbacks := mapDelete w.configMapDeleteCallbacks token }

/-- Modelled from the spec: `objcache.UnregisterSecretUpsertCallback` of package `pkg/cache`. -/
def UnregisterSecretUpsertCallback (w : World) (token : String) : World :=
  { w with secretUpsertCallbacks := mapDelete w.secretUpsertCallbacks token }

/-- Modelled from the spec: `objcache.UnregisterSecretDeleteCallback` of package `pkg/cache`. -/
def UnregisterSecretDeleteCallback (w : World) (token : String) : World :=
  { w with secretDeleteCallbacks := mapDelete w.secretDeleteCallbacks token }

/-- Modelled from the spec: `objcache.UnregisterShareUpdateCallback` of package `pkg/cache`. -/
def UnregisterShareUpdateCallback (w : World) (token : String) : World :=
  { w with shareUpdateCallbacks := mapDelete w.shareUpdateCallbacks token }

/-- Modelled from the spec: `objcache.UnregisterShareDeleteCallback` of package `pkg/cache`. -/
def UnregisterShareDeleteCallback (w : World) (token : String) : World :=
  { w with shareDeleteCallbacks := mapDelete w.shareDeleteCallbacks token }

/-! ## `nodeserver.go`: the pod details of a volume context -/

def CSIPodName : String := "csi.storage.k8s.io/pod.name"

def CSIPodNamespace : String := "csi.storage.k8s.io/pod.namespace"

def CSIPodUID : String := "csi.storage.k8s.io/pod.uid"

def CSIPodSA : String := "csi.storage.k8s.io/serviceAccount.name"

def CSIEphemeral : String := "csi.storage.k8s.io/ephemeral"

/-- Source `getPodDetails`: namespace, name, UID and service account of the pod; a missing key
reads as the empty string. -/
def getPodDetails (volumeContext : List (String × String)) : String × String × String × String :=
  let podName := (mapGet volumeContext CSIPodName).getD ""
  let podNamespace := (mapGet volumeContext CSIPodNamespace).getD ""
  let podSA := (mapGet volumeContext CSIPodSA).getD ""
  let podUID := (mapGet volumeContext CSIPodUID).getD ""
  (podNamespace, podName, podUID, podSA)

/-! ## `hostpath.go` -/

/-- The driver value; of its fields only `root` is read by the functions below. -/
structure hostPath where
  root : String := "/csi-data-dir"
  deriving DecidableEq, Repr

/-- Source `getVolumePath`. -/
def getVolumePath (hp : hostPath) (volID : String) (volCtx : List (String × String)) : String :=
  let (podNamespace, podName, podUID, podSA) := getPodDetails volCtx
  Join [hp.root, volID, podNamespace, podName, podUID, podSA]

/-- The loops of `commonUpsertRanger` over a data map: each entry is written to
`filepath.Join(podFileDir, dataKey)`; the first failing write ends the function. -/
def writeEntries (fs : FS) (podFileDir : String) : List (String × List Nat) → FS × Option String
  | [] => (fs, none)
  | (dataKey, dataValue) :: rest =>
    match WriteFile fs (Join [podFileDir, dataKey]) (Content.bytes dataValue) with
    | (fs1, some err) => (fs1, some err)
    | (fs1, none) => writeEntries fs1 podFileDir rest

/-- Source `commonUpsertRanger`: nothing for a key other than the filter; otherwise the
directory `filepath.Join(podPath, key)` is made and the byte entries, then the string entries,
are written into it. -/
def commonUpsertRanger (fs : FS) (podPath filter key : String) (payload : Payload) :
    FS × Option String :=
  if key ≠ filter then (fs, none)
  else
    match MkdirAll fs (Join [podPath, key]) with
    | (fs1, some err) => (fs1, some err)
    | (fs1, none) =>
      match writeEntries fs1 (Join [podPath, key]) payload.ByteData with
      | (fs2, some err) => (fs2, some err)
      | (fs2, none) =>
        writeEntries fs2 (Join [podPath, key])
          (payload.StringData.map (fun e => (e.1, bytesOf e.2)))

/-- Source `commonDeleteRanger`: nothing for a key other than the filter; otherwise `os.Remove`
of `filepath.Join(podPath, key)`, whose error is dropped. The result is always `true`. -/
def commonDeleteRanger (fs : FS) (podPath filter key : String) : FS × Bool :=
  if key ≠ filter then (fs, true)
  else ((Remove fs (Join [podPath, key])).1, true)

/-- Source `storeVolMapToDisk`: the file is created and a copy of the map, with the records
the pointers refer to, is encoded into it. -/
def storeVolMapToDisk (w : World) : World × Option String :=
  let mapCopy := w.hostPathVolumes.foldl (fun m e => mapSet m e.1 (w.heap e.2)) []
  match WriteFile w.fs w.volMapOnDiskPath (Content.volMap mapCopy) with
  | (fs1, err) => ({ w with fs := fs1 }, err)

/-- The target subdirectory the share rangers compute from the kind of a record. -/
def kindTargetPath (hpv : hostPathVolume) : String :=
  if hpv.SharedDataKind = "ConfigMap" then Join [hpv.TargetPath, "configmaps"]
  else if hpv.SharedDataKind = "Secret" then Join [hpv.TargetPath, "secrets"]
  else ""

/-- The result of the loop of `shareDeleteRanger`. -/
structure DeleteScan where
  heap : Ptr → hostPathVolume
  targetPath : String
  volID : String

/-- The loop of `shareDeleteRanger`: at the first record with the share id, the target path and
the volume id are taken, `Allowed` is cleared, and the loop ends. -/
def shareDeleteLoop (heap : Ptr → hostPathVolume) (shareId : String) :
    List (String × Ptr) → DeleteScan
  | [] => { heap := heap, targetPath := "", volID := "" }
  | (_, hpv) :: rest =>
    if (heap hpv).SharedDataId = shareId then
      { heap := Function.update heap hpv { heap hpv with Allowed := false }
        targetPath := kindTargetPath (heap hpv)
        volID := (heap hpv).VolID }
    else shareDeleteLoop heap shareId rest

/-- Source `shareDeleteRanger`. -/
def shareDeleteRanger (w : World) (shareId : String) : World × Bool :=
  let scan := shareDeleteLoop w.heap shareId w.hostPathVolumes
  let w1 := { w with heap := scan.heap }
  if scan.volID.length > 0 ∧ scan.targetPath.length > 0 then
    let w2 := { w1 with fs := (RemoveAll w1.fs scan.targetPath).1 }
    ((storeVolMapToDisk w2).1, true)
  else (w1, true)

/-- The closure `upsertRangerCM` of `mapBackingResourceToPod`: the filter `hpv.SharedDataKey`
is read through the pointer when the closure runs. -/
def upsertRangerCM (w : World) (r : Ranger) (key : String) (cm : ConfigMap) : World × Bool :=
  let payload : Payload := { StringData := cm.Data, ByteData := cm.BinaryData }
  ({ w with fs := (commonUpsertRanger w.fs r.podPath (w.heap r.hpv).SharedDataKey key payload).1 },
    true)

/-- The closure `upsertRangerSec` of `mapBackingResourceToPod`. -/
def upsertRangerSec (w : World) (r : Ranger) (key : String) (s : Secret) : World × Bool :=
  let payload : Payload := { ByteData := s.Data }
  ({ w with fs := (commonUpsertRanger w.fs r.podPath (w.heap r.hpv).SharedDataKey key payload).1 },
    true)

/-- The closures `deleteRangerCM` and `deleteRangerSec` of `mapBackingResourceToPod`. -/
def deleteRanger (w : World) (r : Ranger) (key : String) : World × Bool :=
  ({ w with fs := (commonDeleteRanger w.fs r.podPath (w.heap r.hpv).SharedDataKey key).1 }, true)

/-- Source `mapBackingResourceToPod`: by the trimmed kind of the record, the target
subdirectory is made, the backing object, when the cache has it, is written through
`commonUpsertRanger` with the key of the record as filter and as event key, and the upsert and
delete closures are registered under the volume id. An error ends the function before the
registration. -/
def mapBackingResourceToPod (w : World) (hpv : Ptr) : World × Option String :=
  if TrimSpace (w.heap hpv).SharedDataKind = "ConfigMap" then
    let podConfigMapsPath := Join [(w.heap hpv).TargetPath, "configmaps"]
    match MkdirAll w.fs podConfigMapsPath with
    | (fs1, some err) => ({ w with fs := fs1 }, some err)
    | (fs1, none) =>
      let upsert : FS × Option String :=
        match GetConfigMap w (w.heap hpv).SharedDataKey with
        | some cm =>
          commonUpsertRanger fs1 podConfigMapsPath (w.heap hpv).SharedDataKey
            (w.heap hpv).SharedDataKey { StringData := cm.Data, ByteData := cm.BinaryData }
        | none => (fs1, none)
      match upsert with
      | (fs2, some upsertError) => ({ w with fs := fs2 }, some upsertError)
      | (fs2, none) =>
        (RegisterConfigMapDeleteCallback
          (RegisterConfigMapUpsertCallback { w with fs := fs2 } (w.heap hpv).VolID
            { podPath := podConfigMapsPath, hpv := hpv })
          (w.heap hpv).VolID { podPath := podConfigMapsPath, hpv := hpv }, none)
  else if TrimSpace (w.heap hpv).SharedDataKind = "Secret" then
    let podSecretsPath := Join [(w.heap hpv).TargetPath, "secrets"]
    match MkdirAll w.fs podSecretsPath with
    | (fs1, some err) => ({ w with fs := fs1 }, some err)
    | (fs1, none) =>
      let upsert : FS × Option String :=
        match GetSecret w (w.heap hpv).SharedDataKey with
        | some s =>
          commonUpsertRanger fs1 podSecretsPath (w.heap hpv).SharedDataKey
            (w.heap hpv).SharedDataKey { ByteData := s.Data }
        | none => (fs1, none)
      match upsert with
      | (fs2, some upsertError) => ({ w with fs := fs2 }, some upsertError)
      | (fs2, none) =>
        (RegisterSecretDeleteCallback
          (RegisterSecretUpsertCallback { w with fs := fs2 } (w.heap hpv).VolID
            { podPath := podSecretsPath, hpv := hpv })
          (w.heap hpv).VolID { podPath := podSecretsPath, hpv := hpv }, none)
  else (w, some ("invalid share backing resource kind " ++ (w.heap hpv).SharedDataKind))

/-- Source `mapVolumeToPod`: after `mapBackingResourceToPod` without error, the share delete and
the share update closures are registered under the volume id. -/
def mapVolumeToPod (w : World) (hpv : Ptr) : World × Option String :=
  match mapBackingResourceToPod w hpv with
  | (w1, some err) => (w1, some err)
  | (w1, none) =>
    (RegisterShareUpdateCallback (RegisterShareDeleteCallback w1 (w1.heap hpv).VolID)
      (w1.heap hpv).VolID, none)

/-- The variables of `shareUpdateRanger` after its loop. -/
structure UpdateScan where
  heap : Ptr → hostPathVolume
  oldTargetPath : String := ""
  volID : String := ""
  change : Bool := false
  lostPermissions : Bool := false
  gainedPermissions : Bool := false
  /-- The loop variable `hpv`: the record the loop ended on; `none` stands for the fresh empty
  record the variable starts with, which is not in the map. -/
  hpv : Option Ptr := none

/-- The body of the loop of `shareUpdateRanger` at a record with the share id: the access
review is run, `Allowed` is set or cleared when the verdict differs from it, a changed kind or
key is noted, and the loop ends: without any of the three flags at once, with the old target path
and the volume id otherwise. -/
def updateScanAt (w : World) (shareId : String) (share : Share) (hpv : Ptr) : UpdateScan :=
  let sar := w.ExecuteSAR shareId (w.heap hpv).PodNamespace (w.heap hpv).PodName
    (w.heap hpv).PodSA
  let allowed := sar.1 && !sar.2
  let gainedPermissions := allowed && !(w.heap hpv).Allowed
  let heap1 :=
    if gainedPermissions then Function.update w.heap hpv { w.heap hpv with Allowed := true }
    else w.heap
  let lostPermissions := !allowed && (heap1 hpv).Allowed
  let heap2 :=
    if lostPermissions then Function.update heap1 hpv { heap1 hpv with Allowed := false }
    else heap1
  let change :=
    decide (share.Spec.BackingResource.Kind ≠ (heap2 hpv).SharedDataKind) ||
    decide (w.BuildKey share.Spec.BackingResource.Namespace share.Spec.BackingResource.Name
      ≠ (heap2 hpv).SharedDataKey)
  if !change && !lostPermissions && !gainedPermissions then
    { heap := heap2, hpv := some hpv }
  else
    { heap := heap2
      oldTargetPath := kindTargetPath (heap2 hpv)
      volID := (heap2 hpv).VolID
      change := change
      lostPermissions := lostPermissions
      gainedPermissions := gainedPermissions
      hpv := some hpv }

/-- The loop of `shareUpdateRanger`, with the current value of the loop variable: the first
record with the share id is handled and ends the loop. -/
def shareUpdateLoop (w : World) (shareId : String) (share : Share) (cur : Option Ptr) :
    List (String × Ptr) → UpdateScan
  | [] => { heap := w.heap, hpv := cur }
  | (_, hpv) :: rest =>
    if (w.heap hpv).SharedDataId = shareId then updateScanAt w shareId share hpv
    else shareUpdateLoop w shareId share (some hpv) rest

/-- The four `Unregister` calls the share update ranger makes for a volume id. -/
def unregisterBackingCallbacks (w : World) (volID : String) : World :=
  UnregisterConfigMapUpsertCallback
    (UnregisterConfigMapDeleteCallback
      (UnregisterSecretDeleteCallback (UnregisterSecretUpsertCallback w volID) volID) volID) volID

/-- The statements of the `if change` block of `shareUpdateRanger` before its call of
`mapBackingResourceToPod`: the old target path is removed, the backing callbacks of the volume
id are unregistered, and kind, key and id of the record are set from the share. -/
def rebindRecord (w : World) (oldTargetPath volID : String) (share : Share) (hpv : Ptr) :
    World :=
  let w1 := { w with fs := (RemoveAll w.fs oldTargetPath).1 }
  let w2 := unregisterBackingCallbacks w1 volID
  { w2 with heap := (Function.update w2.heap hpv
      { w2.heap hpv with
        SharedDataKind := share.Spec.BackingResource.Kind
        SharedDataKey := w.BuildKey share.Spec.BackingResource.Namespace
          share.Spec.BackingResource.Name
        SharedDataId := share.Name }) }

/-- Source `shareUpdateRanger`. -/
def shareUpdateRanger (w : World) (shareId : String) (share : Share) : World × Bool :=
  let scan := shareUpdateLoop w shareId share none w.hostPathVolumes
  let w0 := { w with heap := scan.heap }
  if scan.lostPermissions then
    let w1 := { w0 with fs := (RemoveAll w0.fs scan.oldTargetPath).1 }
    ((storeVolMapToDisk (unregisterBackingCallbacks w1 scan.volID)).1, true)
  else
    match scan.hpv with
    | none => (w0, true)
    | some hpv =>
      let w3 :=
        if scan.change then
          (mapBackingResourceToPod
            (rebindRecord w0 scan.oldTargetPath scan.volID share hpv) hpv).1
        else w0
      let w4 := if scan.gainedPermissions then (mapBackingResourceToPod w3 hpv).1 else w3
      if scan.change || scan.gainedPermissions then ((storeVolMapToDisk w4).1, true)
      else (w4, true)

/-- Source `createHostpathVolume`: the staging directory is made for a mount volume, the record
is built with `Allowed` set, and stored in the map under the volume id. -/
def createHostpathVolume (hp : hostPath) (w : World) (volID targetPath : String)
    (volCtx : List (String × String)) (share : Share) (cap : Int) (volAccessType : accessType) :
    World × Except String Ptr :=
  let volPath := getVolumePath hp volID volCtx
  match volAccessType with
  | accessType.mountAccess =>
    match MkdirAll w.fs volPath with
    | (fs1, some err) => ({ w with fs := fs1 }, Except.error err)
    | (fs1, none) =>
      let (podNamespace, podName, podUID, podSA) := getPodDetails volCtx
      let hostpathVol : hostPathVolume :=
        { VolID := volID
          VolSize := cap
          VolPath := volPath
          VolAccessType := volAccessType
          TargetPath := targetPath
          PodNamespace := podNamespace
          PodName := podName
          PodUID := podUID
          PodSA := podSA
          SharedDataKind := share.Spec.BackingResource.Kind
          SharedDataKey := w.BuildKey share.Spec.BackingResource.Namespace
            share.Spec.BackingResource.Name
          SharedDataId := share.Name
          Allowed := true }
      ({ w with
          fs := fs1
          heap := Function.update w.heap w.nextPtr hostpathVol
          nextPtr := w.nextPtr + 1
          hostPathVolumes := mapSet w.hostPathVolumes volID w.nextPtr }, Except.ok w.nextPtr)
  | accessType.blockAccess => (w, Except.error "unsupported access type")

/-- The six `Unregister` calls at the end of `deleteHostpathVolume`, in the order of the
source. -/
def unregisterAllCallbacks (w : World) (volID : String) : World :=
  UnregisterShareUpdateCallback
    (UnregisterShareDeleteCallback
      (UnregisterConfigMapUpsertCallback
        (UnregisterConfigMapDeleteCallback
          (UnregisterSecretDeleteCallback (UnregisterSecretUpsertCallback w volID) volID)
          volID) volID) volID) volID

/-- Source `deleteHostpathVolume`: for a volume id in the map the staging path is removed, the
four directories above it are removed when empty, the entry is deleted and the map is stored; in
every case the six callbacks of the volume id are unregistered. The error is always nil. -/
def deleteHostpathVolume (w : World) (volID : String) : World × Option String :=
  let w5 :=
    match mapGet w.hostPathVolumes volID with
    | some hpv =>
      let fs1 := (RemoveAll w.fs (w.heap hpv).VolPath).1
      let uidPath := Dir (w.heap hpv).VolPath
      let fs2 := deleteIfEmpty fs1 uidPath
      let namePath := Dir uidPath
      let fs3 := deleteIfEmpty fs2 namePath
      let namespacePath := Dir namePath
      let fs4 := deleteIfEmpty fs3 namespacePath
      let volidPath := Dir namespacePath
      let fs5 := deleteIfEmpty fs4 volidPath
      (storeVolMapToDisk
        { w with fs := fs5, hostPathVolumes := mapDelete w.hostPathVolumes volID }).1
    | none => w
  (unregisterAllCallbacks w5 volID, none)

/-- Go `os.IsNotExist` on the errors of the file system functions. -/
def IsNotExist (err : String) : Bool := decide (err = "no such file or directory")

/-- Whether a proper ancestor of a resolved path is a regular file. -/
def FS.fileAbove (fs : FS) (p : List String) : Bool :=
  (List.range p.length).any (fun n =>
    match fs.node (p.take n) with
    | some (Node.file _) => true
    | _ => false)

/-- Go `os.Open(path)`: the node at the path; a missing path is an `IsNotExist` error, a regular
file on the way to it another error. -/
def Open (fs : FS) (path : String) : Except String Node :=
  if path = "" then Except.error "no such file or directory"
  else
    match fs.node (resolve path) with
    | some n => Except.ok n
    | none =>
      if fs.fileAbove (resolve path) then Except.error "not a directory"
      else Except.error "no such file or directory"

/-- The loop of `loadVolMapFromDisk` over the decoded map. The loop variable `v` is one
variable for the whole loop (the sources are of the time of `ioutil` and `+build` tags, before
the per-iteration loop variables of Go 1.22), and the loop takes its address, so it is one cell
of the heap: every iteration assigns the entry to the cell; a record whose pod lookup fails or
returns another UID is skipped; otherwise the pointer to the cell is stored under the key and
`mapVolumeToPod` is called with it, an error being logged only. -/
def loadVolMapLoop (v : Ptr) : World → List (String × hostPathVolume) → World
  | w, [] => w
  | w, (k, entry) :: rest =>
    let w1 := { w with heap := (Function.update w.heap v entry) }
    match w1.GetPod (w1.heap v).PodNamespace (w1.heap v).PodName with
    | none => loadVolMapLoop v w1 rest
    | some uid =>
      if uid ≠ (w1.heap v).PodUID then loadVolMapLoop v w1 rest
      else
        let w2 := { w1 with hostPathVolumes := mapSet w1.hostPathVolumes k v }
        loadVolMapLoop v (mapVolumeToPod w2 v).1 rest

/-- Source `loadVolMapFromDisk`: a missing file makes the function store the current map; an
error of `os.Open` or of the decoder is returned; otherwise the map variable is reset and the
decoded entries are run through the loop, and the result is nil. A regular file decodes when it
holds an encoded volume map; reading a directory and decoding other bytes fail. -/
def loadVolMapFromDisk (w : World) : World × Option String :=
  match Open w.fs w.volMapOnDiskPath with
  | Except.error err => if IsNotExist err then storeVolMapToDisk w else (w, some err)
  | Except.ok (Node.file (Content.volMap mapCopy)) =>
    (loadVolMapLoop w.nextPtr { w with hostPathVolumes := [], nextPtr := w.nextPtr + 1 } mapCopy,
      none)
  | Except.ok (Node.file (Content.bytes _)) => (w, some "unexpected EOF")
  | Except.ok Node.dir => (w, some "is a directory")

/-! ## `nodeserver.go`: unpublish -/

/-- The gRPC status codes the node server returns. -/
inductive Code where
  | OK
  | InvalidArgument
  | Internal
  | Unimplemented
  deriving DecidableEq, Repr

/-- The part of `csi.NodeUnpublishVolumeRequest` the handler reads. -/
structure NodeUnpublishVolumeRequest where
  VolumeId : String := ""
  TargetPath : String := ""
  deriving DecidableEq, Repr

/-- The constant `tib` of `hostpath.go`. -/
def tib : Int := 1024 * 1024 * 1024 * 1024

/-- The behaviour of `mount.IsNotMountPoint(mounter, file)` of `k8s.io/utils/mount` on a node
without faults: a path that does not exist gives the error of `os.Stat`, with the answer `true`;
otherwise the answer tells whether the mount table lacks the path. -/
def tmpfsIsNotMountPoint (file : String) (fs : FS) (mountPoints : List String) :
    Bool × Option String :=
  match Open fs file with
  | Except.error err => (true, some err)
  | Except.ok _ => (!mountPoints.contains file, none)

/-- The behaviour of `Mount(source, target, "tmpfs", options)` on a node without faults: on a
directory the fresh file system hides what was below the target, and the mount table gets the
target; a target that is not a directory is an error. -/
def tmpfsMount (_source target : String) (fs : FS) (mountPoints : List String) :
    FS × List String × Option String :=
  if target = "" then (fs, mountPoints, some "no such file or directory")
  else
    match fs.node (resolve target) with
    | some Node.dir =>
      (fs.filter (fun e => !((resolve target).isPrefixOf e.1 && !decide (e.1 = resolve target))),
        target :: mountPoints, none)
    | some (Node.file _) => (fs, mountPoints, some "not a directory")
    | none => (fs, mountPoints, some "no such file or directory")

/-- The node server. The mounter is an interface value of `k8s.io/utils/mount`, so its
operations are parameters: each takes the file system and the mount table and gives its answer,
or the file system and the mount table after it, and whether it failed. The declaration of
`maxStorageCapacity` is not part of the sources, so the capacity is a parameter too. -/
structure nodeServer where
  hp : hostPath := {}
  maxStorageCapacity : Int := tib
  CleanupMountPoint : String → FS → List String → FS × List String × Option String
  IsNotMountPoint : String → FS → List String → Bool × Option String := tmpfsIsNotMountPoint
  Mount : String → String → FS → List String → FS × List String × Option String := tmpfsMount

/-- Source `NodeUnpublishVolume`: after the argument checks the target is unmounted, a failure
being logged only, and the volume is deleted. -/
def NodeUnpublishVolume (ns : nodeServer) (w : World) (req : NodeUnpublishVolumeRequest) :
    World × Code :=
  if req.VolumeId.length = 0 then (w, Code.InvalidArgument)
  else if req.TargetPath.length = 0 then (w, Code.InvalidArgument)
  else
    let w1 := { w with
      fs := (ns.CleanupMountPoint req.TargetPath w.fs w.mountPoints).1
      mountPoints := (ns.CleanupMountPoint req.TargetPath w.fs w.mountPoints).2.1 }
    match deleteHostpathVolume w1 req.VolumeId with
    | (w2, some _) => (w2, Code.Internal)
    | (w2, none) => (w2, Code.OK)

/-! ## `nodeserver.go`: publish -/

/-- The mount access type of a `csi.VolumeCapability`. -/
structure MountVolume where
  FsType : String := ""
  MountFlags : List String := []
  deriving DecidableEq, Repr

/-- The part of `csi.VolumeCapability` the handler reads: `GetMount()` is nil for a capability
that is not a mount capability. -/
structure VolumeCapability where
  Mount : Option MountVolume := none
  deriving DecidableEq, Repr

/-- The part of `csi.NodePublishVolumeRequest` the handler reads; a nil capability and a nil
map are `none`. -/
structure NodePublishVolumeRequest where
  VolumeId : String := ""
  PublishContext : Option (List (String × String)) := none
  TargetPath : String := ""
  VolumeCapability : Option VolumeCapability := none
  VolumeContext : Option (List (String × String)) := none
  deriving DecidableEq, Repr

/-- The getter `GetVolumeContext()`: a nil map reads as the empty map. -/
def NodePublishVolumeRequest.GetVolumeContext (req : NodePublishVolumeRequest) :
    List (String × String) :=
  req.VolumeContext.getD []

/-- The end of `NodePublishVolume`, from the mount on: a failing mount removes the staging path
and is an internal error; after the mount `mapVolumeToPod` populates the target, and its error is
an internal error. -/
def publishMount (ns : nodeServer) (w : World) (req : NodePublishVolumeRequest) (vol : Ptr) :
    World × Code :=
  let path := getVolumePath ns.hp req.VolumeId req.GetVolumeContext
  match ns.Mount path req.TargetPath w.fs w.mountPoints with
  | (fs1, mnt1, some _) =>
    ({ w with fs := (RemoveAll fs1 path).1, mountPoints := mnt1 }, Code.Internal)
  | (fs1, mnt1, none) =>
    match mapVolumeToPod { w with fs := fs1, mountPoints := mnt1 } vol with
    | (w2, some _) => (w2, Code.Internal)
    | (w2, none) => (w2, Code.OK)

/-- The part of `NodePublishVolume` after the argument checks: the volume is created, the target
is tested for a mount and made when it does not exist, and a target that already has the mount
ends the call with success. The call of `createHostpathVolume` in `nodeserver.go` passes the four
pod details, which the function of `hostpath.go` reads from the volume context itself; the share
that function also takes is the parameter `share`: the step that resolves the share of a request
is not part of the sources, so this part joins two revisions and only the checks before it are
settled through `NodePublishVolume`. None of the errors of the model is an `os.IsExist` error, so
every error of `createHostpathVolume` is an internal error. -/
def publishVolume (ns : nodeServer) (w : World) (share : Share)
    (req : NodePublishVolumeRequest) : World × Code :=
  match createHostpathVolume ns.hp w req.VolumeId req.TargetPath req.GetVolumeContext share
      ns.maxStorageCapacity accessType.mountAccess with
  | (w1, Except.error _) => (w1, Code.Internal)
  | (w1, Except.ok vol) =>
    if (w1.heap vol).VolAccessType ≠ accessType.mountAccess then (w1, Code.InvalidArgument)
    else
      match ns.IsNotMountPoint req.TargetPath w1.fs w1.mountPoints with
      | (_, some err) =>
        if IsNotExist err then
          match MkdirAll w1.fs req.TargetPath with
          | (fs2, some _) => ({ w1 with fs := fs2 }, Code.Internal)
          | (fs2, none) => publishMount ns { w1 with fs := fs2 } req vol
        else (w1, Code.Internal)
      | (notMnt, none) =>
        if !notMnt then (w1, Code.OK)
        else publishMount ns w1 req vol

/-- Source `NodePublishVolume`: the checks of the arguments, of the pod details, of the
ephemeral marker and of the mount capability, each ending the call with `InvalidArgument`, and
then the creation, the mount and the population of the volume. -/
def NodePublishVolume (ns : nodeServer) (w : World) (share : Share)
    (req : NodePublishVolumeRequest) : World × Code :=
  match req.VolumeCapability with
  | none => (w, Code.InvalidArgument)
  | some capability =>
    if req.VolumeId.length = 0 then (w, Code.InvalidArgument)
    else if req.TargetPath.length = 0 then (w, Code.InvalidArgument)
    else if req.VolumeContext = none ∨ req.GetVolumeContext.length = 0 then
      (w, Code.InvalidArgument)
    else
      let (podNamespace, podName, podUID, podSA) := getPodDetails req.GetVolumeContext
      if podName.length = 0 ∨ podNamespace.length = 0 ∨ podUID.length = 0 ∨ podSA.length = 0 then
        (w, Code.InvalidArgument)
      else
        let ephemeralVolume : Bool :=
          decide ((mapGet req.GetVolumeContext CSIEphemeral).getD "" = "true") ||
          decide ((mapGet req.GetVolumeContext CSIEphemeral).getD "" = "")
        if !ephemeralVolume then (w, Code.InvalidArgument)
        else
          match capability.Mount with
          | none => (w, Code.InvalidArgument)
          | some _ => publishVolume ns w share req

/-! ## Events of the object cache -/

/-- Modelled from the spec: package `pkg/cache` is not part of the sources. An upsert of a config
map stores it in the cache and invokes every registered config map upsert callback with the key
and the object; the callback does the filtering. -/
def configMapUpsertEvent (w : World) (key : String) (cm : ConfigMap) : World :=
  w.configMapUpsertCallbacks.foldl (fun acc e => (upsertRangerCM acc e.2 key cm).1)
    { w with configMaps := mapSet w.configMaps key cm }

/-- Modelled from the spec: package `pkg/cache` is not part of the sources. An upsert of a secret
stores it in the cache and invokes every registered secret upsert callback. -/
def secretUpsertEvent (w : World) (key : String) (s : Secret) : World :=
  w.secretUpsertCallbacks.foldl (fun acc e => (upsertRangerSec acc e.2 key s).1)
    { w with secrets := mapSet w.secrets key s }

/-- Modelled from the spec: package `pkg/cache` is not part of the sources. The deletion of a
config map removes it from the cache and invokes every registered config map delete callback. -/
def configMapDeleteEvent (w : World) (key : String) : World :=
  w.configMapDeleteCallbacks.foldl (fun acc e => (deleteRanger acc e.2 key).1)
    { w with configMaps := mapDelete w.configMaps key }

/-- Modelled from the spec: package `pkg/cache` is not part of the sources. The deletion of a
secret removes it from the cache and invokes every registered secret delete callback. -/
def secretDeleteEvent (w : World) (key : String) : World :=
  w.secretDeleteCallbacks.foldl (fun acc e => (deleteRanger acc e.2 key).1)
    { w with secrets := mapDelete w.secrets key }

/-- Modelled from the spec: package `pkg/cache` is not part of the sources. A change of a share
invokes every registered share update callback with the share id and the share. -/
def shareUpdateEvent (w : World) (shareId : String) (share : Share) : World :=
  w.shareUpdateCallbacks.foldl (fun acc _ => (shareUpdateRanger acc shareId share).1) w

/-- Modelled from the spec: package `pkg/cache` is not part of the sources. The deletion of a
share invokes every registered share delete callback with the share id. -/
def shareDeleteEvent (w : World) (shareId : String) : World :=
  w.shareDeleteCallbacks.foldl (fun acc _ => (shareDeleteRanger acc shareId).1) w

/-! ## Auxiliary definitions of the proofs -/

/-- A string without separator. -/
def sepFree (s : String) : Prop := '/' ∉ s.data

/-- An element `Clean` keeps as it is. -/
def properSeg (s : String) : Prop := s ≠ "" ∧ s ≠ "." ∧ s ≠ ".."

/-- The stacks the processing can reach: proper elements above the `..` a relative path starts
with. -/
def ValidStack (r : Bool) (st : List String) : Prop :=
  ∃ ps n, st = ps ++ List.replicate n ".." ∧ (∀ s ∈ ps, properSeg s) ∧ (r = true → n = 0)

/-- The rooted flag and the cleaned elements of the first element of a `Join`. -/
def joinBase (d : String) : Bool × List String :=
  if d = "" then (false, []) else (isRooted d, cleanSegs (isRooted d) (segments d))

/-- The data entries of a payload in the order `commonUpsertRanger` writes them: the byte
entries, then the string entries as bytes. -/
def payloadEntries (p : Payload) : List (String × List Nat) :=
  p.ByteData ++ p.StringData.map (fun e => (e.1, bytesOf e.2))

/-- The backing object of a record of kind ConfigMap or Secret that the cache holds: the name of
the target subdirectory of the kind, and the data entries of the object. -/
def backingData (w : World) (hpv : Ptr) : Option (String × List (String × List Nat)) :=
  if (w.heap hpv).SharedDataKind = "ConfigMap" then
    (GetConfigMap w (w.heap hpv).SharedDataKey).map
      (fun cm => ("configmaps", payloadEntries { StringData := cm.Data, ByteData := cm.BinaryData }))
  else if (w.heap hpv).SharedDataKind = "Secret" then
    (GetSecret w (w.heap hpv).SharedDataKey).map
      (fun s => ("secrets", payloadEntries { ByteData := s.Data }))
  else none

/-- A sequence of upsert events for the key of the filter, each handled by
`commonUpsertRanger`; the flag tells whether every call returned without error. -/
def upsertRun (fs : FS) (podPath filter : String) : List Payload → FS × Bool
  | [] => (fs, true)
  | p :: rest =>
    match commonUpsertRanger fs podPath filter filter p with
    | (fs1, none) => upsertRun fs1 podPath filter rest
    | (fs1, some _) => (fs1, false)

/-- The file system part of `mapBackingResourceToPod`: the target subdirectory is made and the
backing object, when the cache has it, is written under its key. -/
def materializeFS (fs : FS) (podPath key : String) (payload : Option Payload) :
    FS × Option String :=
  match MkdirAll fs podPath with
  | (fs1, some err) => (fs1, some err)
  | (fs1, none) =>
    match payload with
    | some p => commonUpsertRanger fs1 podPath key key p
    | none => (fs1, none)

/-! ### Example states -/

/-- A volume context: pod `p` in namespace `n` with UID `u` and service account `s`. -/
def exCtx : List (String × String) :=
  [(CSIPodName, "p"), (CSIPodNamespace, "n"), (CSIPodUID, "u"), (CSIPodSA, "s")]

/-- A share that binds the config map `cm1` of namespace `n`. -/
def exShare : Share :=
  { Name := "share1"
    Spec := { BackingResource := { Kind := "ConfigMap", Namespace := "n", Name := "cm1" } } }

/-- A node on which the cache holds the config map `n:cm1` with the entry `k1`. -/
def exWorld : World :=
  { configMaps := [("n:cm1", { Data := [("k1", "v1")] })]
    fs := [(["csi-volumes-map"], Node.dir)] }

/-- The state after `createHostpathVolume` for volume `vol1` with target path `/pods/t`. -/
def exCreated : World :=
  (createHostpathVolume {} exWorld "vol1" "/pods/t" exCtx exShare 0 accessType.mountAccess).1

/-- The state after `mapVolumeToPod` for the record of `vol1`: the volume is published. -/
def exPublished : World := (mapVolumeToPod exCreated 0).1

/-- The published volume after the share `share1` is deleted. -/
def exShareDeleted : World := shareDeleteEvent exPublished "share1"

/-- After the deletion of the share, an upsert of the backing config map `n:cm1`. -/
def exShareDeletedUpsert : World :=
  configMapUpsertEvent exShareDeleted "n:cm1" { Data := [("k1", "v2")] }

/-- The published volume on a node where the access review denies and the cache also holds the
secret `n:s1`. -/
def exDenying : World :=
  { exPublished with
    ExecuteSAR := fun _ _ _ _ => (false, false)
    secrets := [("n:s1", { Data := [("pw", [1, 2])] })] }

/-- The share `share1` bound to the secret `s1` of namespace `n`. -/
def exShareSecret : Share :=
  { Name := "share1"
    Spec := { BackingResource := { Kind := "Secret", Namespace := "n", Name := "s1" } } }

/-- The denying node after a share update event: the permission is lost. -/
def exRevoked : World := shareUpdateEvent exDenying "share1" exShare

/-- After the loss of permission, a share update event that rebinds the share to the secret
while the access review still denies. -/
def exReboundDenied : World := shareUpdateEvent exRevoked "share1" exShareSecret

/-- A volume context: pod `p2` in namespace `n`. -/
def exCtx2 : List (String × String) :=
  [(CSIPodName, "p2"), (CSIPodNamespace, "n"), (CSIPodUID, "u2"), (CSIPodSA, "s")]

/-- Two published volumes, `vol1` for pod `p` and `vol2` for pod `p2`, that consume the same
share `share1`. -/
def exTwo : World :=
  (mapVolumeToPod
    (createHostpathVolume {} exPublished "vol2" "/pods/t2" exCtx2 exShare 0
      accessType.mountAccess).1 1).1

/-- What `mapBackingResourceToPod` works on for a record: by the trimmed kind, the name of the
target subdirectory and the payload of the backing object when the cache has it. -/
def kindPlan (w : World) (hpv : Ptr) : Option (String × Option Payload) :=
  if TrimSpace (w.heap hpv).SharedDataKind = "ConfigMap" then
    some ("configmaps", (GetConfigMap w (w.heap hpv).SharedDataKey).map
      (fun cm => { StringData := cm.Data, ByteData := cm.BinaryData }))
  else if TrimSpace (w.heap hpv).SharedDataKind = "Secret" then
    some ("secrets", (GetSecret w (w.heap hpv).SharedDataKey).map
      (fun s => { ByteData := s.Data }))
  else none

/-- The published volume on a node whose cache also holds the secret `n:s1`; the access review
allows. -/
def exWithSecret : World :=
  { exPublished with secrets := [("n:s1", { Data := [("pw", [1, 2])] })] }

/-- The walk of `deleteHostpathVolume` over the directories above the staging path:
`deleteIfEmpty` for each, in order. -/
def cleanupChain (fs : FS) (names : List String) : FS := names.foldl deleteIfEmpty fs

/-- The staging directory `root/volID/namespace/name/uid/serviceAccount` as a resolved path. -/
def stagingDir (hp : hostPath) (volID : String) (volCtx : List (String × String)) :
    List String :=
  resolve hp.root ++ [volID, (getPodDetails volCtx).1, (getPodDetails volCtx).2.1,
    (getPodDetails volCtx).2.2.1, (getPodDetails volCtx).2.2.2]

/-- The four directories above the staging directory, from the uid directory up to the volume
id directory, as resolved paths. -/
def stagingChain (hp : hostPath) (volID : String) (volCtx : List (String × String)) :
    List (List String) :=
  [resolve hp.root ++ [volID, (getPodDetails volCtx).1, (getPodDetails volCtx).2.1,
      (getPodDetails volCtx).2.2.1],
    resolve hp.root ++ [volID, (getPodDetails volCtx).1, (getPodDetails volCtx).2.1],
    resolve hp.root ++ [volID, (getPodDetails volCtx).1],
    resolve hp.root ++ [volID]]

/-- The published volume on a node where the directory of the volume map file is missing, so
that storing the map fails. -/
def exNoMapDir : World := { exPublished with volMapOnDiskPath := "/missing/volumemap.gob" }

/-- A node server whose unmount fails. -/
def exFailingUnmount : nodeServer :=
  { CleanupMountPoint := fun _ fs mnt => (fs, mnt, some "unmount failed") }

/-- A pod lookup that knows pod `p` with UID `u` and pod `p2` with UID `u2`, both in namespace
`n`. -/
def exPods : String → String → Option String := fun ns name =>
  if ns = "n" ∧ name = "p" then some "u" else if ns = "n" ∧ name = "p2" then some "u2" else none

/-- The share `share2`, bound to the secret `s1` of namespace `n`. -/
def exShare2 : Share :=
  { Name := "share2"
    Spec := { BackingResource := { Kind := "Secret", Namespace := "n", Name := "s1" } } }

/-- Two published volumes of different shares: `vol1` for pod `p` with the config map `n:cm1`
of `share1`, `vol2` for pod `p2` with the secret `n:s1` of `share2`; both pods exist. -/
def exTwoShares : World :=
  (mapVolumeToPod
    (createHostpathVolume {} { exWithSecret with GetPod := exPods } "vol2" "/pods/t2" exCtx2
      exShare2 0 accessType.mountAccess).1 1).1

/-- The state a new driver process starts from on the same node: the map variable is empty and
no callback is registered; the file system, the cache content and the pods are as they were. -/
def restart (w : World) : World :=
  { w with
    hostPathVolumes := []
    configMapUpsertCallbacks := []
    configMapDeleteCallbacks := []
    secretUpsertCallbacks := []
    secretDeleteCallbacks := []
    shareUpdateCallbacks := []
    shareDeleteCallbacks := [] }

/-- The two volumes stored, the process restarted, and the map loaded. -/
def exReloaded : World := (loadVolMapFromDisk (restart (storeVolMapToDisk exTwoShares).1)).1

/-- The same with the map ranged over in the other order. -/
def exReloadedRev : World :=
  (loadVolMapFromDisk (restart (storeVolMapToDisk
    { exTwoShares with hostPathVolumes := exTwoShares.hostPathVolumes.reverse }).1)).1

/-- The same when pod `p2` is gone at the restart: only `vol1` survives. -/
def exReloadedOne : World :=
  (loadVolMapFromDisk (restart (storeVolMapToDisk
    { exTwoShares with
      GetPod := fun ns name => if ns = "n" ∧ name = "p" then some "u" else none }).1)).1

/-- Four entries of a volume map: `vol1` of pod `p`, whose UID matches; `vol2` of pod `gone`,
which the lookup does not find; `vol3` of pod `p2` with an old UID; and `vol4` of pod `p2` with
the right UID but a backing kind that is neither ConfigMap nor Secret, so that mapping it
fails. -/
def exSnapshotEntries : List (String × hostPathVolume) :=
  [("vol1", { VolID := "vol1", TargetPath := "/pods/t", SharedDataKind := "ConfigMap",
              SharedDataKey := "n:cm1", SharedDataId := "share1", PodNamespace := "n",
              PodName := "p", PodUID := "u", PodSA := "s", Allowed := true }),
   ("vol2", { VolID := "vol2", TargetPath := "/pods/t2", SharedDataKind := "ConfigMap",
              SharedDataKey := "n:cm1", SharedDataId := "share1", PodNamespace := "n",
              PodName := "gone", PodUID := "u9", PodSA := "s", Allowed := true }),
   ("vol3", { VolID := "vol3", TargetPath := "/pods/t3", SharedDataKind := "ConfigMap",
              SharedDataKey := "n:cm1", SharedDataId := "share1", PodNamespace := "n",
              PodName := "p2", PodUID := "old", PodSA := "s", Allowed := true }),
   ("vol4", { VolID := "vol4", TargetPath := "/pods/t4", SharedDataKind := "Pod",
              SharedDataKey := "n:x", SharedDataId := "share4", PodNamespace := "n",
              PodName := "p2", PodUID := "u2", PodSA := "s", Allowed := true })]

/-- A node at the start of the driver whose volume map file holds the four entries; the pod
lookup knows the pods `p` and `p2`. -/
def exSnapshot : World :=
  { GetPod := exPods
    configMaps := [("n:cm1", { Data := [("k1", "v1")] })]
    fs := [(["csi-volumes-map"], Node.dir),
      (["csi-volumes-map", "volumemap.gob"], Node.file (Content.volMap exSnapshotEntries))] }

/-- A key of a volume context that is missing or has the empty value. -/
def missingOrEmpty (ctx : List (String × String)) (key : String) : Prop :=
  mapGet ctx key = none ∨ mapGet ctx key = some ""

/-- A node server on a node without faults. -/
def exServer : nodeServer := { CleanupMountPoint := fun _ fs mnt => (fs, mnt, none) }

/-- A publish request for volume `vol1` of pod `p` with target path `/pods/t`. -/
def exRequest : NodePublishVolumeRequest :=
  { VolumeId := "vol1"
    TargetPath := "/pods/t"
    VolumeCapability := some { Mount := some {} }
    VolumeContext := some (exCtx ++ [(CSIEphemeral, "true")]) }

/-- The record `createHostpathVolume` builds for a mount volume. -/
def newRecord (hp : hostPath) (w : World) (volID targetPath : String)
    (volCtx : List (String × String)) (share : Share) (cap : Int) : hostPathVolume :=
  { VolID := volID
    VolSize := cap
    VolPath := getVolumePath hp volID volCtx
    VolAccessType := accessType.mountAccess
    TargetPath := targetPath
    PodNamespace := (getPodDetails volCtx).1
    PodName := (getPodDetails volCtx).2.1
    PodUID := (getPodDetails volCtx).2.2.1
    PodSA := (getPodDetails volCtx).2.2.2
    SharedDataKind := share.Spec.BackingResource.Kind
    SharedDataKey := w.BuildKey share.Spec.BackingResource.Namespace
      share.Spec.BackingResource.Name
    SharedDataId := share.Name
    Allowed := true }

/-- The state with another access review. -/
def withSAR (w : World) (sar : String → String → String → String → Bool × Bool) : World :=
  { w with ExecuteSAR := sar }

/-- The node of the example with an access review that denies every request. -/
def exDenyingWorld : World := withSAR exWorld (fun _ _ _ _ => (false, false))

/-- The file system after an upsert of the key `n:cm1` with the entry `k1` into the target
subdirectory `/pods/t/configmaps`. -/
def exUpserted : FS :=
  (commonUpsertRanger [] "/pods/t/configmaps" "n:cm1" "n:cm1" { StringData := [("k1", "v1")] }).1

/-- The created volume `vol1` on a node whose config map `n:cm1` has the entries `a` and `b`
in `Data` and an entry `b` in `BinaryData`. -/
def exSharedKey : World :=
  { exCreated with
    configMaps := [("n:cm1", { Data := [("a", "1"), ("b", "2")], BinaryData := [("b", [9])] })] }

/-- The share `share1` with the backing kind written with a leading blank, ` ConfigMap`. -/
def exShareBlank : Share :=
  { Name := "share1"
    Spec := { BackingResource := { Kind := " ConfigMap", Namespace := "n", Name := "cm1" } } }

/-- The volume `vol1` published for the share with the kind ` ConfigMap`:
`mapBackingResourceToPod` trims the kind and materializes the config map. -/
def exPublishedBlank : World :=
  (mapVolumeToPod
    (createHostpathVolume {} exWorld "vol1" "/pods/t" exCtx exShareBlank 0
      accessType.mountAccess).1 0).1

/-- The same published volume on a node where the access review denies. -/
def exDenyingBlank : World :=
  { exPublishedBlank with ExecuteSAR := fun _ _ _ _ => (false, false) }

/-- The share `share1` bound to a backing resource of kind `Pod`, which is neither ConfigMap nor
Secret. -/
def exSharePod : Share :=
  { Name := "share1"
    Spec := { BackingResource := { Kind := "Pod", Namespace := "n", Name := "x" } } }

/-- The published volume with the secret in the cache, where the pod has made a regular file
`secrets` in its volume. -/
def exSecretsInTheWay : World :=
  { exWithSecret with
    fs := exWithSecret.fs ++ [(["pods", "t", "secrets"], Node.file (Content.bytes []))] }

/-! # Lemmas -/

/-! ## Lemmas: separators and path elements -/

theorem splitSep_ne_nil (l : List Char) : splitSep l ≠ [] := by
  cases l with
  | nil => simp [splitSep]
  | cons c cs =>
    simp only [splitSep]
    split
    · simp
    · split <;> simp

theorem splitSep_append_sep (a b : List Char) :
    splitSep (a ++ '/' :: b) = splitSep a ++ splitSep b := by
  induction a with
  | nil => simp [splitSep]
  | cons c a ih =>
    by_cases hc : c = '/'
    · simp [splitSep, hc, ih]
    · simp only [List.cons_append, splitSep, hc, if_false]
      change (match splitSep (a ++ '/' :: b) with
        | [] => [[c]]
        | h :: t => (c :: h) :: t) = _
      rw [ih]
      cases h : splitSep a with
      | nil => exact absurd h (splitSep_ne_nil a)
      | cons x t => simp

theorem splitSep_of_not_mem (l : List Char) (h : '/' ∉ l) : splitSep l = [l] := by
  induction l with
  | nil => simp [splitSep]
  | cons c cs ih =>
    have hc : c ≠ '/' := fun e => h (by simp [e])
    have hcs : '/' ∉ cs := fun e => h (by simp [e])
    simp [splitSep, hc, ih hcs]

theorem not_mem_of_mem_splitSep (l f : List Char) (h : f ∈ splitSep l) : '/' ∉ f := by
  induction l generalizing f with
  | nil => simp [splitSep] at h; simp [h]
  | cons c cs ih =>
    by_cases hc : c = '/'
    · simp only [splitSep, hc, if_true, List.mem_cons] at h
      rcases h with h | h
      · simp [h]
      · exact ih f h
    · simp only [splitSep, hc, if_false] at h
      cases hs : splitSep cs with
      | nil => exact absurd hs (splitSep_ne_nil cs)
      | cons x t =>
        rw [hs] at h
        simp only [List.mem_cons] at h
        rcases h with h | h
        · subst h
          have hx : '/' ∉ x := ih x (by simp [hs])
          intro hm
          simp only [List.mem_cons] at hm
          rcases hm with hm | hm
          · exact hc hm.symm
          · exact hx hm
        · exact ih f (by simp [hs, h])

theorem segments_append_sep (a b : String) :
    segments (a ++ "/" ++ b) = segments a ++ segments b := by
  simp [segments, String.data_append, splitSep_append_sep]

theorem segments_of_sepFree (s : String) (h : sepFree s) : segments s = [s] := by
  simp [segments, splitSep_of_not_mem s.data h]

theorem sepFree_of_mem_segments (s f : String) (h : f ∈ segments s) : sepFree f := by
  simp only [segments, List.mem_map] at h
  obtain ⟨l, hl, rfl⟩ := h
  exact not_mem_of_mem_splitSep s.data l hl

theorem segments_joinSep_cons (d : String) (ks : List String) (h : ∀ k ∈ ks, sepFree k) :
    segments (joinSep (d :: ks)) = segments d ++ ks := by
  induction ks generalizing d with
  | nil => simp [joinSep]
  | cons k rest ih =>
    have hk : sepFree k := h k (by simp)
    have hrest : ∀ x ∈ rest, sepFree x := fun x hx => h x (by simp [hx])
    simp only [joinSep]
    rw [segments_append_sep, ih k hrest, segments_of_sepFree k hk]
    simp

/-! ## Lemmas: the lexical processing of `Clean` -/

theorem plainSegment_iff (s : String) : plainSegment s ↔ properSeg s ∧ sepFree s := by
  unfold plainSegment properSeg sepFree; tauto

theorem cleanStep_proper (r : Bool) (st : List String) (s : String) (h : properSeg s) :
    cleanStep r st s = s :: st := by
  obtain ⟨h1, h2, h3⟩ := h
  simp [cleanStep, h1, h2, h3]

theorem foldl_cleanStep_proper (r : Bool) (xs acc : List String) (h : ∀ s ∈ xs, properSeg s) :
    xs.foldl (cleanStep r) acc = xs.reverse ++ acc := by
  induction xs generalizing acc with
  | nil => simp
  | cons x xs ih =>
    have hx := h x (by simp)
    have hxs : ∀ s ∈ xs, properSeg s := fun s hs => h s (by simp [hs])
    simp [List.foldl_cons, cleanStep_proper r acc x hx, ih _ hxs]

theorem validStack_nil (r : Bool) : ValidStack r [] := ⟨[], 0, by simp, by simp, by simp⟩

theorem validStack_cons (r : Bool) (st : List String) (s : String) (hs : properSeg s)
    (h : ValidStack r st) : ValidStack r (s :: st) := by
  obtain ⟨ps, n, rfl, hps, hn⟩ := h
  refine ⟨s :: ps, n, by simp, ?_, hn⟩
  intro x hx
  simp only [List.mem_cons] at hx
  rcases hx with hx | hx
  · exact hx ▸ hs
  · exact hps x hx

theorem validStack_step (r : Bool) (st : List String) (seg : String) (h : ValidStack r st) :
    ValidStack r (cleanStep r st seg) := by
  by_cases h1 : seg = "" ∨ seg = "."
  · simp only [cleanStep, h1, if_true]; exact h
  · by_cases h2 : seg = ".."
    · obtain ⟨ps, n, rfl, hps, hn⟩ := h
      simp only [cleanStep, h1, if_false, h2, if_true]
      cases ps with
      | nil =>
        cases n with
        | zero =>
          cases r
          · exact ⟨[], 1, by simp [List.replicate], by simp, by simp⟩
          · exact ⟨[], 0, by simp, by simp, by simp⟩
        | succ m =>
          have hr : r = false := by
            cases r
            · rfl
            · exact absurd (hn rfl) (by simp)
          subst hr
          simp only [List.nil_append, List.replicate_succ, if_true]
          exact ⟨[], m + 2, by simp [List.replicate_succ], by simp, by simp⟩
      | cons p ps =>
        have hp : p ≠ ".." := (hps p (by simp)).2.2
        simp only [List.cons_append, hp, if_false]
        exact ⟨ps, n, rfl, fun s hs => hps s (by simp [hs]), hn⟩
    · have hp : properSeg seg := ⟨fun e => h1 (Or.inl e), fun e => h1 (Or.inr e), h2⟩
      rw [cleanStep_proper r st seg hp]
      exact validStack_cons r st seg hp h

theorem validStack_foldl (r : Bool) (xs acc : List String) (h : ValidStack r acc) :
    ValidStack r (xs.foldl (cleanStep r) acc) := by
  induction xs generalizing acc with
  | nil => exact h
  | cons x xs ih => exact ih _ (validStack_step r acc x h)

theorem foldl_cleanStep_dots (n m : Nat) :
    (List.replicate n "..").foldl (cleanStep false) (List.replicate m "..") =
      List.replicate (n + m) ".." := by
  induction n generalizing m with
  | zero => simp
  | succ n ih =>
    have hstep : cleanStep false (List.replicate m "..") ".." = List.replicate (m + 1) ".." := by
      cases m with
      | zero => simp [cleanStep]
      | succ k => simp [cleanStep, List.replicate_succ]
    rw [List.replicate_succ, List.foldl_cons, hstep, ih (m + 1)]
    congr 1
    omega

theorem foldl_reverse_validStack (r : Bool) (st : List String) (h : ValidStack r st) :
    st.reverse.foldl (cleanStep r) [] = st := by
  obtain ⟨ps, n, rfl, hps, hn⟩ := h
  have hps' : ∀ s ∈ ps.reverse, properSeg s := fun s hs => hps s (by simpa using hs)
  rw [List.reverse_append, List.reverse_replicate, List.foldl_append]
  cases r with
  | true =>
    have h0 : n = 0 := hn rfl
    subst h0
    simp [foldl_cleanStep_proper true _ _ hps']
  | false =>
    have := foldl_cleanStep_dots n 0
    simp only [List.replicate_zero, Nat.add_zero] at this
    rw [this, foldl_cleanStep_proper false _ _ hps']
    simp

theorem validStack_cleanSegs (r : Bool) (xs : List String) :
    ValidStack r (cleanSegs r xs).reverse := by
  simp only [cleanSegs, List.reverse_reverse]
  exact validStack_foldl r xs [] (validStack_nil r)

/-- Cleaning is not changed by cleaning a front part first. -/
theorem cleanSegs_cleanSegs_append (r : Bool) (xs ys : List String) :
    cleanSegs r (cleanSegs r xs ++ ys) = cleanSegs r (xs ++ ys) := by
  have hv := validStack_foldl r xs [] (validStack_nil r)
  simp only [cleanSegs, List.foldl_append]
  rw [foldl_reverse_validStack r _ hv]

theorem cleanSegs_append_proper (r : Bool) (xs ks : List String) (h : ∀ k ∈ ks, properSeg k) :
    cleanSegs r (xs ++ ks) = cleanSegs r xs ++ ks := by
  simp [cleanSegs, List.foldl_append, foldl_cleanStep_proper r ks _ h]

theorem cleanSegs_empty_cons (r : Bool) (xs : List String) :
    cleanSegs r ("" :: xs) = cleanSegs r xs := by
  simp [cleanSegs, cleanStep]

theorem foldl_cleanStep_true_dots (n : Nat) :
    (List.replicate n "..").foldl (cleanStep true) [] = [] := by
  induction n with
  | zero => simp
  | succ n ih => simp [List.replicate_succ, cleanStep, ih]

/-- The stack of a relative path is the stack of the rooted path above some `..`. -/
theorem foldl_cleanStep_false_true (xs : List String) :
    ∃ n, xs.foldl (cleanStep false) [] =
        xs.foldl (cleanStep true) [] ++ List.replicate n ".." ∧
      ∀ s ∈ xs.foldl (cleanStep true) [], properSeg s := by
  induction xs using List.reverseRecOn with
  | nil => exact ⟨0, by simp, by simp⟩
  | append_singleton xs x ih =>
    obtain ⟨n, hF, hT⟩ := ih
    simp only [List.foldl_append, List.foldl_cons, List.foldl_nil]
    rw [hF]
    generalize xs.foldl (cleanStep true) [] = stT at hT
    by_cases h1 : x = "" ∨ x = "."
    · exact ⟨n, by simp [cleanStep, h1], by simpa [cleanStep, h1] using hT⟩
    · by_cases h2 : x = ".."
      · subst h2
        cases stT with
        | nil =>
          cases n with
          | zero => exact ⟨1, by simp [cleanStep], by simp [cleanStep]⟩
          | succ m =>
            exact ⟨m + 2, by simp [cleanStep, List.replicate_succ], by simp [cleanStep]⟩
        | cons t st =>
          have ht : t ≠ ".." := (hT t (by simp)).2.2
          exact ⟨n, by simp [cleanStep, ht], by
            intro s hs
            simp only [cleanStep, ht] at hs
            exact hT s (by simpa using Or.inr hs)⟩
      · have hp : properSeg x := ⟨fun e => h1 (Or.inl e), fun e => h1 (Or.inr e), h2⟩
        refine ⟨n, by simp [cleanStep_proper _ _ x hp], ?_⟩
        intro s hs
        rw [cleanStep_proper _ _ x hp] at hs
        simp only [List.mem_cons] at hs
        rcases hs with hs | hs
        · exact hs ▸ hp
        · exact hT s hs

theorem cleanSegs_true_cleanSegs (r : Bool) (xs : List String) :
    cleanSegs true (cleanSegs r xs) = cleanSegs true xs := by
  cases r with
  | true => simpa using cleanSegs_cleanSegs_append true xs []
  | false =>
    obtain ⟨n, hF, hT⟩ := foldl_cleanStep_false_true xs
    have hT' : ∀ s ∈ (xs.foldl (cleanStep true) []).reverse, properSeg s :=
      fun s hs => hT s (by simpa using hs)
    simp only [cleanSegs]
    rw [hF, List.reverse_append, List.reverse_replicate, List.foldl_append,
      foldl_cleanStep_true_dots, foldl_cleanStep_proper true _ _ hT']
    simp

/-! ## Lemmas: `Clean`, `Join`, `Dir` and `resolve` -/

theorem mem_cleanStep (r : Bool) (st : List String) (seg s : String)
    (h : s ∈ cleanStep r st seg) : s ∈ st ∨ s = seg := by
  unfold cleanStep at h
  split at h
  · exact Or.inl h
  · split at h
    · rename_i h2
      split at h
      · split at h
        · simp at h
        · simp at h; exact Or.inr (h.trans h2.symm)
      · split at h
        · simp only [List.mem_cons] at h
          rcases h with h | h
          · exact Or.inr (h.trans h2.symm)
          · exact Or.inl (by simpa using h)
        · exact Or.inl (by simp [h])
    · simp only [List.mem_cons] at h
      rcases h with h | h
      · exact Or.inr h
      · exact Or.inl h

theorem mem_foldl_cleanStep (r : Bool) (xs acc : List String) (s : String)
    (h : s ∈ xs.foldl (cleanStep r) acc) : s ∈ acc ∨ s ∈ xs := by
  induction xs generalizing acc with
  | nil => exact Or.inl h
  | cons x xs ih =>
    rcases ih _ h with h1 | h1
    · rcases mem_cleanStep r acc x s h1 with h2 | h2
      · exact Or.inl h2
      · exact Or.inr (by simp [h2])
    · exact Or.inr (by simp [h1])

theorem mem_cleanSegs (r : Bool) (xs : List String) (s : String) (h : s ∈ cleanSegs r xs) :
    s ∈ xs := by
  simp only [cleanSegs, List.mem_reverse] at h
  rcases mem_foldl_cleanStep r xs [] s h with h1 | h1
  · simp at h1
  · exact h1

theorem cleanSegs_of_validStack (r : Bool) (cs : List String) (h : ValidStack r cs.reverse) :
    cleanSegs r cs = cs := by
  have := foldl_reverse_validStack r cs.reverse h
  simp only [List.reverse_reverse] at this
  simp [cleanSegs, this]

theorem validStack_append_proper (r : Bool) (cs ks : List String)
    (h : ValidStack r cs.reverse) (hk : ∀ k ∈ ks, properSeg k) :
    ValidStack r (cs ++ ks).reverse := by
  induction ks using List.reverseRecOn with
  | nil => simpa using h
  | append_singleton ks k ih =>
    have h1 := ih (fun x hx => hk x (by simp [hx]))
    have h2 : (cs ++ (ks ++ [k])).reverse = k :: (cs ++ ks).reverse := by simp
    rw [h2]
    exact validStack_cons r _ k (hk k (by simp)) h1

theorem ne_empty_of_validStack (r : Bool) (st : List String) (h : ValidStack r st) :
    ∀ s ∈ st, s ≠ "" := by
  obtain ⟨ps, n, rfl, hps, _⟩ := h
  intro s hs
  simp only [List.mem_append, List.mem_replicate] at hs
  rcases hs with hs | hs
  · exact (hps s hs).1
  · rw [hs.2]; decide

theorem segments_empty : segments "" = [""] := by decide

theorem segments_joinSep (cs : List String) (h : ∀ s ∈ cs, sepFree s) (hne : cs ≠ []) :
    segments (joinSep cs) = cs := by
  cases cs with
  | nil => exact absurd rfl hne
  | cons d ks =>
    rw [segments_joinSep_cons d ks (fun k hk => h k (by simp [hk])),
      segments_of_sepFree d (h d (by simp))]
    simp

theorem slash_append (x : String) : "/" ++ x = "" ++ "/" ++ x := by
  apply String.ext; simp [String.data_append]

theorem resolve_render (r : Bool) (cs : List String) (h : ∀ s ∈ cs, sepFree s) :
    resolve (render r cs) = cleanSegs true cs := by
  unfold resolve render
  cases r with
  | true =>
    simp only [if_true]
    rw [slash_append, segments_append_sep, segments_empty]
    by_cases hne : cs = []
    · subst hne; decide
    · rw [segments_joinSep cs h hne]
      simp [cleanSegs_empty_cons]
  | false =>
    by_cases hne : cs = []
    · subst hne; decide
    · simp only [Bool.false_eq_true, if_false, hne]
      rw [segments_joinSep cs h hne]

theorem sepFree_cleanSegs_segments (r : Bool) (s : String) :
    ∀ x ∈ cleanSegs r (segments s), sepFree x :=
  fun x hx => sepFree_of_mem_segments s x (mem_cleanSegs r _ x hx)

/-- A cleaned path names the file the path names. -/
theorem resolve_Clean (s : String) : resolve (Clean s) = resolve s := by
  unfold Clean
  rw [resolve_render _ _ (sepFree_cleanSegs_segments _ s), cleanSegs_true_cleanSegs]
  rfl

theorem isRooted_append (d x : String) (h : d ≠ "") : isRooted (d ++ x) = isRooted d := by
  unfold isRooted
  rw [String.data_append]
  cases hd : d.data with
  | nil => exact absurd (String.ext (by simpa using hd)) h
  | cons c cs => simp

theorem isRooted_joinSep_cons (d : String) (ks : List String) (h : d ≠ "") :
    isRooted (joinSep (d :: ks)) = isRooted d := by
  cases ks with
  | nil => simp [joinSep]
  | cons k rest =>
    simp only [joinSep]
    rw [String.append_assoc, isRooted_append d _ h]

theorem isRooted_of_sepFree (k : String) (h : sepFree k) : isRooted k = false := by
  unfold isRooted
  cases hd : k.data with
  | nil => rfl
  | cons c cs =>
    have : c ≠ '/' := fun e => h (by rw [hd, e]; simp)
    simp [this]

theorem joinBase_valid (d : String) : ValidStack (joinBase d).1 (joinBase d).2.reverse := by
  unfold joinBase
  split
  · exact validStack_nil false
  · exact validStack_cleanSegs _ _

theorem joinBase_sepFree (d : String) : ∀ x ∈ (joinBase d).2, sepFree x := by
  unfold joinBase
  split
  · simp
  · exact sepFree_cleanSegs_segments _ d

theorem cleanSegs_true_joinBase (d : String) : cleanSegs true (joinBase d).2 = resolve d := by
  unfold joinBase
  split
  · rename_i h; subst h; decide
  · simp only [cleanSegs_true_cleanSegs]; rfl

/-- A `Join` of a first element with file names is the cleaned first element followed by the
names. -/
theorem Join_cons_plain (d : String) (ks : List String) (hks : ∀ k ∈ ks, plainSegment k)
    (hne : ks ≠ []) :
    Join (d :: ks) = render (joinBase d).1 ((joinBase d).2 ++ ks) := by
  have hproper : ∀ k ∈ ks, properSeg k := fun k hk => ((plainSegment_iff k).1 (hks k hk)).1
  have hsep : ∀ k ∈ ks, sepFree k := fun k hk => ((plainSegment_iff k).1 (hks k hk)).2
  by_cases hd : d = ""
  · subst hd
    cases ks with
    | nil => exact absurd rfl hne
    | cons k rest =>
      have hk : k ≠ "" := (hproper k (by simp)).1
      have hrest : ∀ x ∈ rest, sepFree x := fun x hx => hsep x (by simp [hx])
      have hroot : isRooted (joinSep (k :: rest)) = false := by
        rw [isRooted_joinSep_cons k rest hk]
        exact isRooted_of_sepFree k (hsep k (by simp))
      simp only [Join, List.dropWhile, decide_True, hk, decide_False, Clean, hroot]
      rw [segments_joinSep (k :: rest) hsep (by simp)]
      have := cleanSegs_append_proper false [] (k :: rest) hproper
      simp only [List.nil_append] at this
      rw [this]
      simp [joinBase, cleanSegs]
  · have hroot : isRooted (joinSep (d :: ks)) = isRooted d := isRooted_joinSep_cons d ks hd
    simp only [Join, List.dropWhile, hd, decide_False, Clean, hroot]
    rw [segments_joinSep_cons d ks hsep, cleanSegs_append_proper _ _ ks hproper]
    simp [joinBase, hd]

theorem resolve_Join_cons_plain (d : String) (ks : List String)
    (hks : ∀ k ∈ ks, plainSegment k) (hne : ks ≠ []) :
    resolve (Join (d :: ks)) = resolve d ++ ks := by
  have hproper : ∀ k ∈ ks, properSeg k := fun k hk => ((plainSegment_iff k).1 (hks k hk)).1
  have hsep : ∀ k ∈ ks, sepFree k := fun k hk => ((plainSegment_iff k).1 (hks k hk)).2
  rw [Join_cons_plain d ks hks hne, resolve_render, cleanSegs_append_proper _ _ ks hproper,
    cleanSegs_true_joinBase]
  intro s hs
  simp only [List.mem_append] at hs
  rcases hs with hs | hs
  · exact joinBase_sepFree d s hs
  · exact hsep s hs

/-- The file `filepath.Join(d, k)` names for a file name `k`. -/
theorem resolve_Join_pair (d k : String) (hk : plainSegment k) :
    resolve (Join [d, k]) = resolve d ++ [k] :=
  resolve_Join_cons_plain d [k] (by simpa using hk) (by simp)

theorem joinSep_append_singleton (cs : List String) (k : String) (hne : cs ≠ []) :
    joinSep (cs ++ [k]) = joinSep cs ++ "/" ++ k := by
  induction cs with
  | nil => exact absurd rfl hne
  | cons c rest ih =>
    cases rest with
    | nil => simp [joinSep]
    | cons c2 rest2 =>
      have h := ih (by simp)
      have e : joinSep (c :: c2 :: rest2 ++ [k]) = c ++ "/" ++ joinSep (c2 :: rest2 ++ [k]) := rfl
      have e2 : joinSep (c :: c2 :: rest2) = c ++ "/" ++ joinSep (c2 :: rest2) := rfl
      rw [e, h, e2]
      simp [String.append_assoc]

theorem dirPrefix_append_sep (x k : List Char) (hk : '/' ∉ k) :
    dirPrefix (x ++ '/' :: k) = x ++ ['/'] := by
  unfold dirPrefix
  have h1 : (x ++ '/' :: k).reverse = k.reverse ++ '/' :: x.reverse := by simp
  rw [h1, List.dropWhile_append_of_pos, List.dropWhile_cons_of_neg]
  · simp
  · simp
  · intro c hc
    have : c ≠ '/' := fun e => hk (by simpa [e] using hc)
    simp [this]

theorem dirPrefix_of_sepFree (k : List Char) (hk : '/' ∉ k) : dirPrefix k = [] := by
  unfold dirPrefix
  have : k.reverse.dropWhile (fun c => !decide (c = '/')) = [] := by
    rw [List.dropWhile_eq_nil_iff]
    intro c hc
    have : c ≠ '/' := fun e => hk (by simpa [e] using hc)
    simp [this]
  simp [this]

theorem isRooted_joinSep_of_valid (r : Bool) (cs : List String) (hne : cs ≠ [])
    (hv : ValidStack r cs.reverse) (hsep : ∀ s ∈ cs, sepFree s) (x : String) :
    isRooted (joinSep cs ++ x) = false := by
  cases cs with
  | nil => exact absurd rfl hne
  | cons d ks =>
    have hd : d ≠ "" := ne_empty_of_validStack r _ hv d (by simp)
    have hj : joinSep (d :: ks) ≠ "" := by
      intro e
      have h1 := isRooted_joinSep_cons d ks hd
      cases ks with
      | nil => exact hd (by simpa [joinSep] using e)
      | cons k rest =>
        simp only [joinSep] at e
        have := congrArg String.data e
        simp [String.data_append] at this
    rw [isRooted_append _ x hj, isRooted_joinSep_cons d ks hd]
    exact isRooted_of_sepFree d (hsep d (by simp))

/-- The directory of a cleaned path that ends in a file name is the cleaned path without it. -/
theorem Dir_render_append (r : Bool) (cs : List String) (k : String)
    (hv : ValidStack r cs.reverse) (hsep : ∀ s ∈ cs, sepFree s) (hk : plainSegment k) :
    Dir (render r (cs ++ [k])) = render r cs := by
  have hksep : '/' ∉ k.data := ((plainSegment_iff k).1 hk).2
  have hfix := cleanSegs_of_validStack r cs hv
  by_cases hne : cs = []
  · subst hne
    cases r with
    | true =>
      have h1 : (render true ([] ++ [k])).data = [] ++ '/' :: k.data := by
        simp [render, joinSep, String.data_append]
      unfold Dir
      rw [h1, dirPrefix_append_sep [] k.data hksep]
      decide
    | false =>
      have h1 : (render false ([] ++ [k])).data = k.data := by
        simp [render, joinSep]
      unfold Dir
      rw [h1, dirPrefix_of_sepFree k.data hksep]
      decide
  · cases r with
    | true =>
      have h1 : (render true (cs ++ [k])).data = ("/" ++ joinSep cs).data ++ '/' :: k.data := by
        simp [render, joinSep_append_singleton cs k hne, String.data_append]
      unfold Dir
      rw [h1, dirPrefix_append_sep _ k.data hksep]
      have h2 : String.mk (("/" ++ joinSep cs).data ++ ['/']) = "/" ++ joinSep cs ++ "/" ++ "" := by
        apply String.ext; simp [String.data_append]
      have h3 : isRooted ("/" ++ joinSep cs ++ "/" ++ "") = true := by
        simp [isRooted, String.data_append]
      rw [h2]
      unfold Clean
      rw [h3, segments_append_sep, slash_append, segments_append_sep, segments_empty,
        segments_joinSep cs hsep hne]
      have h4 : cleanSegs true ([""] ++ cs ++ [""]) = cleanSegs true cs := by
        simp [cleanSegs, List.foldl_append, cleanStep]
      rw [h4, hfix]
    | false =>
      have h1 : (render false (cs ++ [k])).data = (joinSep cs).data ++ '/' :: k.data := by
        simp [render, hne, joinSep_append_singleton cs k hne, String.data_append]
      unfold Dir
      rw [h1, dirPrefix_append_sep _ k.data hksep]
      have h2 : String.mk ((joinSep cs).data ++ ['/']) = joinSep cs ++ "/" ++ "" := by
        apply String.ext; simp [String.data_append]
      have h3 : isRooted (joinSep cs ++ "/" ++ "") = false := by
        rw [String.append_assoc]
        exact isRooted_joinSep_of_valid false cs hne hv hsep _
      rw [h2]
      unfold Clean
      rw [h3, segments_append_sep, segments_empty, segments_joinSep cs hsep hne]
      have h4 : cleanSegs false (cs ++ [""]) = cleanSegs false cs := by
        simp [cleanSegs, List.foldl_append, cleanStep]
      rw [h4, hfix]

/-- The directory of a `Join` that ends in a file name is the `Join` without it. -/
theorem Dir_Join_append (d : String) (ks : List String) (k : String)
    (hks : ∀ x ∈ ks, plainSegment x) (hne : ks ≠ []) (hk : plainSegment k) :
    Dir (Join (d :: (ks ++ [k]))) = Join (d :: ks) := by
  have hall : ∀ x ∈ ks ++ [k], plainSegment x := by
    intro x hx
    simp only [List.mem_append, List.mem_singleton] at hx
    rcases hx with hx | hx
    · exact hks x hx
    · exact hx ▸ hk
  have hproper : ∀ x ∈ ks, properSeg x := fun x hx => ((plainSegment_iff x).1 (hks x hx)).1
  have hsep : ∀ x ∈ ks, sepFree x := fun x hx => ((plainSegment_iff x).1 (hks x hx)).2
  rw [Join_cons_plain d (ks ++ [k]) hall (by simp), Join_cons_plain d ks hks hne,
    ← List.append_assoc]
  apply Dir_render_append
  · exact validStack_append_proper _ _ ks (joinBase_valid d) hproper
  · intro s hs
    simp only [List.mem_append] at hs
    rcases hs with hs | hs
    · exact joinBase_sepFree d s hs
    · exact hsep s hs
  · exact hk

theorem render_append_data (r : Bool) (cs : List String) (k : String) :
    ∃ pre : List Char, (render r (cs ++ [k])).data = pre ++ k.data ∧
      (pre = [] ∨ ∃ pre0, pre = pre0 ++ ['/']) := by
  by_cases hne : cs = []
  · subst hne
    cases r with
    | true => exact ⟨['/'], by simp [render, joinSep, String.data_append], Or.inr ⟨[], rfl⟩⟩
    | false => exact ⟨[], by simp [render, joinSep], Or.inl rfl⟩
  · cases r with
    | true =>
      exact ⟨("/" ++ joinSep cs ++ "/").data, by
        simp [render, joinSep_append_singleton cs k hne, String.data_append],
        Or.inr ⟨("/" ++ joinSep cs).data, by simp [String.data_append]⟩⟩
    | false =>
      exact ⟨(joinSep cs ++ "/").data, by
        simp [render, hne, joinSep_append_singleton cs k hne, String.data_append],
        Or.inr ⟨(joinSep cs).data, by simp [String.data_append]⟩⟩

theorem render_append_ne_empty (r : Bool) (cs : List String) (k : String) (hk : k ≠ "") :
    render r (cs ++ [k]) ≠ "" := by
  obtain ⟨pre, hd, _⟩ := render_append_data r cs k
  intro e
  rw [e] at hd
  have : k.data = [] := by
    have h0 : ("" : String).data = [] := rfl
    rw [h0] at hd
    exact (List.append_eq_nil.1 hd.symm).2
  exact hk (String.ext this)

theorem endsWithDot_render_append (r : Bool) (cs : List String) (k : String)
    (hk : plainSegment k) : endsWithDot (render r (cs ++ [k])) = false := by
  obtain ⟨pre, hd, hpre⟩ := render_append_data r cs k
  obtain ⟨h1, h2, _, h4⟩ := hk
  unfold endsWithDot
  rw [hd, List.reverse_append]
  cases hkd : k.data.reverse with
  | nil =>
    have : k.data = [] := by simpa using hkd
    exact absurd (String.ext this) h1
  | cons c rest =>
    cases rest with
    | nil =>
      have hkc : k.data = [c] := by
        have := congrArg List.reverse hkd
        simpa using this
      have hc : c ≠ '.' := by
        intro e
        apply h2
        apply String.ext
        rw [hkc, e]
      rcases hpre with hp | ⟨pre0, hp⟩
      · subst hp
        simp only [List.reverse_nil, List.append_nil]
        split
        · rename_i heq; simp at heq; exact absurd heq hc
        · rename_i heq; simp at heq
        · rfl
      · subst hp
        simp only [List.reverse_append, List.reverse_cons, List.reverse_nil, List.nil_append,
          List.singleton_append, List.cons_append]
        split
        · rename_i heq; simp at heq
        · rename_i heq; simp at heq; exact absurd heq.1 hc
        · rfl
    | cons c2 rest2 =>
      have hc2 : c2 ≠ '/' := by
        intro e
        apply h4
        have : c2 ∈ k.data.reverse := by rw [hkd]; simp
        simpa [e] using this
      simp only [List.cons_append]
      split
      · rename_i heq; simp at heq
      · rename_i heq; simp at heq; exact absurd heq.2.1 hc2
      · rfl

theorem Join_cons_plain_ne_empty (d : String) (ks : List String)
    (hks : ∀ k ∈ ks, plainSegment k) (hne : ks ≠ []) : Join (d :: ks) ≠ "" := by
  rw [Join_cons_plain d ks hks hne]
  obtain ⟨ini, k, rfl⟩ : ∃ ini k, ks = ini ++ [k] := by
    rcases List.eq_nil_or_concat ks with h | ⟨ini, k, h⟩
    · exact absurd h hne
    · exact ⟨ini, k, by simpa using h⟩
  rw [← List.append_assoc]
  exact render_append_ne_empty _ _ k (hks k (by simp)).1

theorem endsWithDot_Join_cons_plain (d : String) (ks : List String)
    (hks : ∀ k ∈ ks, plainSegment k) (hne : ks ≠ []) : endsWithDot (Join (d :: ks)) = false := by
  rw [Join_cons_plain d ks hks hne]
  obtain ⟨ini, k, rfl⟩ : ∃ ini k, ks = ini ++ [k] := by
    rcases List.eq_nil_or_concat ks with h | ⟨ini, k, h⟩
    · exact absurd h hne
    · exact ⟨ini, k, by simpa using h⟩
  rw [← List.append_assoc]
  exact endsWithDot_render_append _ _ k (hks k (by simp))

/-! ## Lemmas: finite maps -/

theorem mapGet_mapSet {κ α : Type} [DecidableEq κ] (m : List (κ × α)) (k k' : κ) (v : α) :
    mapGet (mapSet m k v) k' = if k = k' then some v else mapGet m k' := by
  induction m with
  | nil => simp [mapSet, mapGet]
  | cons e rest ih =>
    obtain ⟨a, b⟩ := e
    by_cases h : a = k
    · subst h
      by_cases h2 : a = k' <;> simp [mapSet, mapGet, h2]
    · by_cases h2 : a = k'
      · subst h2
        have : ¬ k = a := fun e => h e.symm
        simp [mapSet, mapGet, h, this]
      · simp [mapSet, mapGet, h, h2, ih]

theorem mapGet_filter_key {κ α : Type} [DecidableEq κ] (m : List (κ × α)) (P : κ → Bool)
    (k : κ) : mapGet (m.filter (fun e => P e.1)) k = if P k then mapGet m k else none := by
  induction m with
  | nil => simp [mapGet]
  | cons e rest ih =>
    obtain ⟨a, b⟩ := e
    by_cases hP : P a = true
    · by_cases h : a = k
      · subst h; simp [List.filter, hP, mapGet]
      · simp [List.filter, hP, mapGet, h, ih]
    · have hP' : P a = false := by simpa using hP
      by_cases h : a = k
      · subst h; simp [List.filter, hP', mapGet, ih]
      · simp [List.filter, hP', mapGet, h, ih]

theorem mapGet_mapDelete {κ α : Type} [DecidableEq κ] (m : List (κ × α)) (k k' : κ) :
    mapGet (mapDelete m k) k' = if k' = k then none else mapGet m k' := by
  unfold mapDelete
  rw [mapGet_filter_key m (fun a => !decide (a = k)) k']
  by_cases h : k' = k <;> simp [h]

theorem mapDelete_mapDelete {κ α : Type} [DecidableEq κ] (m : List (κ × α)) (k : κ) :
    mapDelete (mapDelete m k) k = mapDelete m k := by
  unfold mapDelete
  rw [List.filter_filter]
  simp

theorem mapGet_eq_none_iff {κ α : Type} [DecidableEq κ] (m : List (κ × α)) (k : κ) :
    mapGet m k = none ↔ ∀ e ∈ m, e.1 ≠ k := by
  induction m with
  | nil => simp [mapGet]
  | cons e rest ih =>
    obtain ⟨a, b⟩ := e
    by_cases h : a = k
    · simp [mapGet, h]
    · simp [mapGet, h, ih]

theorem mapDelete_of_mapGet_none {κ α : Type} [DecidableEq κ] (m : List (κ × α)) (k : κ)
    (h : mapGet m k = none) : mapDelete m k = m := by
  unfold mapDelete
  rw [List.filter_eq_self]
  intro e he
  have := (mapGet_eq_none_iff m k).1 h e he
  simp [this]

/-! ## Lemmas: the file system -/

theorem node_nil (fs : FS) : fs.node [] = some Node.dir := by simp [FS.node]

theorem node_of_ne_nil (fs : FS) (p : List String) (h : p ≠ []) : fs.node p = mapGet fs p := by
  simp [FS.node, h]

theorem node_mapSet (fs : FS) (p q : List String) (n : Node) (hp : p ≠ []) :
    FS.node (mapSet fs p n) q = if q = p then some n else fs.node q := by
  by_cases hq : q = []
  · subst hq
    have : ¬ ([] : List String) = p := fun e => hp e.symm
    simp [FS.node, this]
  · simp only [FS.node, hq, if_false, mapGet_mapSet]
    by_cases h : p = q
    · simp [h]
    · have : ¬ q = p := fun e => h e.symm
      simp [h, this]

theorem node_filter_below (fs : FS) (p q : List String) (hp : p ≠ []) :
    FS.node (fs.filter (fun e => !p.isPrefixOf e.1)) q =
      if p.isPrefixOf q then none else fs.node q := by
  by_cases hq : q = []
  · subst hq
    have : p.isPrefixOf [] = false := by
      cases p with
      | nil => exact absurd rfl hp
      | cons a t => rfl
    simp [FS.node, this]
  · simp only [FS.node, hq, if_false]
    rw [mapGet_filter_key fs (fun a => !p.isPrefixOf a) q]
    cases p.isPrefixOf q <;> simp

/-- The effect of `RemoveAll` on a path that names a file other than the root. -/
theorem RemoveAll_node (fs : FS) (path : String) (q : List String) (h1 : path ≠ "")
    (h2 : endsWithDot path = false) (h3 : resolve path ≠ []) :
    (RemoveAll fs path).1.node q = if (resolve path).isPrefixOf q then none else fs.node q := by
  simp only [RemoveAll, h1, h2, h3, if_false, Bool.false_eq_true]
  exact node_filter_below fs _ q h3

theorem RemoveAll_empty (fs : FS) : RemoveAll fs "" = (fs, none) := by simp [RemoveAll]

theorem isPrefixOf_refl (p : List String) : p.isPrefixOf p = true := by
  induction p with
  | nil => rfl
  | cons a t ih => simp [List.isPrefixOf, ih]

theorem WriteFile_node (fs : FS) (path : String) (data : Content) (q : List String)
    (h : (WriteFile fs path data).2 = none) :
    (WriteFile fs path data).1.node q =
      if q = resolve path then some (Node.file data) else fs.node q := by
  unfold WriteFile at h ⊢
  by_cases hp : path = ""
  · simp [hp] at h
  · simp only [hp, if_false] at h ⊢
    have hne : resolve path ≠ [] := by
      intro e
      rw [e, node_nil] at h
      simp at h
    cases h1 : fs.node (resolve path) with
    | some n =>
      cases n with
      | dir => rw [h1] at h; simp at h
      | file c =>
        rw [h1] at h
        simp only at h ⊢
        cases h2 : fs.node (resolve path).dropLast with
        | none => rw [h2] at h; simp at h
        | some m =>
          cases m with
          | dir => simp only; exact node_mapSet fs _ q _ hne
          | file c2 => rw [h2] at h; simp at h
    | none =>
      rw [h1] at h
      simp only at h ⊢
      cases h2 : fs.node (resolve path).dropLast with
      | none => rw [h2] at h; simp at h
      | some m =>
        cases m with
        | dir => simp only; exact node_mapSet fs _ q _ hne
        | file c2 => rw [h2] at h; simp at h

theorem WriteFile_error (fs : FS) (path : String) (data : Content) (e : String)
    (h : (WriteFile fs path data).2 = some e) : (WriteFile fs path data).1 = fs := by
  unfold WriteFile at h ⊢
  by_cases hp : path = ""
  · simp [hp]
  · simp only [hp, if_false] at h ⊢
    cases h1 : fs.node (resolve path) with
    | some n =>
      cases n with
      | dir => rfl
      | file c =>
        rw [h1] at h
        simp only at h ⊢
        cases h2 : fs.node (resolve path).dropLast with
        | none => rfl
        | some m =>
          cases m with
          | dir => rw [h2] at h; simp at h
          | file c2 => rfl
    | none =>
      rw [h1] at h
      simp only at h ⊢
      cases h2 : fs.node (resolve path).dropLast with
      | none => rfl
      | some m =>
        cases m with
        | dir => rw [h2] at h; simp at h
        | file c2 => rfl

/-- A write never removes a node, and never replaces a directory. -/
theorem WriteFile_node_cases (fs : FS) (path : String) (data : Content) (q : List String) :
    (WriteFile fs path data).1.node q = fs.node q ∨
      ((WriteFile fs path data).2 = none ∧ q = resolve path ∧ fs.node q ≠ some Node.dir ∧
        (WriteFile fs path data).1.node q = some (Node.file data)) := by
  cases h : (WriteFile fs path data).2 with
  | some e => left; rw [WriteFile_error fs path data e h]
  | none =>
    rw [WriteFile_node fs path data q h]
    by_cases hq : q = resolve path
    · right
      refine ⟨rfl, hq, ?_, by simp [hq]⟩
      intro hd
      unfold WriteFile at h
      by_cases hp : path = ""
      · simp [hp] at h
      · rw [hq] at hd
        simp [hp, hd] at h
    · left; simp [hq]

/-! ## Lemmas: the file writer -/

theorem mkdirAllRev_node_cases (fs : FS) (rp q : List String) :
    (mkdirAllRev fs rp).1.node q = fs.node q ∨
      (fs.node q = none ∧ (mkdirAllRev fs rp).1.node q = some Node.dir) := by
  induction rp with
  | nil => left; rfl
  | cons s parent ih =>
    unfold mkdirAllRev
    cases h : fs.node (s :: parent).reverse with
    | some n => cases n <;> (left; rfl)
    | none =>
      simp only
      cases h2 : mkdirAllRev fs parent with
      | mk fs1 e =>
        rw [h2] at ih
        cases e with
        | some err => exact ih
        | none =>
          simp only
          rw [node_mapSet fs1 _ q _ (by simp)]
          by_cases hq : q = (s :: parent).reverse
          · right
            rw [hq]
            exact ⟨h, by simp⟩
          · simp only [hq, if_false]; exact ih

theorem mkdirAllRev_ok (fs : FS) (rp : List String) (h : (mkdirAllRev fs rp).2 = none) :
    (mkdirAllRev fs rp).1.node rp.reverse = some Node.dir := by
  cases rp with
  | nil => simp [node_nil]
  | cons s parent =>
    unfold mkdirAllRev at h ⊢
    cases h1 : fs.node (s :: parent).reverse with
    | some n =>
      cases n with
      | dir => simpa using h1
      | file c => rw [h1] at h; simp at h
    | none =>
      rw [h1] at h
      simp only at h ⊢
      cases h2 : mkdirAllRev fs parent with
      | mk fs1 e =>
        rw [h2] at h
        cases e with
        | some err => simp at h
        | none =>
          simp only
          rw [node_mapSet fs1 _ _ _ (by simp)]
          simp

/-- A directory `MkdirAll` reports no error for exists afterwards. -/
theorem MkdirAll_ok (fs : FS) (path : String) (h : (MkdirAll fs path).2 = none) :
    path ≠ "" ∧ (MkdirAll fs path).1.node (resolve path) = some Node.dir := by
  unfold MkdirAll at h ⊢
  by_cases hp : path = ""
  · simp [hp] at h
  · simp only [hp, if_false] at h ⊢
    refine ⟨hp, ?_⟩
    have := mkdirAllRev_ok fs _ h
    simpa using this

/-- `MkdirAll` changes nothing that exists, and what it adds is a directory. -/
theorem MkdirAll_node_cases (fs : FS) (path : String) (q : List String) :
    (MkdirAll fs path).1.node q = fs.node q ∨
      (fs.node q = none ∧ (MkdirAll fs path).1.node q = some Node.dir) := by
  unfold MkdirAll
  by_cases hp : path = ""
  · simp [hp]
  · simp only [hp, if_false]
    exact mkdirAllRev_node_cases fs _ q

theorem writeEntries_nil (fs : FS) (dir : String) : writeEntries fs dir [] = (fs, none) := rfl

theorem writeEntries_cons_ok (fs : FS) (dir k : String) (v : List Nat)
    (rest : List (String × List Nat))
    (h : (writeEntries fs dir ((k, v) :: rest)).2 = none) :
    (WriteFile fs (Join [dir, k]) (Content.bytes v)).2 = none ∧
      writeEntries fs dir ((k, v) :: rest) =
        writeEntries (WriteFile fs (Join [dir, k]) (Content.bytes v)).1 dir rest := by
  simp only [writeEntries] at h ⊢
  cases hw : WriteFile fs (Join [dir, k]) (Content.bytes v) with
  | mk fs1 e =>
    rw [hw] at h
    cases e with
    | some err => simp at h
    | none => simp

theorem writeEntries_append (fs : FS) (dir : String) (a b : List (String × List Nat)) :
    writeEntries fs dir (a ++ b) =
      match writeEntries fs dir a with
      | (fs1, some e) => (fs1, some e)
      | (fs1, none) => writeEntries fs1 dir b := by
  induction a generalizing fs with
  | nil => simp [writeEntries]
  | cons x rest ih =>
    obtain ⟨k, v⟩ := x
    simp only [List.cons_append, writeEntries]
    cases hw : WriteFile fs (Join [dir, k]) (Content.bytes v) with
    | mk fs1 e =>
      cases e with
      | some err => simp
      | none => simp only; exact ih fs1

/-- The writes leave every path alone that no entry names. -/
theorem writeEntries_node_of_not_mem (fs : FS) (dir : String) (es : List (String × List Nat))
    (q : List String) (h : q ∉ es.map (fun e => resolve (Join [dir, e.1]))) :
    (writeEntries fs dir es).1.node q = fs.node q := by
  induction es generalizing fs with
  | nil => rfl
  | cons x rest ih =>
    obtain ⟨k, v⟩ := x
    simp only [List.map_cons, List.mem_cons, not_or] at h
    unfold writeEntries
    cases hw : WriteFile fs (Join [dir, k]) (Content.bytes v) with
    | mk fs1 e =>
      have hfs1 : fs1.node q = fs.node q := by
        rcases WriteFile_node_cases fs (Join [dir, k]) (Content.bytes v) q with h1 | h1
        · rw [hw] at h1; exact h1
        · exact absurd h1.2.1 h.1
      cases e with
      | some err => simpa using hfs1
      | none => simp only; rw [ih fs1 h.2, hfs1]

/-- After writes without error, an entry whose path no other entry names has its file. -/
theorem writeEntries_file (fs : FS) (dir : String) (es : List (String × List Nat))
    (hok : (writeEntries fs dir es).2 = none)
    (hnodup : (es.map (fun e => resolve (Join [dir, e.1]))).Nodup)
    (k : String) (v : List Nat) (hmem : (k, v) ∈ es) :
    Join [dir, k] ≠ "" ∧
      (writeEntries fs dir es).1.node (resolve (Join [dir, k])) =
        some (Node.file (Content.bytes v)) := by
  induction es generalizing fs with
  | nil => simp at hmem
  | cons x rest ih =>
    obtain ⟨k0, v0⟩ := x
    obtain ⟨hw, heq⟩ := writeEntries_cons_ok fs dir k0 v0 rest hok
    simp only [List.map_cons, List.nodup_cons] at hnodup
    rw [heq] at hok ⊢
    simp only [List.mem_cons, Prod.mk.injEq] at hmem
    rcases hmem with ⟨hk, hv⟩ | hmem
    · subst hk; subst hv
      refine ⟨?_, ?_⟩
      · intro e
        rw [e] at hw
        simp [WriteFile] at hw
      · rw [writeEntries_node_of_not_mem _ dir rest _ hnodup.1,
          WriteFile_node fs _ _ _ hw]
        simp
    · exact ih _ hok hnodup.2 hmem

/-- A regular file after the writes was there before with the same content, or is the file
of an entry. -/
theorem writeEntries_file_origin (fs : FS) (dir : String) (es : List (String × List Nat))
    (q : List String) (c : Content)
    (h : (writeEntries fs dir es).1.node q = some (Node.file c)) :
    fs.node q = some (Node.file c) ∨
      ∃ k v, (k, v) ∈ es ∧ q = resolve (Join [dir, k]) ∧ c = Content.bytes v := by
  induction es generalizing fs with
  | nil => left; exact h
  | cons x rest ih =>
    obtain ⟨k0, v0⟩ := x
    unfold writeEntries at h
    cases hw : WriteFile fs (Join [dir, k0]) (Content.bytes v0) with
    | mk fs1 e =>
      rw [hw] at h
      have hstep : fs1.node q = some (Node.file c) →
          fs.node q = some (Node.file c) ∨
            ∃ k v, (k, v) ∈ (k0, v0) :: rest ∧ q = resolve (Join [dir, k]) ∧
              c = Content.bytes v := by
        intro h1
        rcases WriteFile_node_cases fs (Join [dir, k0]) (Content.bytes v0) q with h2 | h2
        · rw [hw] at h2; left; rw [← h2]; exact h1
        · right
          rw [hw] at h2
          refine ⟨k0, v0, by simp, h2.2.1, ?_⟩
          have := h2.2.2.2
          rw [h1] at this
          simpa using this
      cases e with
      | some err => exact hstep (by simpa using h)
      | none =>
        simp only at h
        rcases ih fs1 h with h1 | ⟨k, v, hm, hq, hc⟩
        · exact hstep h1
        · exact Or.inr ⟨k, v, by simp [hm], hq, hc⟩

/-- The writes never remove a node: a directory stays a directory, a file stays a file. -/
theorem writeEntries_preserves (fs : FS) (dir : String) (es : List (String × List Nat))
    (q : List String) :
    (fs.node q = some Node.dir → (writeEntries fs dir es).1.node q = some Node.dir) ∧
      ((∃ c, fs.node q = some (Node.file c)) →
        ∃ c, (writeEntries fs dir es).1.node q = some (Node.file c)) := by
  induction es generalizing fs with
  | nil => exact ⟨fun h => h, fun h => h⟩
  | cons x rest ih =>
    obtain ⟨k0, v0⟩ := x
    unfold writeEntries
    cases hw : WriteFile fs (Join [dir, k0]) (Content.bytes v0) with
    | mk fs1 e =>
      have h1 : (fs.node q = some Node.dir → fs1.node q = some Node.dir) ∧
          ((∃ c, fs.node q = some (Node.file c)) → ∃ c, fs1.node q = some (Node.file c)) := by
        rcases WriteFile_node_cases fs (Join [dir, k0]) (Content.bytes v0) q with h2 | h2
        · rw [hw] at h2; simp only at h2; rw [h2]; exact ⟨fun h => h, fun h => h⟩
        · rw [hw] at h2
          exact ⟨fun h => absurd h h2.2.2.1, fun _ => ⟨_, h2.2.2.2⟩⟩
      cases e with
      | some err => exact h1
      | none =>
        simp only
        exact ⟨fun h => (ih fs1).1 (h1.1 h), fun h => (ih fs1).2 (h1.2 h)⟩

theorem commonUpsertRanger_other_key (fs : FS) (podPath filter key : String) (p : Payload)
    (h : key ≠ filter) : commonUpsertRanger fs podPath filter key p = (fs, none) := by
  simp [commonUpsertRanger, h]

/-- For the key of the filter `commonUpsertRanger` makes the directory of the key and writes
the entries of the payload into it. -/
theorem commonUpsertRanger_eq (fs : FS) (podPath key : String) (p : Payload) :
    commonUpsertRanger fs podPath key key p =
      match MkdirAll fs (Join [podPath, key]) with
      | (fs1, some err) => (fs1, some err)
      | (fs1, none) => writeEntries fs1 (Join [podPath, key]) (payloadEntries p) := by
  unfold commonUpsertRanger payloadEntries
  simp only [ne_eq, not_true_eq_false, if_false]
  cases hm : MkdirAll fs (Join [podPath, key]) with
  | mk fs1 e =>
    cases e with
    | some err => rfl
    | none =>
      simp only
      rw [writeEntries_append]

theorem commonUpsertRanger_ok (fs : FS) (podPath key : String) (p : Payload)
    (h : (commonUpsertRanger fs podPath key key p).2 = none) :
    (MkdirAll fs (Join [podPath, key])).2 = none ∧
      commonUpsertRanger fs podPath key key p =
        writeEntries (MkdirAll fs (Join [podPath, key])).1 (Join [podPath, key])
          (payloadEntries p) := by
  rw [commonUpsertRanger_eq] at h ⊢
  cases hm : MkdirAll fs (Join [podPath, key]) with
  | mk fs1 e =>
    rw [hm] at h
    cases e with
    | some err => simp at h
    | none => simp

/-- After `commonUpsertRanger` without error every entry of the payload, when no other entry
names the same file, has its file in the directory of the key. -/
theorem commonUpsertRanger_file (fs : FS) (podPath key : String) (p : Payload)
    (hok : (commonUpsertRanger fs podPath key key p).2 = none)
    (hnodup : ((payloadEntries p).map
      (fun e => resolve (Join [Join [podPath, key], e.1]))).Nodup)
    (k : String) (v : List Nat) (hmem : (k, v) ∈ payloadEntries p) :
    (commonUpsertRanger fs podPath key key p).1.readFile (Join [Join [podPath, key], k]) =
      some (Content.bytes v) := by
  obtain ⟨_, heq⟩ := commonUpsertRanger_ok fs podPath key p hok
  rw [heq] at hok ⊢
  obtain ⟨hne, hnode⟩ := writeEntries_file _ _ _ hok hnodup k v hmem
  simp [FS.readFile, hne, hnode]

/-- Whatever `commonUpsertRanger` does, a directory stays a directory and a file stays a
file. -/
theorem commonUpsertRanger_preserves (fs : FS) (podPath filter key : String) (p : Payload)
    (q : List String) :
    (fs.node q = some Node.dir →
        (commonUpsertRanger fs podPath filter key p).1.node q = some Node.dir) ∧
      ((∃ c, fs.node q = some (Node.file c)) →
        ∃ c, (commonUpsertRanger fs podPath filter key p).1.node q = some (Node.file c)) := by
  by_cases hk : key = filter
  · subst hk
    rw [commonUpsertRanger_eq]
    have hm := MkdirAll_node_cases fs (Join [podPath, key]) q
    cases hmk : MkdirAll fs (Join [podPath, key]) with
    | mk fs1 e =>
      rw [hmk] at hm
      simp only at hm
      have h1 : (fs.node q = some Node.dir → fs1.node q = some Node.dir) ∧
          ((∃ c, fs.node q = some (Node.file c)) → ∃ c, fs1.node q = some (Node.file c)) := by
        rcases hm with hm | hm
        · rw [hm]; exact ⟨fun h => h, fun h => h⟩
        · refine ⟨fun h => ?_, fun h => ?_⟩
          · rw [hm.1] at h; simp at h
          · obtain ⟨c, hc⟩ := h; rw [hm.1] at hc; simp at hc
      cases e with
      | some err => exact h1
      | none =>
        simp only
        have h2 := writeEntries_preserves fs1 (Join [podPath, key]) (payloadEntries p) q
        exact ⟨fun h => h2.1 (h1.1 h), fun h => h2.2 (h1.2 h)⟩
  · rw [commonUpsertRanger_other_key fs podPath filter key p hk]
    exact ⟨fun h => h, fun h => h⟩

/-! ## Lemmas: mapBackingResourceToPod -/

theorem materializeFS_some_ok (fs : FS) (podPath key : String) (p : Payload)
    (h : (materializeFS fs podPath key (some p)).2 = none) :
    (MkdirAll fs podPath).2 = none ∧
      (commonUpsertRanger (MkdirAll fs podPath).1 podPath key key p).2 = none ∧
      materializeFS fs podPath key (some p) =
        commonUpsertRanger (MkdirAll fs podPath).1 podPath key key p := by
  unfold materializeFS at h ⊢
  cases hm : MkdirAll fs podPath with
  | mk fs1 e =>
    rw [hm] at h
    cases e with
    | some err => simp at h
    | none => simp only at h ⊢; simp [h]

theorem trimSpace_configMap : TrimSpace "ConfigMap" = "ConfigMap" := by decide

theorem trimSpace_secret : TrimSpace "Secret" = "Secret" := by decide

/-- The result of `mapBackingResourceToPod` for a record of kind ConfigMap. -/
theorem mapBackingResourceToPod_configMap (w : World) (hpv : Ptr)
    (hk : TrimSpace (w.heap hpv).SharedDataKind = "ConfigMap") :
    mapBackingResourceToPod w hpv =
      match materializeFS w.fs (Join [(w.heap hpv).TargetPath, "configmaps"])
          (w.heap hpv).SharedDataKey
          ((GetConfigMap w (w.heap hpv).SharedDataKey).map
            (fun cm => { StringData := cm.Data, ByteData := cm.BinaryData })) with
      | (fs2, some err) => ({ w with fs := fs2 }, some err)
      | (fs2, none) =>
        (RegisterConfigMapDeleteCallback
          (RegisterConfigMapUpsertCallback { w with fs := fs2 } (w.heap hpv).VolID
            { podPath := Join [(w.heap hpv).TargetPath, "configmaps"], hpv := hpv })
          (w.heap hpv).VolID
          { podPath := Join [(w.heap hpv).TargetPath, "configmaps"], hpv := hpv }, none) := by
  unfold mapBackingResourceToPod materializeFS
  simp only [hk, if_true]
  cases hm : MkdirAll w.fs (Join [(w.heap hpv).TargetPath, "configmaps"]) with
  | mk fs1 e =>
    cases e with
    | some err => rfl
    | none =>
      simp only
      cases hg : GetConfigMap w (w.heap hpv).SharedDataKey with
      | none => rfl
      | some cm => rfl

/-- The result of `mapBackingResourceToPod` for a record of kind Secret. -/
theorem mapBackingResourceToPod_secret (w : World) (hpv : Ptr)
    (hk : TrimSpace (w.heap hpv).SharedDataKind = "Secret") :
    mapBackingResourceToPod w hpv =
      match materializeFS w.fs (Join [(w.heap hpv).TargetPath, "secrets"])
          (w.heap hpv).SharedDataKey
          ((GetSecret w (w.heap hpv).SharedDataKey).map
            (fun s => { ByteData := s.Data })) with
      | (fs2, some err) => ({ w with fs := fs2 }, some err)
      | (fs2, none) =>
        (RegisterSecretDeleteCallback
          (RegisterSecretUpsertCallback { w with fs := fs2 } (w.heap hpv).VolID
            { podPath := Join [(w.heap hpv).TargetPath, "secrets"], hpv := hpv })
          (w.heap hpv).VolID
          { podPath := Join [(w.heap hpv).TargetPath, "secrets"], hpv := hpv }, none) := by
  have hne : ¬ TrimSpace (w.heap hpv).SharedDataKind = "ConfigMap" := by
    rw [hk]; decide
  unfold mapBackingResourceToPod materializeFS
  simp only [hk, hne, if_true, if_false]
  cases hm : MkdirAll w.fs (Join [(w.heap hpv).TargetPath, "secrets"]) with
  | mk fs1 e =>
    cases e with
    | some err => rfl
    | none =>
      simp only
      cases hg : GetSecret w (w.heap hpv).SharedDataKey with
      | none => rfl
      | some s => rfl

/-! ## Lemmas: sequences of upserts -/

/-- After writes without error every entry has a file at its path. -/
theorem writeEntries_file_exists (fs : FS) (dir : String) (es : List (String × List Nat))
    (hok : (writeEntries fs dir es).2 = none) (k : String) (v : List Nat)
    (hmem : (k, v) ∈ es) :
    Join [dir, k] ≠ "" ∧
      ∃ c, (writeEntries fs dir es).1.node (resolve (Join [dir, k])) = some (Node.file c) := by
  induction es generalizing fs with
  | nil => simp at hmem
  | cons x rest ih =>
    obtain ⟨k0, v0⟩ := x
    obtain ⟨hw, heq⟩ := writeEntries_cons_ok fs dir k0 v0 rest hok
    rw [heq] at hok ⊢
    simp only [List.mem_cons, Prod.mk.injEq] at hmem
    rcases hmem with ⟨hk, hv⟩ | hmem
    · subst hk; subst hv
      refine ⟨?_, ?_⟩
      · intro e
        rw [e] at hw
        simp [WriteFile] at hw
      · apply (writeEntries_preserves _ dir rest _).2
        exact ⟨Content.bytes v, by rw [WriteFile_node fs _ _ _ hw]; simp⟩
    · exact ih _ hok hmem

theorem commonUpsertRanger_file_exists (fs : FS) (podPath key : String) (p : Payload)
    (hok : (commonUpsertRanger fs podPath key key p).2 = none)
    (k : String) (v : List Nat) (hmem : (k, v) ∈ payloadEntries p) :
    ∃ c, (commonUpsertRanger fs podPath key key p).1.readFile
      (Join [Join [podPath, key], k]) = some c := by
  obtain ⟨_, heq⟩ := commonUpsertRanger_ok fs podPath key p hok
  rw [heq] at hok ⊢
  obtain ⟨hne, c, hnode⟩ := writeEntries_file_exists _ _ _ hok k v hmem
  exact ⟨c, by simp [FS.readFile, hne, hnode]⟩

theorem readFile_preserved (fs fs2 : FS) (path : String)
    (h : ∀ q, (∃ c, fs.node q = some (Node.file c)) → ∃ c, fs2.node q = some (Node.file c))
    (hr : ∃ c, fs.readFile path = some c) : ∃ c, fs2.readFile path = some c := by
  obtain ⟨c, hc⟩ := hr
  unfold FS.readFile at hc ⊢
  by_cases hp : path = ""
  · simp [hp] at hc
  · simp only [hp, if_false] at hc ⊢
    cases hn : fs.node (resolve path) with
    | none => rw [hn] at hc; simp at hc
    | some n =>
      cases n with
      | dir => rw [hn] at hc; simp at hc
      | file c0 =>
        obtain ⟨c2, hc2⟩ := h _ ⟨c0, hn⟩
        exact ⟨c2, by rw [hc2]⟩

theorem upsertRun_cons_ok (fs : FS) (podPath key : String) (p : Payload) (rest : List Payload)
    (h : (upsertRun fs podPath key (p :: rest)).2 = true) :
    (commonUpsertRanger fs podPath key key p).2 = none ∧
      upsertRun fs podPath key (p :: rest) =
        upsertRun (commonUpsertRanger fs podPath key key p).1 podPath key rest := by
  simp only [upsertRun] at h ⊢
  cases hc : commonUpsertRanger fs podPath key key p with
  | mk fs1 e =>
    rw [hc] at h
    cases e with
    | some err => simp at h
    | none => simp

/-- A sequence of upserts never removes a file. -/
theorem upsertRun_preserves (fs : FS) (podPath key : String) (ps : List Payload)
    (q : List String) (h : ∃ c, fs.node q = some (Node.file c)) :
    ∃ c, (upsertRun fs podPath key ps).1.node q = some (Node.file c) := by
  induction ps generalizing fs with
  | nil => exact h
  | cons p rest ih =>
    simp only [upsertRun]
    have h1 := (commonUpsertRanger_preserves fs podPath key key p q).2 h
    cases hc : commonUpsertRanger fs podPath key key p with
    | mk fs1 e =>
      rw [hc] at h1
      cases e with
      | some err => exact h1
      | none => exact ih fs1 h1

/-! ## Lemmas: the share rangers -/

theorem find?_of_filter_singleton {α : Type} (f : α → Bool) (l : List α) (x : α)
    (h : l.filter f = [x]) : l.find? f = some x := by
  induction l with
  | nil => simp at h
  | cons a rest ih =>
    by_cases ha : f a = true
    · simp only [List.filter, ha, List.cons.injEq] at h
      obtain ⟨rfl, _⟩ := h
      simp [List.find?, ha]
    · have ha' : f a = false := by simpa using ha
      simp only [List.filter, ha'] at h
      simp only [List.find?, ha']
      exact ih h

theorem shareUpdateLoop_find_some (w : World) (shareId : String) (share : Share)
    (cur : Option Ptr) (l : List (String × Ptr)) (k : String) (p : Ptr)
    (h : l.find? (fun e => decide ((w.heap e.2).SharedDataId = shareId)) = some (k, p)) :
    shareUpdateLoop w shareId share cur l = updateScanAt w shareId share p := by
  induction l generalizing cur with
  | nil => simp at h
  | cons e rest ih =>
    obtain ⟨k0, p0⟩ := e
    by_cases hm : (w.heap p0).SharedDataId = shareId
    · simp only [List.find?, hm, decide_True, Option.some.injEq, Prod.mk.injEq] at h
      obtain ⟨_, rfl⟩ := h
      simp only [shareUpdateLoop, hm, if_true]
    · simp only [List.find?, hm, decide_False] at h
      simp only [shareUpdateLoop, hm, if_false]
      exact ih (some p0) h

theorem shareUpdateLoop_find_none (w : World) (shareId : String) (share : Share)
    (cur : Option Ptr) (l : List (String × Ptr))
    (h : l.find? (fun e => decide ((w.heap e.2).SharedDataId = shareId)) = none) :
    ∃ last, shareUpdateLoop w shareId share cur l = { heap := w.heap, hpv := last } := by
  induction l generalizing cur with
  | nil => exact ⟨cur, rfl⟩
  | cons e rest ih =>
    obtain ⟨k0, p0⟩ := e
    by_cases hm : (w.heap p0).SharedDataId = shareId
    · simp [List.find?, hm] at h
    · simp only [List.find?, hm, decide_False] at h
      simp only [shareUpdateLoop, hm, if_false]
      exact ih (some p0) h

theorem shareDeleteLoop_find_some (heap : Ptr → hostPathVolume) (shareId : String)
    (l : List (String × Ptr)) (k : String) (p : Ptr)
    (h : l.find? (fun e => decide ((heap e.2).SharedDataId = shareId)) = some (k, p)) :
    shareDeleteLoop heap shareId l =
      { heap := Function.update heap p { heap p with Allowed := false }
        targetPath := kindTargetPath (heap p)
        volID := (heap p).VolID } := by
  induction l with
  | nil => simp at h
  | cons e rest ih =>
    obtain ⟨k0, p0⟩ := e
    by_cases hm : (heap p0).SharedDataId = shareId
    · simp only [List.find?, hm, decide_True, Option.some.injEq, Prod.mk.injEq] at h
      obtain ⟨_, rfl⟩ := h
      simp only [shareDeleteLoop, hm, if_true]
    · simp only [List.find?, hm, decide_False] at h
      simp only [shareDeleteLoop, hm, if_false]
      exact ih h

theorem shareDeleteLoop_find_none (heap : Ptr → hostPathVolume) (shareId : String)
    (l : List (String × Ptr))
    (h : l.find? (fun e => decide ((heap e.2).SharedDataId = shareId)) = none) :
    shareDeleteLoop heap shareId l = { heap := heap, targetPath := "", volID := "" } := by
  induction l with
  | nil => rfl
  | cons e rest ih =>
    obtain ⟨k0, p0⟩ := e
    by_cases hm : (heap p0).SharedDataId = shareId
    · simp [List.find?, hm] at h
    · simp only [List.find?, hm, decide_False] at h
      simp only [shareDeleteLoop, hm, if_false]
      exact ih h

/-- The volume map is stored without a change to anything but the file system. -/
theorem storeVolMapToDisk_eq (w : World) :
    (storeVolMapToDisk w).1 =
      { w with fs := (WriteFile w.fs w.volMapOnDiskPath
          (Content.volMap
            (w.hostPathVolumes.foldl (fun m e => mapSet m e.1 (w.heap e.2)) []))).1 } := rfl

/-- Storing the volume map removes no node and changes only the node of the map file. -/
theorem storeVolMapToDisk_node (w : World) (q : List String)
    (hq : q ≠ resolve w.volMapOnDiskPath) :
    (storeVolMapToDisk w).1.fs.node q = w.fs.node q := by
  rw [storeVolMapToDisk_eq]
  simp only
  rcases WriteFile_node_cases w.fs w.volMapOnDiskPath
    (Content.volMap (w.hostPathVolumes.foldl (fun m e => mapSet m e.1 (w.heap e.2)) [])) q
    with h | h
  · exact h
  · exact absurd h.2.1 hq

/-- The target subdirectory of a kind does not exist after its `RemoveAll`. -/
theorem RemoveAll_subdir_node (fs : FS) (target sub : String) (hsub : plainSegment sub)
    (q : List String) :
    (RemoveAll fs (Join [target, sub])).1.node q =
      if (resolve target ++ [sub]).isPrefixOf q then none else fs.node q := by
  have h1 := Join_cons_plain_ne_empty target [sub] (by simpa using hsub) (by simp)
  have h2 := endsWithDot_Join_cons_plain target [sub] (by simpa using hsub) (by simp)
  have h3 := resolve_Join_pair target sub hsub
  rw [RemoveAll_node fs _ q h1 h2 (by rw [h3]; simp), h3]

theorem pathExists_eq_false_of_node (fs : FS) (path : String)
    (h : fs.node (resolve path) = none) : fs.pathExists path = false := by
  unfold FS.pathExists
  split
  · rfl
  · simp [h]

theorem plainSegment_configmaps : plainSegment "configmaps" := by decide

theorem plainSegment_secrets : plainSegment "secrets" := by decide

theorem isPrefixOf_append_self (a b : List String) : a.isPrefixOf (a ++ b) = true := by
  induction a with
  | nil => cases b <;> rfl
  | cons x t ih => simp [List.isPrefixOf, ih]

theorem isPrefixOf_trans_append (a b c : List String) (h : (a ++ b).isPrefixOf c = true) :
    a.isPrefixOf c = true := by
  rw [List.isPrefixOf_iff_prefix] at h ⊢
  exact (List.prefix_append a b).trans h

/-- The loop body of `shareUpdateRanger` at an allowed record the access review denies. -/
theorem updateScanAt_lost (w : World) (shareId : String) (share : Share) (p : Ptr)
    (hallowed : (w.heap p).Allowed = true)
    (hdeny : (w.ExecuteSAR shareId (w.heap p).PodNamespace (w.heap p).PodName
        (w.heap p).PodSA).1 = false ∨
      (w.ExecuteSAR shareId (w.heap p).PodNamespace (w.heap p).PodName
        (w.heap p).PodSA).2 = true) :
    (updateScanAt w shareId share p).lostPermissions = true ∧
      (updateScanAt w shareId share p).heap =
        Function.update w.heap p { w.heap p with Allowed := false } ∧
      (updateScanAt w shareId share p).oldTargetPath = kindTargetPath (w.heap p) ∧
      (updateScanAt w shareId share p).volID = (w.heap p).VolID := by
  have hal : ((w.ExecuteSAR shareId (w.heap p).PodNamespace (w.heap p).PodName
      (w.heap p).PodSA).1 &&
    !(w.ExecuteSAR shareId (w.heap p).PodNamespace (w.heap p).PodName
      (w.heap p).PodSA).2) = false := by
    rcases hdeny with h | h <;> simp [h]
  unfold updateScanAt
  simp only [hal, hallowed, Bool.false_and, Bool.not_false, Bool.true_and, Bool.false_eq_true,
    if_false, if_true, Bool.not_true, Bool.and_false, Function.update_same, kindTargetPath]
  simp

/-- The result of `shareUpdateRanger` when the first record with the share id is allowed and
the access review denies. -/
theorem shareUpdateRanger_lost_eq (w : World) (shareId : String) (share : Share) (k : String)
    (p : Ptr)
    (hfind : w.hostPathVolumes.find? (fun e => decide ((w.heap e.2).SharedDataId = shareId)) =
      some (k, p))
    (hallowed : (w.heap p).Allowed = true)
    (hdeny : (w.ExecuteSAR shareId (w.heap p).PodNamespace (w.heap p).PodName
        (w.heap p).PodSA).1 = false ∨
      (w.ExecuteSAR shareId (w.heap p).PodNamespace (w.heap p).PodName
        (w.heap p).PodSA).2 = true) :
    shareUpdateRanger w shareId share =
      ((storeVolMapToDisk (unregisterBackingCallbacks
        { w with
          heap := Function.update w.heap p { w.heap p with Allowed := false }
          fs := (RemoveAll w.fs (kindTargetPath (w.heap p))).1 } (w.heap p).VolID)).1, true) := by
  obtain ⟨h1, h2, h3, h4⟩ := updateScanAt_lost w shareId share p hallowed hdeny
  unfold shareUpdateRanger
  simp only [shareUpdateLoop_find_some w shareId share none _ k p hfind, h1, h2, h3, h4, if_true]

theorem configMapUpsertEvent_no_callbacks (w : World) (key : String) (cm : ConfigMap)
    (h : w.configMapUpsertCallbacks = []) : (configMapUpsertEvent w key cm).fs = w.fs := by
  unfold configMapUpsertEvent
  rw [h]
  rfl

theorem secretUpsertEvent_no_callbacks (w : World) (key : String) (s : Secret)
    (h : w.secretUpsertCallbacks = []) : (secretUpsertEvent w key s).fs = w.fs := by
  unfold secretUpsertEvent
  rw [h]
  rfl

theorem mapDelete_eq_nil {κ α : Type} [DecidableEq κ] (m : List (κ × α)) (k : κ)
    (h : ∀ e ∈ m, e.1 = k) : mapDelete m k = [] := by
  unfold mapDelete
  rw [List.filter_eq_nil_iff]
  intro e he
  simp [h e he]

theorem length_pos_of_ne_empty (s : String) (h : s ≠ "") : s.length > 0 := by
  have : s.data ≠ [] := fun e => h (String.ext e)
  show s.data.length > 0
  exact List.length_pos.2 this

theorem shareDeleteRanger_fields (w : World) (shareId : String) :
    (shareDeleteRanger w shareId).2 = true ∧
      (shareDeleteRanger w shareId).1.hostPathVolumes = w.hostPathVolumes ∧
      (shareDeleteRanger w shareId).1.heap =
        (shareDeleteLoop w.heap shareId w.hostPathVolumes).heap := by
  unfold shareDeleteRanger
  simp only
  split <;> exact ⟨rfl, rfl, rfl⟩

/-- The result of `shareDeleteRanger` when the loop found a volume id and a target path. -/
theorem shareDeleteRanger_remove_eq (w : World) (shareId : String)
    (h1 : (shareDeleteLoop w.heap shareId w.hostPathVolumes).volID ≠ "")
    (h2 : (shareDeleteLoop w.heap shareId w.hostPathVolumes).targetPath ≠ "") :
    shareDeleteRanger w shareId =
      ((storeVolMapToDisk
        { w with
          heap := (shareDeleteLoop w.heap shareId w.hostPathVolumes).heap
          fs := (RemoveAll w.fs
            (shareDeleteLoop w.heap shareId w.hostPathVolumes).targetPath).1 }).1, true) := by
  unfold shareDeleteRanger
  simp only [length_pos_of_ne_empty _ h1, length_pos_of_ne_empty _ h2, and_self, if_true]

/-! ## Lemmas: materialization -/

theorem mkdirAllRev_node_frame (fs : FS) (rp q : List String) (h : ¬ q <+: rp.reverse) :
    (mkdirAllRev fs rp).1.node q = fs.node q := by
  induction rp with
  | nil => rfl
  | cons s parent ih =>
    have hpar : ¬ q <+: parent.reverse := by
      intro hp
      apply h
      rw [List.reverse_cons]
      exact hp.trans (List.prefix_append _ _)
    have hne : q ≠ (s :: parent).reverse := fun e => h (e ▸ List.prefix_refl _)
    unfold mkdirAllRev
    cases h1 : fs.node (s :: parent).reverse with
    | some n => cases n <;> rfl
    | none =>
      simp only
      cases h2 : mkdirAllRev fs parent with
      | mk fs1 e =>
        have ih' := ih hpar
        rw [h2] at ih'
        cases e with
        | some err => exact ih'
        | none =>
          simp only
          rw [node_mapSet fs1 _ q _ (by simp)]
          simp only [hne, if_false]
          exact ih'

/-- `MkdirAll` changes nodes only on the way to its path. -/
theorem MkdirAll_node_frame (fs : FS) (path : String) (q : List String)
    (h : ¬ q <+: resolve path) : (MkdirAll fs path).1.node q = fs.node q := by
  unfold MkdirAll
  by_cases hp : path = ""
  · simp [hp]
  · simp only [hp, if_false]
    exact mkdirAllRev_node_frame fs _ q (by simpa using h)

theorem prefix_concat_cases (q pr : List String) (k : String) (h : q <+: pr ++ [k]) :
    q <+: pr ∨ q = pr ++ [k] := by
  obtain ⟨t, ht⟩ := h
  rcases List.eq_nil_or_concat t with h0 | ⟨t0, x, h0⟩
  · right; subst h0; simpa using ht
  · left
    subst h0
    rw [List.concat_eq_append, ← List.append_assoc] at ht
    have := List.append_inj_left' ht (by simp)
    exact ⟨t0, this⟩

/-- `materializeFS` with a file name as key and file names as data keys changes nodes only on
the way to the target subdirectory and below it. -/
theorem materializeFS_frame (fs : FS) (podPath key : String) (payload : Option Payload)
    (hkey : plainSegment key)
    (hdata : ∀ p, payload = some p → ∀ e ∈ payloadEntries p, plainSegment e.1)
    (q : List String) (h1 : ¬ q <+: resolve podPath) (h2 : ¬ resolve podPath <+: q) :
    (materializeFS fs podPath key payload).1.node q = fs.node q := by
  unfold materializeFS
  have hm := MkdirAll_node_frame fs podPath q h1
  cases hmk : MkdirAll fs podPath with
  | mk fs1 e =>
    rw [hmk] at hm
    simp only at hm
    cases e with
    | some err => exact hm
    | none =>
      simp only
      cases payload with
      | none => exact hm
      | some p =>
        simp only
        rw [commonUpsertRanger_eq]
        have hres : resolve (Join [podPath, key]) = resolve podPath ++ [key] :=
          resolve_Join_pair podPath key hkey
        have hq2 : ¬ q <+: resolve (Join [podPath, key]) := by
          rw [hres]
          intro hp
          rcases prefix_concat_cases q _ key hp with hp | hp
          · exact h1 hp
          · exact h2 (hp ▸ List.prefix_append _ _)
        have hm2 := MkdirAll_node_frame fs1 (Join [podPath, key]) q hq2
        cases hmk2 : MkdirAll fs1 (Join [podPath, key]) with
        | mk fs2 e2 =>
          rw [hmk2] at hm2
          simp only at hm2
          cases e2 with
          | some err => simp only; rw [hm2, hm]
          | none =>
            simp only
            rw [writeEntries_node_of_not_mem, hm2, hm]
            intro hmem
            simp only [List.mem_map] at hmem
            obtain ⟨e, he, heq⟩ := hmem
            have hk := hdata p rfl e he
            rw [resolve_Join_pair _ e.1 hk, hres] at heq
            apply h2
            rw [← heq, List.append_assoc]
            exact List.prefix_append _ _

/-- A regular file after `materializeFS` was there before with the same content, or is the
file of an entry of the payload. -/
theorem materializeFS_file_origin (fs : FS) (podPath key : String) (payload : Option Payload)
    (q : List String) (c : Content)
    (h : (materializeFS fs podPath key payload).1.node q = some (Node.file c)) :
    fs.node q = some (Node.file c) ∨
      ∃ p k v, payload = some p ∧ (k, v) ∈ payloadEntries p ∧
        q = resolve (Join [Join [podPath, key], k]) ∧ c = Content.bytes v := by
  unfold materializeFS at h
  have hm := MkdirAll_node_cases fs podPath q
  cases hmk : MkdirAll fs podPath with
  | mk fs1 e =>
    rw [hmk] at hm h
    simp only at hm
    have hback : fs1.node q = some (Node.file c) → fs.node q = some (Node.file c) := by
      intro h1
      rcases hm with hm | hm
      · rw [← hm]; exact h1
      · rw [hm.2] at h1; simp at h1
    cases e with
    | some err => left; exact hback (by simpa using h)
    | none =>
      simp only at h
      cases payload with
      | none => left; exact hback (by simpa using h)
      | some p =>
        simp only at h
        rw [commonUpsertRanger_eq] at h
        have hm2 := MkdirAll_node_cases fs1 (Join [podPath, key]) q
        cases hmk2 : MkdirAll fs1 (Join [podPath, key]) with
        | mk fs2 e2 =>
          rw [hmk2] at hm2 h
          simp only at hm2
          have hback2 : fs2.node q = some (Node.file c) → fs1.node q = some (Node.file c) := by
            intro h1
            rcases hm2 with hm2 | hm2
            · rw [← hm2]; exact h1
            · rw [hm2.2] at h1; simp at h1
          cases e2 with
          | some err => left; exact hback (hback2 (by simpa using h))
          | none =>
            simp only at h
            rcases writeEntries_file_origin fs2 _ _ q c h with h1 | ⟨k, v, hmem, hq, hc⟩
            · left; exact hback (hback2 h1)
            · right; exact ⟨p, k, v, rfl, hmem, hq, hc⟩

/-- After `materializeFS` without error, an entry of the payload whose path no other entry
names has its file. -/
theorem materializeFS_file (fs : FS) (podPath key : String) (p : Payload)
    (hok : (materializeFS fs podPath key (some p)).2 = none)
    (hnodup : ((payloadEntries p).map
      (fun e => resolve (Join [Join [podPath, key], e.1]))).Nodup)
    (k : String) (v : List Nat) (hmem : (k, v) ∈ payloadEntries p) :
    (materializeFS fs podPath key (some p)).1.readFile (Join [Join [podPath, key], k]) =
      some (Content.bytes v) := by
  obtain ⟨_, hup, heq⟩ := materializeFS_some_ok fs podPath key p hok
  rw [heq]
  exact commonUpsertRanger_file _ podPath key p hup hnodup k v hmem

/-- What `mapBackingResourceToPod` leaves alone, whatever its result. -/
theorem mapBackingResourceToPod_unchanged (w : World) (hpv : Ptr) :
    (mapBackingResourceToPod w hpv).1.heap = w.heap ∧
      (mapBackingResourceToPod w hpv).1.hostPathVolumes = w.hostPathVolumes ∧
      (mapBackingResourceToPod w hpv).1.configMaps = w.configMaps ∧
      (mapBackingResourceToPod w hpv).1.secrets = w.secrets ∧
      (mapBackingResourceToPod w hpv).1.volMapOnDiskPath = w.volMapOnDiskPath ∧
      (mapBackingResourceToPod w hpv).1.shareUpdateCallbacks = w.shareUpdateCallbacks ∧
      (mapBackingResourceToPod w hpv).1.shareDeleteCallbacks = w.shareDeleteCallbacks := by
  by_cases hcm : TrimSpace (w.heap hpv).SharedDataKind = "ConfigMap"
  · rw [mapBackingResourceToPod_configMap w hpv hcm]
    split <;> exact ⟨rfl, rfl, rfl, rfl, rfl, rfl, rfl⟩
  · by_cases hsec : TrimSpace (w.heap hpv).SharedDataKind = "Secret"
    · rw [mapBackingResourceToPod_secret w hpv hsec]
      split <;> exact ⟨rfl, rfl, rfl, rfl, rfl, rfl, rfl⟩
    · simp [mapBackingResourceToPod, hcm, hsec]

/-- The file system after `mapBackingResourceToPod` without error. -/
theorem mapBackingResourceToPod_fs (w : World) (hpv : Ptr)
    (hok : (mapBackingResourceToPod w hpv).2 = none) :
    ∃ sub payload, kindPlan w hpv = some (sub, payload) ∧
      (materializeFS w.fs (Join [(w.heap hpv).TargetPath, sub])
        (w.heap hpv).SharedDataKey payload).2 = none ∧
      (mapBackingResourceToPod w hpv).1.fs =
        (materializeFS w.fs (Join [(w.heap hpv).TargetPath, sub])
          (w.heap hpv).SharedDataKey payload).1 := by
  by_cases hcm : TrimSpace (w.heap hpv).SharedDataKind = "ConfigMap"
  · rw [mapBackingResourceToPod_configMap w hpv hcm] at hok ⊢
    refine ⟨"configmaps", (GetConfigMap w (w.heap hpv).SharedDataKey).map
        (fun cm => { StringData := cm.Data, ByteData := cm.BinaryData }),
      by simp [kindPlan, hcm], ?_⟩
    cases hm : materializeFS w.fs (Join [(w.heap hpv).TargetPath, "configmaps"])
        (w.heap hpv).SharedDataKey
        ((GetConfigMap w (w.heap hpv).SharedDataKey).map
          (fun cm => { StringData := cm.Data, ByteData := cm.BinaryData })) with
    | mk fs2 e =>
      rw [hm] at hok
      cases e with
      | some err => simp at hok
      | none => exact ⟨rfl, rfl⟩
  · by_cases hsec : TrimSpace (w.heap hpv).SharedDataKind = "Secret"
    · rw [mapBackingResourceToPod_secret w hpv hsec] at hok ⊢
      refine ⟨"secrets", (GetSecret w (w.heap hpv).SharedDataKey).map
          (fun s => { ByteData := s.Data }),
        by simp [kindPlan, hcm, hsec], ?_⟩
      cases hm : materializeFS w.fs (Join [(w.heap hpv).TargetPath, "secrets"])
          (w.heap hpv).SharedDataKey
          ((GetSecret w (w.heap hpv).SharedDataKey).map
            (fun s => { ByteData := s.Data })) with
      | mk fs2 e =>
        rw [hm] at hok
        cases e with
        | some err => simp at hok
        | none => exact ⟨rfl, rfl⟩
    · unfold mapBackingResourceToPod at hok
      simp [hcm, hsec] at hok

/-- The callbacks after `mapBackingResourceToPod` without error for a record of kind
ConfigMap. -/
theorem mapBackingResourceToPod_callbacks_configMap (w : World) (hpv : Ptr)
    (hk : TrimSpace (w.heap hpv).SharedDataKind = "ConfigMap")
    (hok : (mapBackingResourceToPod w hpv).2 = none) :
    (mapBackingResourceToPod w hpv).1.configMapUpsertCallbacks =
        mapSet w.configMapUpsertCallbacks (w.heap hpv).VolID
          { podPath := Join [(w.heap hpv).TargetPath, "configmaps"], hpv := hpv } ∧
      (mapBackingResourceToPod w hpv).1.configMapDeleteCallbacks =
        mapSet w.configMapDeleteCallbacks (w.heap hpv).VolID
          { podPath := Join [(w.heap hpv).TargetPath, "configmaps"], hpv := hpv } ∧
      (mapBackingResourceToPod w hpv).1.secretUpsertCallbacks = w.secretUpsertCallbacks ∧
      (mapBackingResourceToPod w hpv).1.secretDeleteCallbacks = w.secretDeleteCallbacks := by
  rw [mapBackingResourceToPod_configMap w hpv hk] at hok ⊢
  cases hm : materializeFS w.fs (Join [(w.heap hpv).TargetPath, "configmaps"])
      (w.heap hpv).SharedDataKey
      ((GetConfigMap w (w.heap hpv).SharedDataKey).map
        (fun cm => { StringData := cm.Data, ByteData := cm.BinaryData })) with
  | mk fs2 e =>
    rw [hm] at hok
    cases e with
    | some err => simp at hok
    | none => exact ⟨rfl, rfl, rfl, rfl⟩

/-- The callbacks after `mapBackingResourceToPod` without error for a record of kind Secret. -/
theorem mapBackingResourceToPod_callbacks_secret (w : World) (hpv : Ptr)
    (hk : TrimSpace (w.heap hpv).SharedDataKind = "Secret")
    (hok : (mapBackingResourceToPod w hpv).2 = none) :
    (mapBackingResourceToPod w hpv).1.secretUpsertCallbacks =
        mapSet w.secretUpsertCallbacks (w.heap hpv).VolID
          { podPath := Join [(w.heap hpv).TargetPath, "secrets"], hpv := hpv } ∧
      (mapBackingResourceToPod w hpv).1.secretDeleteCallbacks =
        mapSet w.secretDeleteCallbacks (w.heap hpv).VolID
          { podPath := Join [(w.heap hpv).TargetPath, "secrets"], hpv := hpv } ∧
      (mapBackingResourceToPod w hpv).1.configMapUpsertCallbacks =
        w.configMapUpsertCallbacks ∧
      (mapBackingResourceToPod w hpv).1.configMapDeleteCallbacks =
        w.configMapDeleteCallbacks := by
  rw [mapBackingResourceToPod_secret w hpv hk] at hok ⊢
  cases hm : materializeFS w.fs (Join [(w.heap hpv).TargetPath, "secrets"])
      (w.heap hpv).SharedDataKey
      ((GetSecret w (w.heap hpv).SharedDataKey).map (fun s => { ByteData := s.Data })) with
  | mk fs2 e =>
    rw [hm] at hok
    cases e with
    | some err => simp at hok
    | none => exact ⟨rfl, rfl, rfl, rfl⟩

/-! ## Lemmas: the file of one entry -/

/-- Every data key that `writeEntries` wrote without error gives a path that is not empty. -/
theorem writeEntries_path_ne_empty (fs : FS) (dir : String) (es : List (String × List Nat))
    (hok : (writeEntries fs dir es).2 = none) (k : String) (v : List Nat)
    (hmem : (k, v) ∈ es) : Join [dir, k] ≠ "" := by
  induction es generalizing fs with
  | nil => simp at hmem
  | cons x rest ih =>
    obtain ⟨k0, v0⟩ := x
    obtain ⟨hw, heq⟩ := writeEntries_cons_ok fs dir k0 v0 rest hok
    rw [heq] at hok
    simp only [List.mem_cons, Prod.mk.injEq] at hmem
    rcases hmem with ⟨hk, _⟩ | hmem
    · subst hk
      intro e
      rw [e] at hw
      simp [WriteFile] at hw
    · exact ih _ hok hmem

/-- The node at the file of an entry after `writeEntries` without error, when every entry that
names this file has the value `v`: the regular file with the bytes `v`. -/
theorem writeEntries_node_entry (fs : FS) (dir : String) (es : List (String × List Nat))
    (hok : (writeEntries fs dir es).2 = none) (q : List String) (v : List Nat)
    (hex : ∃ e ∈ es, resolve (Join [dir, e.1]) = q)
    (hsame : ∀ e ∈ es, resolve (Join [dir, e.1]) = q → e.2 = v) :
    (writeEntries fs dir es).1.node q = some (Node.file (Content.bytes v)) := by
  induction es generalizing fs with
  | nil => obtain ⟨e, he, _⟩ := hex; simp at he
  | cons x rest ih =>
    obtain ⟨k0, v0⟩ := x
    obtain ⟨hw, heq⟩ := writeEntries_cons_ok fs dir k0 v0 rest hok
    rw [heq] at hok ⊢
    by_cases hin : ∃ e ∈ rest, resolve (Join [dir, e.1]) = q
    · exact ih _ hok hin (fun e he => hsame e (List.mem_cons_of_mem _ he))
    · have hnot : q ∉ rest.map (fun e => resolve (Join [dir, e.1])) := by
        intro hmem
        obtain ⟨e, he, hq⟩ := List.mem_map.1 hmem
        exact hin ⟨e, he, hq⟩
      obtain ⟨e, he, hq⟩ := hex
      rcases List.mem_cons.1 he with h | h
      · subst h
        have hv : v0 = v := hsame (k0, v0) (List.mem_cons_self _ _) hq
        rw [writeEntries_node_of_not_mem _ dir rest _ hnot, WriteFile_node fs _ _ _ hw]
        simp at hq
        simp [hq, hv]
      · exact absurd ⟨e, h, hq⟩ hin

/-- The file of an entry after `commonUpsertRanger` for the key of the filter without error,
when every entry of the payload that names this file has the value of the entry. -/
theorem commonUpsertRanger_file_entry (fs : FS) (podPath key : String) (p : Payload)
    (hok : (commonUpsertRanger fs podPath key key p).2 = none)
    (k : String) (v : List Nat) (hmem : (k, v) ∈ payloadEntries p)
    (hsame : ∀ e ∈ payloadEntries p,
      resolve (Join [Join [podPath, key], e.1]) = resolve (Join [Join [podPath, key], k]) →
      e.2 = v) :
    (commonUpsertRanger fs podPath key key p).1.readFile (Join [Join [podPath, key], k]) =
      some (Content.bytes v) := by
  obtain ⟨_, heq⟩ := commonUpsertRanger_ok fs podPath key p hok
  rw [heq] at hok ⊢
  have hne := writeEntries_path_ne_empty _ _ _ hok k v hmem
  have hnode := writeEntries_node_entry _ _ _ hok _ v ⟨(k, v), hmem, rfl⟩ hsame
  simp [FS.readFile, hne, hnode]

/-- The file of an entry after `materializeFS` without error, when every entry of the payload
that names this file has the value of the entry. -/
theorem materializeFS_file_entry (fs : FS) (podPath key : String) (p : Payload)
    (hok : (materializeFS fs podPath key (some p)).2 = none)
    (k : String) (v : List Nat) (hmem : (k, v) ∈ payloadEntries p)
    (hsame : ∀ e ∈ payloadEntries p,
      resolve (Join [Join [podPath, key], e.1]) = resolve (Join [Join [podPath, key], k]) →
      e.2 = v) :
    (materializeFS fs podPath key (some p)).1.readFile (Join [Join [podPath, key], k]) =
      some (Content.bytes v) := by
  obtain ⟨_, hup, heq⟩ := materializeFS_some_ok fs podPath key p hok
  rw [heq]
  exact commonUpsertRanger_file_entry _ podPath key p hup k v hmem hsame

/-! ## Lemmas: the rebind of a record -/

theorem backingData_congr (w1 w2 : World) (p : Ptr) (hh : w1.heap p = w2.heap p)
    (hc : w1.configMaps = w2.configMaps) (hs : w1.secrets = w2.secrets) :
    backingData w1 p = backingData w2 p := by
  unfold backingData GetConfigMap GetSecret
  rw [hh, hc, hs]

theorem kindPlan_of_backingData (w : World) (p : Ptr) (sub : String)
    (es : List (String × List Nat)) (h : backingData w p = some (sub, es)) :
    ∃ pl, kindPlan w p = some (sub, some pl) ∧ es = payloadEntries pl := by
  unfold backingData at h
  unfold kindPlan
  by_cases hcm : (w.heap p).SharedDataKind = "ConfigMap"
  · simp only [hcm, if_true] at h
    simp only [hcm, trimSpace_configMap, if_true]
    cases hg : GetConfigMap w (w.heap p).SharedDataKey with
    | none => rw [hg] at h; simp at h
    | some cm =>
      rw [hg] at h
      simp only [Option.map_some', Option.some.injEq, Prod.mk.injEq] at h
      exact ⟨_, by simp [h.1], h.2.symm⟩
  · simp only [hcm, if_false] at h
    by_cases hsec : (w.heap p).SharedDataKind = "Secret"
    · simp only [hsec, if_true] at h
      have hne : ¬ TrimSpace "Secret" = "ConfigMap" := by decide
      simp only [hsec, trimSpace_secret, hne, if_true, if_false]
      cases hg : GetSecret w (w.heap p).SharedDataKey with
      | none => rw [hg] at h; simp at h
      | some s =>
        rw [hg] at h
        simp only [Option.map_some', Option.some.injEq, Prod.mk.injEq] at h
        exact ⟨_, by simp [h.1], h.2.symm⟩
    · simp [hsec] at h

theorem backingData_of_kindPlan (w : World) (p : Ptr) (sub : String) (pl : Payload)
    (hkind : (w.heap p).SharedDataKind = "ConfigMap" ∨ (w.heap p).SharedDataKind = "Secret")
    (h : kindPlan w p = some (sub, some pl)) :
    backingData w p = some (sub, payloadEntries pl) := by
  unfold kindPlan at h
  unfold backingData
  rcases hkind with hk | hk
  · simp only [hk, trimSpace_configMap, if_true, Option.some.injEq, Prod.mk.injEq] at h
    simp only [hk, if_true]
    cases hg : GetConfigMap w (w.heap p).SharedDataKey with
    | none => rw [hg] at h; simp at h
    | some cm =>
      rw [hg] at h
      simp only [Option.map_some', Option.some.injEq] at h
      simp [← h.1, ← h.2]
  · have hne2 : ¬ ("Secret" : String) = "ConfigMap" := by decide
    simp only [hk, trimSpace_secret, hne2, if_true, if_false, Option.some.injEq,
      Prod.mk.injEq] at h
    simp only [hk, hne2, if_true, if_false]
    cases hg : GetSecret w (w.heap p).SharedDataKey with
    | none => rw [hg] at h; simp at h
    | some s =>
      rw [hg] at h
      simp only [Option.map_some', Option.some.injEq] at h
      simp [← h.1, ← h.2]

/-- The loop body of `shareUpdateRanger` at an allowed record the access review allows and
whose kind or key differs from the share. -/
theorem updateScanAt_rebind (w : World) (shareId : String) (share : Share) (p : Ptr)
    (hallowed : (w.heap p).Allowed = true)
    (hsar : w.ExecuteSAR shareId (w.heap p).PodNamespace (w.heap p).PodName
      (w.heap p).PodSA = (true, false))
    (hchange : share.Spec.BackingResource.Kind ≠ (w.heap p).SharedDataKind ∨
      w.BuildKey share.Spec.BackingResource.Namespace share.Spec.BackingResource.Name ≠
        (w.heap p).SharedDataKey) :
    updateScanAt w shareId share p =
      { heap := w.heap
        oldTargetPath := kindTargetPath (w.heap p)
        volID := (w.heap p).VolID
        change := true
        lostPermissions := false
        gainedPermissions := false
        hpv := some p } := by
  have hc : (decide (share.Spec.BackingResource.Kind ≠ (w.heap p).SharedDataKind) ||
      decide (w.BuildKey share.Spec.BackingResource.Namespace share.Spec.BackingResource.Name
        ≠ (w.heap p).SharedDataKey)) = true := by
    rcases hchange with h | h <;> simp [h]
  unfold updateScanAt
  simp only [hsar, hallowed, Bool.not_false, Bool.and_true, Bool.not_true, Bool.and_false,
    Bool.false_eq_true, if_false, hc, Bool.and_self]

/-- The result of `shareUpdateRanger` for a rebind of the first record with the share id. -/
theorem shareUpdateRanger_rebind_eq (w : World) (shareId : String) (share : Share)
    (k : String) (p : Ptr)
    (hfind : w.hostPathVolumes.find? (fun e => decide ((w.heap e.2).SharedDataId = shareId)) =
      some (k, p))
    (hallowed : (w.heap p).Allowed = true)
    (hsar : w.ExecuteSAR shareId (w.heap p).PodNamespace (w.heap p).PodName
      (w.heap p).PodSA = (true, false))
    (hchange : share.Spec.BackingResource.Kind ≠ (w.heap p).SharedDataKind ∨
      w.BuildKey share.Spec.BackingResource.Namespace share.Spec.BackingResource.Name ≠
        (w.heap p).SharedDataKey) :
    shareUpdateRanger w shareId share =
      ((storeVolMapToDisk (mapBackingResourceToPod
        (rebindRecord w (kindTargetPath (w.heap p)) (w.heap p).VolID share p) p).1).1, true) := by
  unfold shareUpdateRanger
  simp only [shareUpdateLoop_find_some w shareId share none _ k p hfind,
    updateScanAt_rebind w shareId share p hallowed hsar hchange, Bool.false_eq_true, if_false,
    if_true, Bool.true_or]

theorem readFile_of_node_eq (fs1 fs2 : FS) (path : String)
    (h : fs1.node (resolve path) = fs2.node (resolve path)) :
    fs1.readFile path = fs2.readFile path := by
  unfold FS.readFile
  rw [h]

theorem prefix_append_singleton_iff (t : List String) (a b : String) :
    t ++ [a] <+: t ++ [b] ↔ a = b := by
  rw [List.prefix_append_right_inj]
  constructor
  · intro h
    obtain ⟨r, hr⟩ := h
    simpa using (List.cons.inj hr).1
  · intro h; rw [h]

theorem rebindRecord_heap_self (w : World) (old vol : String) (share : Share) (p : Ptr) :
    (rebindRecord w old vol share p).heap p =
      { w.heap p with
        SharedDataKind := share.Spec.BackingResource.Kind
        SharedDataKey := w.BuildKey share.Spec.BackingResource.Namespace
          share.Spec.BackingResource.Name
        SharedDataId := share.Name } := by
  unfold rebindRecord
  simp only [Function.update_same]
  rfl

/-! ## Lemmas: the cleanup of the staging directories -/

theorem WriteFile_ok_parent (fs : FS) (path : String) (data : Content)
    (h : (WriteFile fs path data).2 = none) :
    fs.node (resolve path).dropLast = some Node.dir := by
  unfold WriteFile at h
  by_cases hp : path = ""
  · simp [hp] at h
  · simp only [hp, if_false] at h
    cases h1 : fs.node (resolve path) with
    | some n =>
      cases n with
      | dir => rw [h1] at h; simp at h
      | file c =>
        rw [h1] at h
        simp only at h
        cases h2 : fs.node (resolve path).dropLast with
        | none => rw [h2] at h; simp at h
        | some m =>
          cases m with
          | dir => rfl
          | file c2 => rw [h2] at h; simp at h
    | none =>
      rw [h1] at h
      simp only at h
      cases h2 : fs.node (resolve path).dropLast with
      | none => rw [h2] at h; simp at h
      | some m =>
        cases m with
        | dir => rfl
        | file c2 => rw [h2] at h; simp at h

/-- Storing the volume map leaves every directory in place. -/
theorem storeVolMapToDisk_dir (w : World) (q : List String) (h : w.fs.node q = some Node.dir) :
    (storeVolMapToDisk w).1.fs.node q = some Node.dir := by
  rw [storeVolMapToDisk_eq]
  simp only
  rcases WriteFile_node_cases w.fs w.volMapOnDiskPath
    (Content.volMap (w.hostPathVolumes.foldl (fun m e => mapSet m e.1 (w.heap e.2)) [])) q
    with h1 | h1
  · rw [h1]; exact h
  · exact absurd h h1.2.2.1

/-- Storing the volume map creates nothing where the parent directory is missing. -/
theorem storeVolMapToDisk_node_none (w : World) (q : List String) (h : w.fs.node q = none)
    (hpar : w.fs.node q.dropLast ≠ some Node.dir) :
    (storeVolMapToDisk w).1.fs.node q = none := by
  rw [storeVolMapToDisk_eq]
  simp only
  rcases WriteFile_node_cases w.fs w.volMapOnDiskPath
    (Content.volMap (w.hostPathVolumes.foldl (fun m e => mapSet m e.1 (w.heap e.2)) [])) q
    with h1 | h1
  · rw [h1]; exact h
  · have := WriteFile_ok_parent _ _ _ h1.1
    rw [← h1.2.1] at this
    exact absurd this hpar

theorem noChild_below (fs : FS) (a q : List String) (h : fs.noChild a = true)
    (hpre : a.isPrefixOf q = true) (hne : q ≠ a) : mapGet fs q = none := by
  rw [mapGet_eq_none_iff]
  intro e he heq
  unfold FS.noChild at h
  rw [List.all_eq_true] at h
  have := h e he
  rw [heq] at this
  simp [hpre, hne] at this

theorem node_nil_fs (q : List String) : FS.node [] q = if q = [] then some Node.dir else none := by
  unfold FS.node
  split <;> simp [mapGet]

/-- What `deleteIfEmpty` does to a node: nothing, or it removes the empty directory named. -/
theorem deleteIfEmpty_node_cases (fs : FS) (name : String) (q : List String) :
    (deleteIfEmpty fs name).node q = fs.node q ∨
      (q = resolve name ∧ fs.node q = some Node.dir ∧ fs.noChild q = true ∧
        (deleteIfEmpty fs name).node q = none) := by
  unfold deleteIfEmpty isDirEmpty
  by_cases hn : name = ""
  · left; simp [hn]
  · simp only [hn, if_false]
    cases hnode : fs.node (resolve name) with
    | none => left; rfl
    | some n =>
      cases n with
      | file c => left; rfl
      | dir =>
        simp only
        by_cases hc : fs.noChild (resolve name) = true
        · simp only [hc, if_true]
          unfold RemoveAll
          simp only [hn, if_false]
          by_cases hdot : endsWithDot name = true
          · left; simp [hdot]
          · have hdot2 : endsWithDot name = false := by simpa using hdot
            simp only [hdot2, Bool.false_eq_true, if_false]
            by_cases hroot : resolve name = []
            · left
              simp only [hroot, if_true]
              rw [node_nil_fs]
              by_cases hq : q = []
              · simp [hq, node_nil]
              · simp only [hq, if_false]
                rw [node_of_ne_nil fs q hq]
                rw [hroot] at hc
                exact (noChild_below fs [] q hc (by cases q <;> rfl) hq).symm
            · simp only [hroot, if_false]
              rw [node_filter_below fs _ q hroot]
              by_cases hpre : (resolve name).isPrefixOf q = true
              · simp only [hpre, if_true]
                by_cases hq : q = resolve name
                · right
                  subst hq
                  exact ⟨rfl, hnode, hc, trivial⟩
                · left
                  have hq0 : q ≠ [] := by
                    intro e
                    rw [e] at hpre
                    cases hr : resolve name with
                    | nil => exact hroot hr
                    | cons a t => rw [hr] at hpre; simp [List.isPrefixOf] at hpre
                  rw [node_of_ne_nil fs q hq0]
                  exact (noChild_below fs _ q hc hpre hq).symm
              · left; simp [hpre]
        · left; simp [hc]

theorem deleteIfEmpty_node_ne (fs : FS) (name : String) (q : List String)
    (h : q ≠ resolve name) : (deleteIfEmpty fs name).node q = fs.node q := by
  rcases deleteIfEmpty_node_cases fs name q with h1 | h1
  · exact h1
  · exact absurd h1.1 h

theorem deleteIfEmpty_node_none (fs : FS) (name : String) (q : List String)
    (h : fs.node q = none) : (deleteIfEmpty fs name).node q = none := by
  rcases deleteIfEmpty_node_cases fs name q with h1 | h1
  · rw [h1]; exact h
  · exact h1.2.2.2

/-- A directory with something below it is left in place by `deleteIfEmpty`. -/
theorem deleteIfEmpty_node_of_below (fs : FS) (name : String) (c : List String)
    (hpre : (resolve name).isPrefixOf c = true) (hne : c ≠ resolve name)
    (hc : fs.node c ≠ none) :
    (deleteIfEmpty fs name).node (resolve name) = fs.node (resolve name) := by
  rcases deleteIfEmpty_node_cases fs name (resolve name) with h1 | h1
  · exact h1
  · exfalso
    have hc0 : c ≠ [] := by
      intro e
      rw [e] at hpre hne
      cases hr : resolve name with
      | nil => exact hne hr.symm
      | cons a t => rw [hr] at hpre; simp [List.isPrefixOf] at hpre
    rw [node_of_ne_nil fs c hc0] at hc
    exact hc (noChild_below fs _ c h1.2.2.1 hpre hne)

theorem cleanupChain_node_of_not_mem (fs : FS) (names : List String) (q : List String)
    (h : ∀ n ∈ names, q ≠ resolve n) : (cleanupChain fs names).node q = fs.node q := by
  induction names generalizing fs with
  | nil => rfl
  | cons n rest ih =>
    have h1 := ih (deleteIfEmpty fs n) (fun m hm => h m (by simp [hm]))
    unfold cleanupChain at h1 ⊢
    rw [List.foldl_cons, h1]
    exact deleteIfEmpty_node_ne fs n q (h n (by simp))

theorem cleanupChain_node_none (fs : FS) (names : List String) (q : List String)
    (h : fs.node q = none) : (cleanupChain fs names).node q = none := by
  induction names generalizing fs with
  | nil => exact h
  | cons n rest ih =>
    have h1 := ih (deleteIfEmpty fs n) (deleteIfEmpty_node_none fs n q h)
    unfold cleanupChain at h1 ⊢
    rw [List.foldl_cons]
    exact h1

/-- In the walk, a directory with something below it that the walk does not visit is left in
place. -/
theorem cleanupChain_node_of_below (fs : FS) (names : List String) (n0 : String)
    (c : List String) (hmem : n0 ∈ names) (hnodup : (names.map resolve).Nodup)
    (hpre : (resolve n0).isPrefixOf c = true) (hne : ∀ n ∈ names, c ≠ resolve n)
    (hc : fs.node c ≠ none) :
    (cleanupChain fs names).node (resolve n0) = fs.node (resolve n0) := by
  induction names generalizing fs with
  | nil => simp at hmem
  | cons n rest ih =>
    simp only [List.map_cons, List.nodup_cons] at hnodup
    have hstep : (cleanupChain fs (n :: rest)) = cleanupChain (deleteIfEmpty fs n) rest := by
      unfold cleanupChain; rfl
    rw [hstep]
    by_cases hn : resolve n = resolve n0
    · have hnot : ∀ m ∈ rest, resolve n0 ≠ resolve m := by
        intro m hm e
        apply hnodup.1
        rw [hn, e]
        exact List.mem_map_of_mem resolve hm
      rw [cleanupChain_node_of_not_mem _ rest _ hnot, ← hn]
      apply deleteIfEmpty_node_of_below fs n c
      · rw [hn]; exact hpre
      · exact hne n (by simp)
      · exact hc
    · have hmem' : n0 ∈ rest := by
        simp only [List.mem_cons] at hmem
        rcases hmem with h | h
        · exact absurd (by rw [h]) hn
        · exact h
      rw [ih (deleteIfEmpty fs n) hmem' hnodup.2 (fun m hm => hne m (by simp [hm]))
        (by rw [deleteIfEmpty_node_ne fs n c (hne n (by simp))]; exact hc)]
      exact deleteIfEmpty_node_ne fs n _ (fun e => hn e.symm)

/-! ## Lemmas: deleteHostpathVolume -/

theorem unregisterAllCallbacks_fields (w : World) (volID : String) :
    (unregisterAllCallbacks w volID).fs = w.fs ∧
      (unregisterAllCallbacks w volID).heap = w.heap ∧
      (unregisterAllCallbacks w volID).hostPathVolumes = w.hostPathVolumes ∧
      (unregisterAllCallbacks w volID).volMapOnDiskPath = w.volMapOnDiskPath ∧
      (unregisterAllCallbacks w volID).configMapUpsertCallbacks =
        mapDelete w.configMapUpsertCallbacks volID ∧
      (unregisterAllCallbacks w volID).configMapDeleteCallbacks =
        mapDelete w.configMapDeleteCallbacks volID ∧
      (unregisterAllCallbacks w volID).secretUpsertCallbacks =
        mapDelete w.secretUpsertCallbacks volID ∧
      (unregisterAllCallbacks w volID).secretDeleteCallbacks =
        mapDelete w.secretDeleteCallbacks volID ∧
      (unregisterAllCallbacks w volID).shareUpdateCallbacks =
        mapDelete w.shareUpdateCallbacks volID ∧
      (unregisterAllCallbacks w volID).shareDeleteCallbacks =
        mapDelete w.shareDeleteCallbacks volID := by
  simp only [unregisterAllCallbacks, UnregisterShareUpdateCallback,
    UnregisterShareDeleteCallback, UnregisterConfigMapUpsertCallback,
    UnregisterConfigMapDeleteCallback, UnregisterSecretDeleteCallback,
    UnregisterSecretUpsertCallback, and_self]

theorem unregisterAllCallbacks_idem (w : World) (volID : String) :
    unregisterAllCallbacks (unregisterAllCallbacks w volID) volID =
      unregisterAllCallbacks w volID := by
  simp only [unregisterAllCallbacks, UnregisterShareUpdateCallback,
    UnregisterShareDeleteCallback, UnregisterConfigMapUpsertCallback,
    UnregisterConfigMapDeleteCallback, UnregisterSecretDeleteCallback,
    UnregisterSecretUpsertCallback, mapDelete_mapDelete]

theorem deleteHostpathVolume_some (w : World) (volID : String) (hpv : Ptr)
    (h : mapGet w.hostPathVolumes volID = some hpv) :
    (deleteHostpathVolume w volID).1 =
      unregisterAllCallbacks (storeVolMapToDisk
        { w with
          fs := cleanupChain (RemoveAll w.fs (w.heap hpv).VolPath).1
            [Dir (w.heap hpv).VolPath, Dir (Dir (w.heap hpv).VolPath),
              Dir (Dir (Dir (w.heap hpv).VolPath)),
              Dir (Dir (Dir (Dir (w.heap hpv).VolPath)))]
          hostPathVolumes := mapDelete w.hostPathVolumes volID }).1 volID := by
  unfold deleteHostpathVolume
  simp only [h, cleanupChain, List.foldl]

/-- The result of `deleteHostpathVolume` for a volume id that is not in the map. -/
theorem deleteHostpathVolume_none (w : World) (volID : String)
    (h : mapGet w.hostPathVolumes volID = none) :
    (deleteHostpathVolume w volID).1 = unregisterAllCallbacks w volID := by
  unfold deleteHostpathVolume
  simp only [h]

theorem storeVolMapToDisk_fields (w : World) :
    (storeVolMapToDisk w).1.heap = w.heap ∧
      (storeVolMapToDisk w).1.hostPathVolumes = w.hostPathVolumes ∧
      (storeVolMapToDisk w).1.volMapOnDiskPath = w.volMapOnDiskPath ∧
      (storeVolMapToDisk w).1.configMapUpsertCallbacks = w.configMapUpsertCallbacks ∧
      (storeVolMapToDisk w).1.configMapDeleteCallbacks = w.configMapDeleteCallbacks ∧
      (storeVolMapToDisk w).1.secretUpsertCallbacks = w.secretUpsertCallbacks ∧
      (storeVolMapToDisk w).1.secretDeleteCallbacks = w.secretDeleteCallbacks ∧
      (storeVolMapToDisk w).1.shareUpdateCallbacks = w.shareUpdateCallbacks ∧
      (storeVolMapToDisk w).1.shareDeleteCallbacks = w.shareDeleteCallbacks :=
  ⟨rfl, rfl, rfl, rfl, rfl, rfl, rfl, rfl, rfl⟩

theorem deleteHostpathVolume_registry (w : World) (volID : String) :
    (deleteHostpathVolume w volID).1.hostPathVolumes = mapDelete w.hostPathVolumes volID ∧
      (deleteHostpathVolume w volID).1.heap = w.heap := by
  cases h : mapGet w.hostPathVolumes volID with
  | none =>
    rw [deleteHostpathVolume_none w volID h]
    obtain ⟨_, h2, h3, _⟩ := unregisterAllCallbacks_fields w volID
    rw [h2, h3]
    exact ⟨(mapDelete_of_mapGet_none _ _ h).symm, rfl⟩
  | some hpv =>
    rw [deleteHostpathVolume_some w volID hpv h]
    obtain ⟨_, h2, h3, _⟩ := unregisterAllCallbacks_fields (storeVolMapToDisk
      { w with
        fs := cleanupChain (RemoveAll w.fs (w.heap hpv).VolPath).1
          [Dir (w.heap hpv).VolPath, Dir (Dir (w.heap hpv).VolPath),
            Dir (Dir (Dir (w.heap hpv).VolPath)),
            Dir (Dir (Dir (Dir (w.heap hpv).VolPath)))]
        hostPathVolumes := mapDelete w.hostPathVolumes volID }).1 volID
    rw [h2, h3]
    exact ⟨rfl, rfl⟩

theorem deleteHostpathVolume_fs (w : World) (volID : String) (hpv : Ptr)
    (h : mapGet w.hostPathVolumes volID = some hpv) :
    (deleteHostpathVolume w volID).1.fs =
      (storeVolMapToDisk
        { w with
          fs := cleanupChain (RemoveAll w.fs (w.heap hpv).VolPath).1
            [Dir (w.heap hpv).VolPath, Dir (Dir (w.heap hpv).VolPath),
              Dir (Dir (Dir (w.heap hpv).VolPath)),
              Dir (Dir (Dir (Dir (w.heap hpv).VolPath)))]
          hostPathVolumes := mapDelete w.hostPathVolumes volID }).1.fs := by
  rw [deleteHostpathVolume_some w volID hpv h]
  exact (unregisterAllCallbacks_fields _ volID).1

theorem deleteHostpathVolume_callbacks (w : World) (volID : String) :
    (deleteHostpathVolume w volID).1.configMapUpsertCallbacks =
        mapDelete w.configMapUpsertCallbacks volID ∧
      (deleteHostpathVolume w volID).1.configMapDeleteCallbacks =
        mapDelete w.configMapDeleteCallbacks volID ∧
      (deleteHostpathVolume w volID).1.secretUpsertCallbacks =
        mapDelete w.secretUpsertCallbacks volID ∧
      (deleteHostpathVolume w volID).1.secretDeleteCallbacks =
        mapDelete w.secretDeleteCallbacks volID ∧
      (deleteHostpathVolume w volID).1.shareUpdateCallbacks =
        mapDelete w.shareUpdateCallbacks volID ∧
      (deleteHostpathVolume w volID).1.shareDeleteCallbacks =
        mapDelete w.shareDeleteCallbacks volID := by
  cases h : mapGet w.hostPathVolumes volID with
  | none =>
    rw [deleteHostpathVolume_none w volID h]
    obtain ⟨_, _, _, _, h1, h2, h3, h4, h5, h6⟩ := unregisterAllCallbacks_fields w volID
    exact ⟨h1, h2, h3, h4, h5, h6⟩
  | some hpv =>
    rw [deleteHostpathVolume_some w volID hpv h]
    obtain ⟨_, _, _, _, h1, h2, h3, h4, h5, h6⟩ := unregisterAllCallbacks_fields
      (storeVolMapToDisk
        { w with
          fs := cleanupChain (RemoveAll w.fs (w.heap hpv).VolPath).1
            [Dir (w.heap hpv).VolPath, Dir (Dir (w.heap hpv).VolPath),
              Dir (Dir (Dir (w.heap hpv).VolPath)),
              Dir (Dir (Dir (Dir (w.heap hpv).VolPath)))]
          hostPathVolumes := mapDelete w.hostPathVolumes volID }).1 volID
    rw [h1, h2, h3, h4, h5, h6]
    exact ⟨rfl, rfl, rfl, rfl, rfl, rfl⟩

/-- A second `deleteHostpathVolume` for the same volume id changes nothing. -/
theorem deleteHostpathVolume_twice (w : World) (volID : String) :
    deleteHostpathVolume (deleteHostpathVolume w volID).1 volID =
      ((deleteHostpathVolume w volID).1, none) := by
  have hnone : mapGet (deleteHostpathVolume w volID).1.hostPathVolumes volID = none := by
    rw [(deleteHostpathVolume_registry w volID).1, mapGet_mapDelete]
    simp
  have h2 : (deleteHostpathVolume (deleteHostpathVolume w volID).1 volID).2 = none := rfl
  have h1 := deleteHostpathVolume_none _ volID hnone
  have h3 : unregisterAllCallbacks (deleteHostpathVolume w volID).1 volID =
      (deleteHostpathVolume w volID).1 := by
    cases h : mapGet w.hostPathVolumes volID with
    | none =>
      rw [deleteHostpathVolume_none w volID h]
      exact unregisterAllCallbacks_idem w volID
    | some hpv =>
      rw [deleteHostpathVolume_some w volID hpv h]
      exact unregisterAllCallbacks_idem _ volID
  rw [h3] at h1
  exact Prod.ext h1 h2

/-! ## Lemmas: the staging path -/

theorem isPrefixOf_false_of_length_lt (a b : List String) (h : b.length < a.length) :
    a.isPrefixOf b = false := by
  cases hp : a.isPrefixOf b with
  | false => rfl
  | true =>
    rw [List.isPrefixOf_iff_prefix] at hp
    have := hp.length_le
    omega

theorem isPrefixOf_dropLast (a q : List String) (h : a.isPrefixOf q = true) (hne : q ≠ a) :
    a.isPrefixOf q.dropLast = true := by
  rw [List.isPrefixOf_iff_prefix] at h ⊢
  obtain ⟨t, rfl⟩ := h
  rcases List.eq_nil_or_concat t with h0 | ⟨t0, x, h0⟩
  · subst h0; simp at hne
  · subst h0
    rw [List.concat_eq_append, ← List.append_assoc, List.dropLast_concat]
    exact List.prefix_append _ _

/-- The staging path of `getVolumePath` for file names as components, and the four
directories `deleteHostpathVolume` computes above it. -/
theorem getVolumePath_chain (hp : hostPath) (volID : String) (volCtx : List (String × String))
    (hvol : plainSegment volID) (hns : plainSegment (getPodDetails volCtx).1)
    (hname : plainSegment (getPodDetails volCtx).2.1)
    (huid : plainSegment (getPodDetails volCtx).2.2.1)
    (hsa : plainSegment (getPodDetails volCtx).2.2.2) :
    getVolumePath hp volID volCtx ≠ "" ∧
      endsWithDot (getVolumePath hp volID volCtx) = false ∧
      resolve (getVolumePath hp volID volCtx) = stagingDir hp volID volCtx ∧
      [Dir (getVolumePath hp volID volCtx), Dir (Dir (getVolumePath hp volID volCtx)),
        Dir (Dir (Dir (getVolumePath hp volID volCtx))),
        Dir (Dir (Dir (Dir (getVolumePath hp volID volCtx))))].map resolve =
        stagingChain hp volID volCtx := by
  have hP : getVolumePath hp volID volCtx =
      Join [hp.root, volID, (getPodDetails volCtx).1, (getPodDetails volCtx).2.1,
        (getPodDetails volCtx).2.2.1, (getPodDetails volCtx).2.2.2] := rfl
  unfold stagingDir stagingChain
  generalize (getPodDetails volCtx).1 = n at hns hP ⊢
  generalize (getPodDetails volCtx).2.1 = p at hname hP ⊢
  generalize (getPodDetails volCtx).2.2.1 = u at huid hP ⊢
  generalize (getPodDetails volCtx).2.2.2 = s at hsa hP ⊢
  have h5 : ∀ k ∈ [volID, n, p, u, s], plainSegment k := by
    intro k hk
    simp only [List.mem_cons, List.mem_singleton, List.not_mem_nil, or_false] at hk
    rcases hk with h | h | h | h | h <;> (rw [h]; assumption)
  have h4 : ∀ k ∈ [volID, n, p, u], plainSegment k := fun k hk => h5 k (by
    simp only [List.mem_cons, List.mem_singleton, List.not_mem_nil, or_false] at hk ⊢
    tauto)
  have h3 : ∀ k ∈ [volID, n, p], plainSegment k := fun k hk => h5 k (by
    simp only [List.mem_cons, List.mem_singleton, List.not_mem_nil, or_false] at hk ⊢
    tauto)
  have h2 : ∀ k ∈ [volID, n], plainSegment k := fun k hk => h5 k (by
    simp only [List.mem_cons, List.mem_singleton, List.not_mem_nil, or_false] at hk ⊢
    tauto)
  have h1 : ∀ k ∈ [volID], plainSegment k := fun k hk => h5 k (by
    simp only [List.mem_cons, List.mem_singleton, List.not_mem_nil, or_false] at hk ⊢
    tauto)
  have d1 : Dir (Join [hp.root, volID, n, p, u, s]) = Join [hp.root, volID, n, p, u] :=
    Dir_Join_append hp.root [volID, n, p, u] s h4 (by simp) hsa
  have d2 : Dir (Join [hp.root, volID, n, p, u]) = Join [hp.root, volID, n, p] :=
    Dir_Join_append hp.root [volID, n, p] u h3 (by simp) huid
  have d3 : Dir (Join [hp.root, volID, n, p]) = Join [hp.root, volID, n] :=
    Dir_Join_append hp.root [volID, n] p h2 (by simp) hname
  have d4 : Dir (Join [hp.root, volID, n]) = Join [hp.root, volID] :=
    Dir_Join_append hp.root [volID] n h1 (by simp) hns
  rw [hP]
  refine ⟨Join_cons_plain_ne_empty _ _ h5 (by simp), endsWithDot_Join_cons_plain _ _ h5 (by simp),
    resolve_Join_cons_plain _ _ h5 (by simp), ?_⟩
  rw [d1, d2, d3, d4]
  simp only [List.map_cons, List.map_nil]
  rw [resolve_Join_cons_plain _ _ h4 (by simp), resolve_Join_cons_plain _ _ h3 (by simp),
    resolve_Join_cons_plain _ _ h2 (by simp), resolve_Join_cons_plain _ _ h1 (by simp)]

theorem stagingChain_facts (hp : hostPath) (volID : String) (volCtx : List (String × String)) :
    (stagingChain hp volID volCtx).Nodup ∧
      (∀ a ∈ stagingChain hp volID volCtx,
        (stagingDir hp volID volCtx).isPrefixOf a = false) ∧
      resolve hp.root ∉ stagingChain hp volID volCtx ∧
      (stagingDir hp volID volCtx).isPrefixOf (resolve hp.root) = false ∧
      stagingDir hp volID volCtx ≠ [] := by
  refine ⟨?_, ?_, ?_, ?_, ?_⟩
  · have hlen : ((stagingChain hp volID volCtx).map List.length).Nodup := by
      simp [stagingChain]
    exact List.Nodup.of_map _ hlen
  · intro a ha
    apply isPrefixOf_false_of_length_lt
    simp only [stagingChain, List.mem_cons, List.mem_singleton, List.not_mem_nil,
      or_false] at ha
    rcases ha with h | h | h | h <;> (rw [h]; simp [stagingDir])
  · intro h
    simp only [stagingChain, List.mem_cons, List.mem_singleton, List.not_mem_nil,
      or_false] at h
    rcases h with h | h | h | h <;>
      · have hlen := congrArg List.length h
        simp at hlen
  · apply isPrefixOf_false_of_length_lt
    simp [stagingDir]
  · simp [stagingDir]

/-! ## Lemmas: the reload of the volume map -/

/-- The part of the state `mapBackingResourceToPod` leaves alone that the reload relies on. -/
theorem mapBackingResourceToPod_pods (w : World) (hpv : Ptr) :
    (mapBackingResourceToPod w hpv).1.GetPod = w.GetPod ∧
      (mapBackingResourceToPod w hpv).1.nextPtr = w.nextPtr ∧
      (mapBackingResourceToPod w hpv).1.mountPoints = w.mountPoints ∧
      (mapBackingResourceToPod w hpv).1.ExecuteSAR = w.ExecuteSAR ∧
      (mapBackingResourceToPod w hpv).1.BuildKey = w.BuildKey := by
  by_cases hcm : TrimSpace (w.heap hpv).SharedDataKind = "ConfigMap"
  · rw [mapBackingResourceToPod_configMap w hpv hcm]
    split <;> exact ⟨rfl, rfl, rfl, rfl, rfl⟩
  · by_cases hsec : TrimSpace (w.heap hpv).SharedDataKind = "Secret"
    · rw [mapBackingResourceToPod_secret w hpv hsec]
      split <;> exact ⟨rfl, rfl, rfl, rfl, rfl⟩
    · simp [mapBackingResourceToPod, hcm, hsec]

/-- `mapVolumeToPod` changes neither the map of the volumes, nor a record, nor the pods. -/
theorem mapVolumeToPod_registry (w : World) (hpv : Ptr) :
    (mapVolumeToPod w hpv).1.hostPathVolumes = w.hostPathVolumes ∧
      (mapVolumeToPod w hpv).1.heap = w.heap ∧
      (mapVolumeToPod w hpv).1.GetPod = w.GetPod := by
  obtain ⟨h2, h1, _⟩ := mapBackingResourceToPod_unchanged w hpv
  obtain ⟨h3, _⟩ := mapBackingResourceToPod_pods w hpv
  unfold mapVolumeToPod
  cases hm : mapBackingResourceToPod w hpv with
  | mk w1 e =>
    rw [hm] at h1 h2 h3
    cases e with
    | some err => exact ⟨h1, h2, h3⟩
    | none => exact ⟨h1, h2, h3⟩

/-- The loop of the reload does not touch the pods. -/
theorem loadVolMapLoop_getPod (v : Ptr) (m : List (String × hostPathVolume)) :
    ∀ w : World, (loadVolMapLoop v w m).GetPod = w.GetPod := by
  induction m with
  | nil => intro w; rfl
  | cons e rest ih =>
    intro w
    obtain ⟨k, entry⟩ := e
    simp only [loadVolMapLoop, Function.update_same]
    cases hg : w.GetPod entry.PodNamespace entry.PodName with
    | none => simp only []; rw [ih]
    | some uid =>
      simp only []
      by_cases hu : uid = entry.PodUID
      · simp only [hu, ne_eq, not_true_eq_false, if_false]
        rw [ih, (mapVolumeToPod_registry _ v).2.2]
      · simp only [ne_eq, hu, not_false_eq_true, if_true]
        rw [ih]

/-- The keys of the map after the loop of the reload: those it had, and those of the entries
whose pod lookup returns the UID of the entry; every key the loop stores refers to the cell of
the loop variable. -/
theorem loadVolMapLoop_keys (v : Ptr) (m : List (String × hostPathVolume)) :
    ∀ (w : World) (k : String) (p : Ptr),
      mapGet (loadVolMapLoop v w m).hostPathVolumes k = some p ↔
        ((∃ r, (k, r) ∈ m ∧ w.GetPod r.PodNamespace r.PodName = some r.PodUID) ∧ p = v) ∨
        ((¬ ∃ r, (k, r) ∈ m ∧ w.GetPod r.PodNamespace r.PodName = some r.PodUID) ∧
          mapGet w.hostPathVolumes k = some p) := by
  induction m with
  | nil => intro w k p; simp [loadVolMapLoop]
  | cons e rest ih =>
    intro w k p
    obtain ⟨k0, entry⟩ := e
    simp only [loadVolMapLoop, Function.update_same]
    have key : ∀ w1 : World, w1.GetPod = w.GetPod →
        (mapGet (loadVolMapLoop v w1 rest).hostPathVolumes k = some p ↔
          ((∃ r, (k, r) ∈ rest ∧ w.GetPod r.PodNamespace r.PodName = some r.PodUID) ∧ p = v) ∨
          ((¬ ∃ r, (k, r) ∈ rest ∧ w.GetPod r.PodNamespace r.PodName = some r.PodUID) ∧
            mapGet w1.hostPathVolumes k = some p)) := by
      intro w1 hw1
      rw [ih w1 k p, hw1]
    cases hg : w.GetPod entry.PodNamespace entry.PodName with
    | none =>
      simp only []
      refine (key { w with heap := (Function.update w.heap v entry) } rfl).trans ?_
      dsimp only
      have hne : ∀ r, (k, r) = (k0, entry) →
          ¬ w.GetPod r.PodNamespace r.PodName = some r.PodUID := by
        intro r hr
        simp only [Prod.mk.injEq] at hr
        rw [hr.2, hg]; simp
      constructor
      · rintro (⟨⟨r, hr, hp⟩, hv⟩ | ⟨hno, hget⟩)
        · exact Or.inl ⟨⟨r, List.mem_cons_of_mem _ hr, hp⟩, hv⟩
        · refine Or.inr ⟨?_, hget⟩
          rintro ⟨r, hr, hp⟩
          rcases List.mem_cons.1 hr with h | h
          · exact hne r h hp
          · exact hno ⟨r, h, hp⟩
      · rintro (⟨⟨r, hr, hp⟩, hv⟩ | ⟨hno, hget⟩)
        · rcases List.mem_cons.1 hr with h | h
          · exact absurd hp (hne r h)
          · exact Or.inl ⟨⟨r, h, hp⟩, hv⟩
        · exact Or.inr ⟨fun ⟨r, hr, hp⟩ => hno ⟨r, List.mem_cons_of_mem _ hr, hp⟩, hget⟩
    | some uid =>
      simp only []
      by_cases hu : uid = entry.PodUID
      · simp only [hu, ne_eq, not_true_eq_false, if_false]
        rw [hu] at hg
        refine (key (mapVolumeToPod { w with
          heap := (Function.update w.heap v entry)
          hostPathVolumes := mapSet w.hostPathVolumes k0 v } v).1
          (mapVolumeToPod_registry _ v).2.2).trans ?_
        rw [(mapVolumeToPod_registry _ v).1]
        dsimp only
        simp only [mapGet_mapSet]
        constructor
        · rintro (⟨⟨r, hr, hp⟩, hv⟩ | ⟨hno, hget⟩)
          · exact Or.inl ⟨⟨r, List.mem_cons_of_mem _ hr, hp⟩, hv⟩
          · by_cases hk : k0 = k
            · simp only [hk, if_true, Option.some.injEq] at hget
              exact Or.inl ⟨⟨entry, by rw [hk]; exact List.mem_cons_self _ _, hg⟩, hget.symm⟩
            · simp only [hk, if_false] at hget
              refine Or.inr ⟨?_, hget⟩
              rintro ⟨r, hr, hp⟩
              rcases List.mem_cons.1 hr with h | h
              · simp only [Prod.mk.injEq] at h
                exact hk h.1.symm
              · exact hno ⟨r, h, hp⟩
        · rintro (⟨⟨r, hr, hp⟩, hv⟩ | ⟨hno, hget⟩)
          · by_cases hex : ∃ r, (k, r) ∈ rest ∧ w.GetPod r.PodNamespace r.PodName = some r.PodUID
            · exact Or.inl ⟨hex, hv⟩
            · refine Or.inr ⟨hex, ?_⟩
              rcases List.mem_cons.1 hr with h | h
              · simp only [Prod.mk.injEq] at h
                simp [h.1, hv]
              · exact absurd ⟨r, h, hp⟩ hex
          · have hk : ¬ k0 = k := by
              intro hk
              exact hno ⟨entry, by rw [hk]; exact List.mem_cons_self _ _, hg⟩
            refine Or.inr ⟨fun ⟨r, hr, hp⟩ => hno ⟨r, List.mem_cons_of_mem _ hr, hp⟩, ?_⟩
            simp only [hk, if_false]
            exact hget
      · simp only [ne_eq, hu, not_false_eq_true, if_true]
        refine (key { w with heap := (Function.update w.heap v entry) } rfl).trans ?_
        dsimp only
        have hne : ∀ r, (k, r) = (k0, entry) →
            ¬ w.GetPod r.PodNamespace r.PodName = some r.PodUID := by
          intro r hr
          simp only [Prod.mk.injEq] at hr
          rw [hr.2, hg]
          simp only [Option.some.injEq]
          exact hu
        constructor
        · rintro (⟨⟨r, hr, hp⟩, hv⟩ | ⟨hno, hget⟩)
          · exact Or.inl ⟨⟨r, List.mem_cons_of_mem _ hr, hp⟩, hv⟩
          · refine Or.inr ⟨?_, hget⟩
            rintro ⟨r, hr, hp⟩
            rcases List.mem_cons.1 hr with h | h
            · exact hne r h hp
            · exact hno ⟨r, h, hp⟩
        · rintro (⟨⟨r, hr, hp⟩, hv⟩ | ⟨hno, hget⟩)
          · rcases List.mem_cons.1 hr with h | h
            · exact absurd hp (hne r h)
            · exact Or.inl ⟨⟨r, h, hp⟩, hv⟩
          · exact Or.inr ⟨fun ⟨r, hr, hp⟩ => hno ⟨r, List.mem_cons_of_mem _ hr, hp⟩, hget⟩

/-! ## Lemmas: publish -/

theorem length_eq_zero_iff (s : String) : s.length = 0 ↔ s = "" := by
  constructor
  · intro h
    by_contra hne
    have := length_pos_of_ne_empty s hne
    omega
  · intro h; rw [h]; rfl

theorem getD_eq_empty_iff (ctx : List (String × String)) (key : String) :
    (mapGet ctx key).getD "" = "" ↔ missingOrEmpty ctx key := by
  unfold missingOrEmpty
  cases h : mapGet ctx key with
  | none => simp
  | some v => simp

/-- The pod details of a volume context, as lookups. -/
theorem getPodDetails_eq (ctx : List (String × String)) :
    getPodDetails ctx = ((mapGet ctx CSIPodNamespace).getD "", (mapGet ctx CSIPodName).getD "",
      (mapGet ctx CSIPodUID).getD "", (mapGet ctx CSIPodSA).getD "") := rfl

/-- `NodePublishVolume` when the argument checks and the checks of the pod details pass: the
marker and the capability decide. -/
theorem NodePublishVolume_checked (ns : nodeServer) (w : World) (share : Share)
    (req : NodePublishVolumeRequest) (capability : VolumeCapability)
    (hcap : req.VolumeCapability = some capability) (hid : req.VolumeId ≠ "")
    (htarget : req.TargetPath ≠ "") (hctx : req.VolumeContext ≠ none)
    (hctx2 : req.VolumeContext ≠ some [])
    (hname : ¬ missingOrEmpty req.GetVolumeContext CSIPodName)
    (hns : ¬ missingOrEmpty req.GetVolumeContext CSIPodNamespace)
    (huid : ¬ missingOrEmpty req.GetVolumeContext CSIPodUID)
    (hsa : ¬ missingOrEmpty req.GetVolumeContext CSIPodSA) :
    NodePublishVolume ns w share req =
      if (mapGet req.GetVolumeContext CSIEphemeral).getD "" = "true" ∨
          (mapGet req.GetVolumeContext CSIEphemeral).getD "" = "" then
        match capability.Mount with
        | none => (w, Code.InvalidArgument)
        | some _ => publishVolume ns w share req
      else (w, Code.InvalidArgument) := by
  have h1 : ¬ req.VolumeId.length = 0 := fun h => hid ((length_eq_zero_iff _).1 h)
  have h2 : ¬ req.TargetPath.length = 0 := fun h => htarget ((length_eq_zero_iff _).1 h)
  have h3 : ¬ (req.VolumeContext = none ∨ req.GetVolumeContext.length = 0) := by
    rintro (h | h)
    · exact hctx h
    · cases hc : req.VolumeContext with
      | none => exact hctx hc
      | some l =>
        unfold NodePublishVolumeRequest.GetVolumeContext at h
        rw [hc] at h
        simp only [Option.getD_some, List.length_eq_zero] at h
        rw [h] at hc
        exact hctx2 hc
  have h4 : ¬ (((mapGet req.GetVolumeContext CSIPodName).getD "").length = 0 ∨
      ((mapGet req.GetVolumeContext CSIPodNamespace).getD "").length = 0 ∨
      ((mapGet req.GetVolumeContext CSIPodUID).getD "").length = 0 ∨
      ((mapGet req.GetVolumeContext CSIPodSA).getD "").length = 0) := by
    simp only [length_eq_zero_iff, getD_eq_empty_iff]
    tauto
  unfold NodePublishVolume
  rw [hcap]
  simp only [h1, h2, h3, if_false, getPodDetails_eq, h4]
  by_cases he : (mapGet req.GetVolumeContext CSIEphemeral).getD "" = "true" ∨
      (mapGet req.GetVolumeContext CSIEphemeral).getD "" = ""
  · rw [if_pos he]
    cases hm : capability.Mount <;> rcases he with he | he <;> simp [he]
  · rw [if_neg he]
    simp only [not_or] at he
    simp [he.1, he.2]

/-- `createHostpathVolume` for a mount volume, by the result of making the staging directory. -/
theorem createHostpathVolume_mount (hp : hostPath) (w : World) (volID targetPath : String)
    (volCtx : List (String × String)) (share : Share) (cap : Int) :
    createHostpathVolume hp w volID targetPath volCtx share cap accessType.mountAccess =
      match MkdirAll w.fs (getVolumePath hp volID volCtx) with
      | (fs1, some err) => ({ w with fs := fs1 }, Except.error err)
      | (fs1, none) =>
        ({ w with
            fs := fs1
            heap := (Function.update w.heap w.nextPtr
              (newRecord hp w volID targetPath volCtx share cap))
            nextPtr := w.nextPtr + 1
            hostPathVolumes := mapSet w.hostPathVolumes volID w.nextPtr }, Except.ok w.nextPtr) := by
  unfold createHostpathVolume
  dsimp only
  cases hm : MkdirAll w.fs (getVolumePath hp volID volCtx) with
  | mk fs1 e =>
    cases e with
    | some err => rfl
    | none => rfl

/-- The end of `NodePublishVolume` answers with success or with an internal error. -/
theorem publishMount_code (ns : nodeServer) (w : World) (req : NodePublishVolumeRequest)
    (vol : Ptr) :
    (publishMount ns w req vol).2 = Code.OK ∨ (publishMount ns w req vol).2 = Code.Internal := by
  unfold publishMount
  simp only []
  split
  · exact Or.inr rfl
  · split
    · exact Or.inr rfl
    · exact Or.inl rfl

/-- After the checks `NodePublishVolume` answers with success or with an internal error: the
record `createHostpathVolume` returns is a mount volume. -/
theorem publishVolume_code (ns : nodeServer) (w : World) (share : Share)
    (req : NodePublishVolumeRequest) :
    (publishVolume ns w share req).2 = Code.OK ∨
      (publishVolume ns w share req).2 = Code.Internal := by
  unfold publishVolume
  rw [createHostpathVolume_mount]
  cases hm : MkdirAll w.fs (getVolumePath ns.hp req.VolumeId req.GetVolumeContext) with
  | mk fs1 e =>
    cases e with
    | some err => exact Or.inr rfl
    | none =>
      simp only [Function.update_same, newRecord, ne_eq, not_true_eq_false, if_false]
      split
      · split
        · split
          · exact Or.inr rfl
          · exact publishMount_code _ _ _ _
        · exact Or.inr rfl
      · split
        · exact Or.inl rfl
        · exact publishMount_code _ _ _ _

/-! ## Lemmas: duplicates and the writes of the writer -/

/-- Assigning to a key the map has does not change its keys. -/
theorem mapSet_keys_of_mem {κ α : Type} [DecidableEq κ] (m : List (κ × α)) (k : κ) (v v0 : α)
    (h : mapGet m k = some v0) : (mapSet m k v).map Prod.fst = m.map Prod.fst := by
  induction m with
  | nil => simp [mapGet] at h
  | cons e rest ih =>
    obtain ⟨a, b⟩ := e
    by_cases hk : a = k
    · simp [mapSet, hk]
    · simp only [mapGet, hk, if_false] at h
      simp [mapSet, hk, ih h]

/-- A node that `writeEntries` changes is the file of an entry, and holds a regular file
afterwards. -/
theorem writeEntries_changed (dir : String) (es : List (String × List Nat)) :
    ∀ (fs : FS) (q : List String), (writeEntries fs dir es).1.node q ≠ fs.node q →
      ∃ e ∈ es, q = resolve (Join [dir, e.1]) ∧
        ∃ c, (writeEntries fs dir es).1.node q = some (Node.file c) := by
  induction es with
  | nil => intro fs q h; exact absurd rfl h
  | cons e rest ih =>
    intro fs q h
    obtain ⟨k, v⟩ := e
    simp only [writeEntries] at h ⊢
    cases hw : WriteFile fs (Join [dir, k]) (Content.bytes v) with
    | mk fs1 err =>
      rw [hw] at h
      have hcases := WriteFile_node_cases fs (Join [dir, k]) (Content.bytes v) q
      rw [hw] at hcases
      cases err with
      | some e1 =>
        simp only at h ⊢
        rcases hcases with hc | ⟨hc, _⟩
        · exact absurd hc h
        · simp at hc
      | none =>
        simp only at h ⊢
        by_cases hrest : (writeEntries fs1 dir rest).1.node q = fs1.node q
        · rcases hcases with hc | ⟨_, hq, _, hfile⟩
          · exact absurd (hrest.trans hc) h
          · refine ⟨(k, v), List.mem_cons_self _ _, hq, Content.bytes v, ?_⟩
            rw [hrest]; exact hfile
        · obtain ⟨e, he, hq, c, hc⟩ := ih fs1 q hrest
          exact ⟨e, List.mem_cons_of_mem _ he, hq, c, hc⟩

/-! ## Lemmas: the files after a sequence of upserts -/

/-- A regular file does not change under `commonUpsertRanger` when no entry of the payload
names it. -/
theorem commonUpsertRanger_file_kept (fs : FS) (podPath key : String) (p : Payload)
    (q : List String) (c : Content) (h : fs.node q = some (Node.file c))
    (hnot : ∀ e ∈ payloadEntries p, resolve (Join [Join [podPath, key], e.1]) ≠ q) :
    (commonUpsertRanger fs podPath key key p).1.node q = some (Node.file c) := by
  rw [commonUpsertRanger_eq]
  have hm := MkdirAll_node_cases fs (Join [podPath, key]) q
  cases hmk : MkdirAll fs (Join [podPath, key]) with
  | mk fs1 e =>
    rw [hmk] at hm
    simp only at hm
    have h1 : fs1.node q = some (Node.file c) := by
      rcases hm with hm | hm
      · rw [hm]; exact h
      · rw [hm.1] at h; simp at h
    cases e with
    | some err => exact h1
    | none =>
      simp only
      rw [writeEntries_node_of_not_mem]
      · exact h1
      · intro hmem
        obtain ⟨e, he, hq⟩ := List.mem_map.1 hmem
        exact hnot e he hq

/-- A regular file does not change under a sequence of upserts when no entry of a payload
names it. -/
theorem upsertRun_file_kept (podPath key : String) (ps : List Payload) (q : List String)
    (c : Content) :
    ∀ fs : FS, fs.node q = some (Node.file c) →
      (∀ p ∈ ps, ∀ e ∈ payloadEntries p, resolve (Join [Join [podPath, key], e.1]) ≠ q) →
      (upsertRun fs podPath key ps).1.node q = some (Node.file c) := by
  induction ps with
  | nil => intro fs h _; exact h
  | cons p rest ih =>
    intro fs h hnot
    simp only [upsertRun]
    have h1 := commonUpsertRanger_file_kept fs podPath key p q c h
      (hnot p (List.mem_cons_self _ _))
    cases hc : commonUpsertRanger fs podPath key key p with
    | mk fs1 e =>
      rw [hc] at h1
      cases e with
      | some err => exact h1
      | none => exact ih fs1 h1 (fun p' hp' => hnot p' (List.mem_cons_of_mem _ hp'))

/-- A sequence of upserts that is written without error, split in two. -/
theorem upsertRun_append_ok (podPath key : String) (a b : List Payload) :
    ∀ fs : FS, (upsertRun fs podPath key (a ++ b)).2 = true →
      (upsertRun fs podPath key a).2 = true ∧
        upsertRun fs podPath key (a ++ b) =
          upsertRun (upsertRun fs podPath key a).1 podPath key b := by
  induction a with
  | nil => intro fs _; exact ⟨rfl, rfl⟩
  | cons p rest ih =>
    intro fs h
    simp only [List.cons_append] at h ⊢
    obtain ⟨hc, heq⟩ := upsertRun_cons_ok fs podPath key p (rest ++ b) h
    rw [heq] at h ⊢
    obtain ⟨h1, h2⟩ := ih _ h
    have heq2 : upsertRun fs podPath key (p :: rest) =
        upsertRun (commonUpsertRanger fs podPath key key p).1 podPath key rest := by
      simp only [upsertRun]
      cases hcc : commonUpsertRanger fs podPath key key p with
      | mk fs1 e =>
        rw [hcc] at hc
        simp only at hc
        subst hc
        rfl
    rw [heq2]
    exact ⟨h1, h2⟩

/-- Where a regular file after `commonUpsertRanger` comes from: it was there, or it is the file
of an entry of the payload. -/
theorem commonUpsertRanger_file_origin (fs : FS) (podPath key : String) (p : Payload)
    (q : List String) (c : Content)
    (h : (commonUpsertRanger fs podPath key key p).1.node q = some (Node.file c)) :
    fs.node q = some (Node.file c) ∨
      ∃ k v, (k, v) ∈ payloadEntries p ∧
        q = resolve (Join [Join [podPath, key], k]) ∧ c = Content.bytes v := by
  rw [commonUpsertRanger_eq] at h
  have hm := MkdirAll_node_cases fs (Join [podPath, key]) q
  cases hmk : MkdirAll fs (Join [podPath, key]) with
  | mk fs1 e =>
    rw [hmk] at hm h
    simp only at hm
    have hback : fs1.node q = some (Node.file c) → fs.node q = some (Node.file c) := by
      intro h1
      rcases hm with hm | hm
      · rw [← hm]; exact h1
      · rw [hm.2] at h1; simp at h1
    cases e with
    | some err => exact Or.inl (hback h)
    | none =>
      simp only at h
      rcases writeEntries_file_origin fs1 _ _ q c h with h1 | ⟨k, v, hmem, hq, hc⟩
      · exact Or.inl (hback h1)
      · exact Or.inr ⟨k, v, hmem, hq, hc⟩

/-- Where a regular file after a sequence of upserts comes from: it was there, or it is the file
of an entry of one of the payloads. -/
theorem upsertRun_file_origin (podPath key : String) (ps : List Payload) (q : List String)
    (c : Content) :
    ∀ fs : FS, (upsertRun fs podPath key ps).1.node q = some (Node.file c) →
      fs.node q = some (Node.file c) ∨
        ∃ p ∈ ps, ∃ k v, (k, v) ∈ payloadEntries p ∧
          q = resolve (Join [Join [podPath, key], k]) ∧ c = Content.bytes v := by
  induction ps with
  | nil => intro fs h; exact Or.inl h
  | cons p rest ih =>
    intro fs h
    simp only [upsertRun] at h
    have horigin := commonUpsertRanger_file_origin fs podPath key p q c
    cases hc : commonUpsertRanger fs podPath key key p with
    | mk fs1 e =>
      rw [hc] at h horigin
      have hstep : fs1.node q = some (Node.file c) →
          fs.node q = some (Node.file c) ∨
            ∃ p' ∈ p :: rest, ∃ k v, (k, v) ∈ payloadEntries p' ∧
              q = resolve (Join [Join [podPath, key], k]) ∧ c = Content.bytes v := by
        intro h1
        rcases horigin h1 with h2 | ⟨k, v, hmem, hq, hcv⟩
        · exact Or.inl h2
        · exact Or.inr ⟨p, List.mem_cons_self _ _, k, v, hmem, hq, hcv⟩
      cases e with
      | some err => exact hstep h
      | none =>
        simp only at h
        rcases ih fs1 h with h1 | ⟨p', hp', k, v, hmem, hq, hcv⟩
        · exact hstep h1
        · exact Or.inr ⟨p', List.mem_cons_of_mem _ hp', k, v, hmem, hq, hcv⟩

/-- The file of an entry after a sequence of upserts written without error, when every entry of
its payload that names the file has the value of the entry and no later payload names it. -/
theorem upsertRun_file_entry (fs : FS) (podPath key : String) (before : List Payload)
    (p : Payload) (after : List Payload)
    (hok : (upsertRun fs podPath key (before ++ p :: after)).2 = true)
    (k : String) (v : List Nat) (hmem : (k, v) ∈ payloadEntries p)
    (hsame : ∀ e ∈ payloadEntries p,
      resolve (Join [Join [podPath, key], e.1]) = resolve (Join [Join [podPath, key], k]) →
      e.2 = v)
    (hlater : ∀ p' ∈ after, ∀ e ∈ payloadEntries p',
      resolve (Join [Join [podPath, key], e.1]) ≠ resolve (Join [Join [podPath, key], k])) :
    (upsertRun fs podPath key (before ++ p :: after)).1.readFile
      (Join [Join [podPath, key], k]) = some (Content.bytes v) := by
  obtain ⟨_, heq⟩ := upsertRun_append_ok podPath key before (p :: after) fs hok
  rw [heq] at hok ⊢
  obtain ⟨hc, heq2⟩ := upsertRun_cons_ok _ podPath key p after hok
  rw [heq2]
  have hfile := commonUpsertRanger_file_entry _ podPath key p hc k v hmem hsame
  have hne : Join [Join [podPath, key], k] ≠ "" := by
    intro e
    rw [e] at hfile
    simp [FS.readFile] at hfile
  have hnode : (commonUpsertRanger (upsertRun fs podPath key before).1 podPath key key p).1.node
      (resolve (Join [Join [podPath, key], k])) = some (Node.file (Content.bytes v)) := by
    unfold FS.readFile at hfile
    simp only [hne, if_false] at hfile
    cases hn : (commonUpsertRanger (upsertRun fs podPath key before).1 podPath key key p).1.node
        (resolve (Join [Join [podPath, key], k])) with
    | none => rw [hn] at hfile; simp at hfile
    | some n =>
      rw [hn] at hfile
      cases n with
      | dir => simp at hfile
      | file c0 =>
        simp only [Option.some.injEq] at hfile
        rw [hfile]
  have hkept := upsertRun_file_kept podPath key after _ _ _ hnode hlater
  simp [FS.readFile, hne, hkept]

/-- After a sequence of upserts written without error every entry of every payload has a
file. -/
theorem upsertRun_entries_exist (podPath key : String) (ps : List Payload) :
    ∀ fs : FS, (upsertRun fs podPath key ps).2 = true →
      ∀ p ∈ ps, ∀ k v, (k, v) ∈ payloadEntries p →
        ∃ c, (upsertRun fs podPath key ps).1.readFile (Join [Join [podPath, key], k]) =
          some c := by
  induction ps with
  | nil => intro fs _ p hp; simp at hp
  | cons p0 rest ih =>
    intro fs hok p hp k v hmem
    obtain ⟨hc, heq⟩ := upsertRun_cons_ok fs podPath key p0 rest hok
    rw [heq] at hok ⊢
    rcases List.mem_cons.1 hp with h | h
    · subst h
      have hex := commonUpsertRanger_file_exists fs podPath key p hc k v hmem
      exact readFile_preserved _ _ _
        (fun q hq => upsertRun_preserves _ podPath key rest q hq) hex
    · exact ih _ hok p h k v hmem

/-! # The claims -/

/-! ## C1: the layout of the initial materialization -/

/-- C1, as stated, fails: for the record of `vol1`, of kind ConfigMap with the backing object
`n:cm1` in the cache, `mapBackingResourceToPod` returns without error, the object has the entry
`k1` with value `v1`, and there is no file `/pods/t/configmaps/k1`, the path
`TargetPath/configmaps/k1` of the claim. -/
theorem mapBackingResourceToPod_not_flat :
    (mapBackingResourceToPod exCreated 0).2 = none ∧
      (exCreated.heap 0).SharedDataKind = "ConfigMap" ∧
      (exCreated.heap 0).TargetPath = "/pods/t" ∧
      GetConfigMap exCreated (exCreated.heap 0).SharedDataKey =
        some { Data := [("k1", "v1")] } ∧
      Join ["/pods/t", "configmaps", "k1"] = "/pods/t/configmaps/k1" ∧
      (mapBackingResourceToPod exCreated 0).1.fs.readFile "/pods/t/configmaps/k1" = none := by
  decide

/-- C1 (amended): for a record of kind ConfigMap (resp. Secret) whose backing object is in the
cache, after `mapBackingResourceToPod` returns without error, every data entry `(k, v)` of the
backing object that shares its file with no other entry (it is enough that every entry that
names the same file has the value `v`) has the file `TargetPath/configmaps/SharedDataKey/k`
(resp. `TargetPath/secrets/SharedDataKey/k`) with content exactly `v`: one file per data entry
in the directory named after the key of the backing object inside the target subdirectory. The
condition is on the entry alone: other entries of the object may share a file among them. -/
theorem mapBackingResourceToPod_layout (w : World) (hpv : Ptr) (sub : String)
    (entries : List (String × List Nat))
    (hdata : backingData w hpv = some (sub, entries))
    (hok : (mapBackingResourceToPod w hpv).2 = none) :
    ∀ k v, (k, v) ∈ entries →
      (∀ e ∈ entries,
        resolve (Join [Join [Join [(w.heap hpv).TargetPath, sub],
          (w.heap hpv).SharedDataKey], e.1]) =
        resolve (Join [Join [Join [(w.heap hpv).TargetPath, sub],
          (w.heap hpv).SharedDataKey], k]) → e.2 = v) →
      (mapBackingResourceToPod w hpv).1.fs.readFile
        (Join [Join [Join [(w.heap hpv).TargetPath, sub], (w.heap hpv).SharedDataKey], k]) =
        some (Content.bytes v) := by
  intro k v hmem hsame
  unfold backingData at hdata
  by_cases hcm : (w.heap hpv).SharedDataKind = "ConfigMap"
  · simp only [hcm, if_true] at hdata
    cases hg : GetConfigMap w (w.heap hpv).SharedDataKey with
    | none => rw [hg] at hdata; simp at hdata
    | some cm =>
      rw [hg] at hdata
      simp only [Option.map_some', Option.some.injEq, Prod.mk.injEq] at hdata
      obtain ⟨hsub, hent⟩ := hdata
      subst hsub
      have hk : TrimSpace (w.heap hpv).SharedDataKind = "ConfigMap" := by
        rw [hcm]; exact trimSpace_configMap
      rw [mapBackingResourceToPod_configMap w hpv hk, hg] at hok ⊢
      simp only [Option.map_some'] at hok ⊢
      have hmat : (materializeFS w.fs (Join [(w.heap hpv).TargetPath, "configmaps"])
          (w.heap hpv).SharedDataKey
          (some { StringData := cm.Data, ByteData := cm.BinaryData })).2 = none := by
        cases hm : materializeFS w.fs (Join [(w.heap hpv).TargetPath, "configmaps"])
            (w.heap hpv).SharedDataKey
            (some { StringData := cm.Data, ByteData := cm.BinaryData }) with
        | mk fs2 e =>
          rw [hm] at hok
          cases e with
          | some err => simp at hok
          | none => rfl
      obtain ⟨_, hup, heq⟩ := materializeFS_some_ok _ _ _ _ hmat
      have hfile := commonUpsertRanger_file_entry _ _ _ _ hup k v
        (by rw [hent]; exact hmem) (by rw [hent]; exact hsame)
      rw [← heq] at hfile
      cases hm : materializeFS w.fs (Join [(w.heap hpv).TargetPath, "configmaps"])
          (w.heap hpv).SharedDataKey
          (some { StringData := cm.Data, ByteData := cm.BinaryData }) with
      | mk fs2 e =>
        rw [hm] at hmat hfile
        simp only at hmat
        subst hmat
        exact hfile
  · simp only [hcm, if_false] at hdata
    by_cases hsec : (w.heap hpv).SharedDataKind = "Secret"
    · simp only [hsec, if_true] at hdata
      cases hg : GetSecret w (w.heap hpv).SharedDataKey with
      | none => rw [hg] at hdata; simp at hdata
      | some s =>
        rw [hg] at hdata
        simp only [Option.map_some', Option.some.injEq, Prod.mk.injEq] at hdata
        obtain ⟨hsub, hent⟩ := hdata
        subst hsub
        have hk : TrimSpace (w.heap hpv).SharedDataKind = "Secret" := by
          rw [hsec]; exact trimSpace_secret
        rw [mapBackingResourceToPod_secret w hpv hk, hg] at hok ⊢
        simp only [Option.map_some'] at hok ⊢
        have hmat : (materializeFS w.fs (Join [(w.heap hpv).TargetPath, "secrets"])
            (w.heap hpv).SharedDataKey (some { ByteData := s.Data })).2 = none := by
          cases hm : materializeFS w.fs (Join [(w.heap hpv).TargetPath, "secrets"])
              (w.heap hpv).SharedDataKey (some { ByteData := s.Data }) with
          | mk fs2 e =>
            rw [hm] at hok
            cases e with
            | some err => simp at hok
            | none => rfl
        obtain ⟨_, hup, heq⟩ := materializeFS_some_ok _ _ _ _ hmat
        have hfile := commonUpsertRanger_file_entry _ _ _ _ hup k v
          (by rw [hent]; exact hmem) (by rw [hent]; exact hsame)
        rw [← heq] at hfile
        cases hm : materializeFS w.fs (Join [(w.heap hpv).TargetPath, "secrets"])
            (w.heap hpv).SharedDataKey (some { ByteData := s.Data }) with
        | mk fs2 e =>
          rw [hm] at hmat hfile
          simp only at hmat
          subst hmat
          exact hfile
    · simp [hsec] at hdata

/-- Witness of C1 (amended): a config map with the entries `a` and `b` in `Data` and an entry
`b` in `BinaryData`. The two entries `b` share a file, so the files of the entries are not
distinct; the entry `a` shares its file with no other entry and has the file
`/pods/t/configmaps/n:cm1/a` with the bytes of its value. -/
theorem mapBackingResourceToPod_layout_witness :
    backingData exSharedKey 0 =
        some ("configmaps", [("b", [9]), ("a", bytesOf "1"), ("b", bytesOf "2")]) ∧
      (mapBackingResourceToPod exSharedKey 0).2 = none ∧
      ¬ ([("b", [9]), ("a", bytesOf "1"), ("b", bytesOf "2")].map
        (fun e : String × List Nat => resolve (Join [Join [Join [(exSharedKey.heap 0).TargetPath,
          "configmaps"], (exSharedKey.heap 0).SharedDataKey], e.1]))).Nodup ∧
      Join [Join [Join [(exSharedKey.heap 0).TargetPath, "configmaps"],
        (exSharedKey.heap 0).SharedDataKey], "a"] = "/pods/t/configmaps/n:cm1/a" ∧
      (mapBackingResourceToPod exSharedKey 0).1.fs.readFile
        (Join [Join [Join [(exSharedKey.heap 0).TargetPath, "configmaps"],
          (exSharedKey.heap 0).SharedDataKey], "a"]) = some (Content.bytes (bytesOf "1")) :=
  ⟨by decide, by decide, by decide, by decide,
    mapBackingResourceToPod_layout exSharedKey 0 "configmaps"
      [("b", [9]), ("a", bytesOf "1"), ("b", bytesOf "2")]
      (by decide) (by decide) "a" (bytesOf "1") (by decide) (by decide)⟩

/-! ## C2: the files after a sequence of upserts -/

/-- C2, as stated, fails: for the published record of `vol1`, with `Allowed` set, two upsert
events for its key `n:cm1` are both written without error; the entry `b` of the first payload
is absent from the last payload, and its file `/pods/t/configmaps/n:cm1/b` is still there after
the last event, with the old content. -/
theorem upsert_leaves_stale_file :
    (exPublished.heap 0).Allowed = true ∧
      (exPublished.heap 0).SharedDataKey = "n:cm1" ∧
      "b" ∉ (payloadEntries { StringData := [("a", "3")] }).map Prod.fst ∧
      (upsertRun exPublished.fs "/pods/t/configmaps" "n:cm1"
        [{ StringData := [("a", "1"), ("b", "2")] }, { StringData := [("a", "3")] }]).2 = true ∧
      (configMapUpsertEvent
        (configMapUpsertEvent exPublished "n:cm1" { Data := [("a", "1"), ("b", "2")] })
        "n:cm1" { Data := [("a", "3")] }).fs =
        (upsertRun exPublished.fs "/pods/t/configmaps" "n:cm1"
          [{ StringData := [("a", "1"), ("b", "2")] }, { StringData := [("a", "3")] }]).1 ∧
      (configMapUpsertEvent
        (configMapUpsertEvent exPublished "n:cm1" { Data := [("a", "1"), ("b", "2")] })
        "n:cm1" { Data := [("a", "3")] }).fs.readFile "/pods/t/configmaps/n:cm1/b" =
        some (Content.bytes (bytesOf "2")) := by
  decide

/-- C2 (amended): for the target subdirectory `podPath` and the key `SharedDataKey` of a
volume record, after a sequence of upsert events for that key that are all written without
error,
* every entry `(k, v)` of the last payload that shares its file with no other entry of it (it
  is enough that every entry of the payload that names the same file has the value `v`) has the
  file `podPath/SharedDataKey/k` with content `v`;
* an entry of an earlier payload whose file no later payload names keeps its file, with the
  content of that earlier payload: an entry present in an earlier payload and absent from the
  latest one leaves its file behind;
* every entry of every payload has a file at its path;
* and these are all the files: every regular file present after the last event was there before
  the sequence, with the same content, or is the file `podPath/SharedDataKey/k` of an entry
  `(k, v)` of one of the payloads and holds `v`.
So the files under the target subdirectory are those of the key sets of all payloads of the
sequence together, not of the last payload alone. -/
theorem upsertRun_files (fs : FS) (podPath key : String) (earlier : List Payload)
    (last : Payload)
    (hok : (upsertRun fs podPath key (earlier ++ [last])).2 = true) :
    (∀ k v, (k, v) ∈ payloadEntries last →
      (∀ e ∈ payloadEntries last,
        resolve (Join [Join [podPath, key], e.1]) = resolve (Join [Join [podPath, key], k]) →
        e.2 = v) →
      (upsertRun fs podPath key (earlier ++ [last])).1.readFile
        (Join [Join [podPath, key], k]) = some (Content.bytes v)) ∧
    (∀ before p after, earlier = before ++ p :: after →
      ∀ k v, (k, v) ∈ payloadEntries p →
        (∀ e ∈ payloadEntries p,
          resolve (Join [Join [podPath, key], e.1]) = resolve (Join [Join [podPath, key], k]) →
          e.2 = v) →
        (∀ p' ∈ after ++ [last], ∀ e ∈ payloadEntries p',
          resolve (Join [Join [podPath, key], e.1]) ≠
            resolve (Join [Join [podPath, key], k])) →
        (upsertRun fs podPath key (earlier ++ [last])).1.readFile
          (Join [Join [podPath, key], k]) = some (Content.bytes v)) ∧
    (∀ p ∈ earlier ++ [last], ∀ k v, (k, v) ∈ payloadEntries p →
      ∃ c, (upsertRun fs podPath key (earlier ++ [last])).1.readFile
        (Join [Join [podPath, key], k]) = some c) ∧
    (∀ q c, (upsertRun fs podPath key (earlier ++ [last])).1.node q = some (Node.file c) →
      fs.node q = some (Node.file c) ∨
        ∃ p ∈ earlier ++ [last], ∃ k v, (k, v) ∈ payloadEntries p ∧
          q = resolve (Join [Join [podPath, key], k]) ∧ c = Content.bytes v) := by
  refine ⟨?_, ?_, ?_, ?_⟩
  · intro k v hmem hsame
    exact upsertRun_file_entry fs podPath key earlier last [] hok k v hmem hsame
      (fun p' hp' => by simp at hp')
  · intro before p after hsplit k v hmem hsame hlater
    subst hsplit
    have happ : (before ++ p :: after) ++ [last] = before ++ p :: (after ++ [last]) := by
      simp [List.append_assoc]
    rw [happ] at hok ⊢
    exact upsertRun_file_entry fs podPath key before p (after ++ [last]) hok k v hmem hsame
      hlater
  · exact upsertRun_entries_exist podPath key _ fs hok
  · intro q c h
    exact upsertRun_file_origin podPath key _ q c fs h

/-- Witness of C2 (amended): after the payloads with the entries `a`, `b` and then `a` alone,
the file of `a` holds the last value, the file of `b` is still there with the value of the
first payload, and the file of `b` is accounted for by an entry of a payload. -/
theorem upsertRun_files_witness :
    (upsertRun exPublished.fs "/pods/t/configmaps" "n:cm1"
        ([{ StringData := [("a", "1"), ("b", "2")] }] ++ [{ StringData := [("a", "3")] }])).2 =
        true ∧
      (upsertRun exPublished.fs "/pods/t/configmaps" "n:cm1"
        ([{ StringData := [("a", "1"), ("b", "2")] }] ++
          [{ StringData := [("a", "3")] }])).1.readFile
        (Join [Join ["/pods/t/configmaps", "n:cm1"], "a"]) = some (Content.bytes (bytesOf "3")) ∧
      (upsertRun exPublished.fs "/pods/t/configmaps" "n:cm1"
        ([{ StringData := [("a", "1"), ("b", "2")] }] ++
          [{ StringData := [("a", "3")] }])).1.readFile
        (Join [Join ["/pods/t/configmaps", "n:cm1"], "b"]) = some (Content.bytes (bytesOf "2")) ∧
      (exPublished.fs.node ["pods", "t", "configmaps", "n:cm1", "b"] =
          some (Node.file (Content.bytes (bytesOf "2"))) ∨
        ∃ p ∈ [({ StringData := [("a", "1"), ("b", "2")] } : Payload)] ++
            [{ StringData := [("a", "3")] }],
          ∃ k v, (k, v) ∈ payloadEntries p ∧
            ["pods", "t", "configmaps", "n:cm1", "b"] =
              resolve (Join [Join ["/pods/t/configmaps", "n:cm1"], k]) ∧
            Content.bytes (bytesOf "2") = Content.bytes v) :=
  ⟨by decide,
    (upsertRun_files exPublished.fs "/pods/t/configmaps" "n:cm1"
      [{ StringData := [("a", "1"), ("b", "2")] }] { StringData := [("a", "3")] }
      (by decide)).1 "a" (bytesOf "3") (by decide) (by decide),
    (upsertRun_files exPublished.fs "/pods/t/configmaps" "n:cm1"
      [{ StringData := [("a", "1"), ("b", "2")] }] { StringData := [("a", "3")] }
      (by decide)).2.1 [] { StringData := [("a", "1"), ("b", "2")] } [] rfl
      "b" (bytesOf "2") (by decide) (by decide) (by decide),
    (upsertRun_files exPublished.fs "/pods/t/configmaps" "n:cm1"
      [{ StringData := [("a", "1"), ("b", "2")] }] { StringData := [("a", "3")] }
      (by decide)).2.2.2 ["pods", "t", "configmaps", "n:cm1", "b"]
      (Content.bytes (bytesOf "2")) (by decide)⟩

/-! ## C3: a record that is not allowed has no files -/

/-- C3 fails on the code. After a successful publish of `vol1`, the deletion of the share clears
`Allowed` and removes `/pods/t/configmaps`, but leaves the upsert callback of the volume
registered: the next upsert of the backing config map writes `/pods/t/configmaps/n:cm1/k1`
again while `Allowed` is false. Likewise, after a loss of permission, a share update that
rebinds the share to a secret while the access review still denies writes
`/pods/t/secrets/n:s1/pw` and registers the secret callbacks while `Allowed` stays false. -/
theorem not_allowed_record_gets_files :
    ((exShareDeleted.heap 0).Allowed = false ∧
      exShareDeleted.fs.pathExists "/pods/t/configmaps" = false ∧
      mapGet exShareDeleted.configMapUpsertCallbacks "vol1" =
        some { podPath := "/pods/t/configmaps", hpv := 0 } ∧
      mapGet exShareDeletedUpsert.hostPathVolumes "vol1" = some 0 ∧
      (exShareDeletedUpsert.heap 0).Allowed = false ∧
      (exShareDeletedUpsert.heap 0).TargetPath = "/pods/t" ∧
      exShareDeletedUpsert.fs.readFile "/pods/t/configmaps/n:cm1/k1" =
        some (Content.bytes (bytesOf "v2"))) ∧
    ((exRevoked.heap 0).Allowed = false ∧
      exRevoked.fs.pathExists "/pods/t/configmaps" = false ∧
      exRevoked.fs.pathExists "/pods/t/secrets" = false ∧
      mapGet exReboundDenied.hostPathVolumes "vol1" = some 0 ∧
      (exReboundDenied.heap 0).Allowed = false ∧
      (exReboundDenied.heap 0).TargetPath = "/pods/t" ∧
      exReboundDenied.fs.readFile "/pods/t/secrets/n:s1/pw" = some (Content.bytes [1, 2]) ∧
      mapGet exReboundDenied.secretUpsertCallbacks "vol1" =
        some { podPath := "/pods/t/secrets", hpv := 0 }) := by
  decide

/-! ## C4: permission lost on a share update -/

/-- C4 (evaluation at the failing input): the volume `vol1` is published for a share whose
backing kind is written ` ConfigMap`; `mapBackingResourceToPod` trims the kind, so the entry `k1`
is materialized and the callbacks are registered. It is the only record of `share1` and is
allowed. When the access review denies, `shareUpdateRanger` returns `true`, clears `Allowed` and
unregisters the config map callbacks, but its switch compares the kind untrimmed, the old
target path stays empty, and nothing is removed: the target subdirectory `/pods/t/configmaps` and
the file of `k1` are still there. For the kind `ConfigMap` the same call removes the
subdirectory. -/
theorem shareUpdateRanger_untrimmed_kind_keeps_files :
    ((exDenyingBlank.heap 0).SharedDataKind = " ConfigMap" ∧
      exDenyingBlank.hostPathVolumes.filter
        (fun e => decide ((exDenyingBlank.heap e.2).SharedDataId = "share1")) = [("vol1", 0)] ∧
      (exDenyingBlank.heap 0).Allowed = true ∧
      exDenyingBlank.fs.readFile "/pods/t/configmaps/n:cm1/k1" =
        some (Content.bytes (bytesOf "v1")) ∧
      mapGet exDenyingBlank.configMapUpsertCallbacks "vol1" =
        some { podPath := "/pods/t/configmaps", hpv := 0 }) ∧
    ((shareUpdateRanger exDenyingBlank "share1" exShareBlank).2 = true ∧
      ((shareUpdateRanger exDenyingBlank "share1" exShareBlank).1.heap 0).Allowed = false ∧
      mapGet (shareUpdateRanger exDenyingBlank "share1" exShareBlank).1.configMapUpsertCallbacks
        "vol1" = none ∧
      (shareUpdateRanger exDenyingBlank "share1" exShareBlank).1.fs.pathExists
        "/pods/t/configmaps" = true ∧
      (shareUpdateRanger exDenyingBlank "share1" exShareBlank).1.fs.readFile
        "/pods/t/configmaps/n:cm1/k1" = some (Content.bytes (bytesOf "v1"))) ∧
    ((exDenying.heap 0).SharedDataKind = "ConfigMap" ∧
      (shareUpdateRanger exDenying "share1" exShare).1.fs.pathExists "/pods/t/configmaps" =
        false) := by
  decide

/-! ### Permission lost for the kinds the share rangers compare -/

/-- Permission lost, for a record whose kind is exactly `ConfigMap` or `Secret`: in a registry
in which exactly one record `p` matches the share id and has `Allowed`
set, when the access review denies (verdict false, or an error), `shareUpdateRanger` returns
true, clears `Allowed` of that record and leaves its other fields, among them kind, key and id,
as they were whatever the backing resource of the share is, removes the target subdirectory of
its kind (the volume map file lying outside the target path), and leaves no ConfigMap or Secret
upsert or delete callback under its volume id; when all backing callbacks were those of this
volume, a later upsert of a config map or a secret writes nothing. -/
theorem shareUpdateRanger_permission_lost (w : World) (shareId : String) (share : Share)
    (k : String) (p : Ptr)
    (hmatch : w.hostPathVolumes.filter
      (fun e => decide ((w.heap e.2).SharedDataId = shareId)) = [(k, p)])
    (hallowed : (w.heap p).Allowed = true)
    (hdeny : (w.ExecuteSAR shareId (w.heap p).PodNamespace (w.heap p).PodName
        (w.heap p).PodSA).1 = false ∨
      (w.ExecuteSAR shareId (w.heap p).PodNamespace (w.heap p).PodName
        (w.heap p).PodSA).2 = true)
    (hmap : (resolve (w.heap p).TargetPath).isPrefixOf (resolve w.volMapOnDiskPath) = false) :
    (shareUpdateRanger w shareId share).2 = true ∧
    (shareUpdateRanger w shareId share).1.heap p = { w.heap p with Allowed := false } ∧
    ((w.heap p).SharedDataKind = "ConfigMap" →
      (shareUpdateRanger w shareId share).1.fs.pathExists
        (Join [(w.heap p).TargetPath, "configmaps"]) = false) ∧
    ((w.heap p).SharedDataKind = "Secret" →
      (shareUpdateRanger w shareId share).1.fs.pathExists
        (Join [(w.heap p).TargetPath, "secrets"]) = false) ∧
    mapGet (shareUpdateRanger w shareId share).1.configMapUpsertCallbacks (w.heap p).VolID =
      none ∧
    mapGet (shareUpdateRanger w shareId share).1.configMapDeleteCallbacks (w.heap p).VolID =
      none ∧
    mapGet (shareUpdateRanger w shareId share).1.secretUpsertCallbacks (w.heap p).VolID = none ∧
    mapGet (shareUpdateRanger w shareId share).1.secretDeleteCallbacks (w.heap p).VolID = none ∧
    ((∀ e ∈ w.configMapUpsertCallbacks, e.1 = (w.heap p).VolID) → ∀ key cm,
      (configMapUpsertEvent (shareUpdateRanger w shareId share).1 key cm).fs =
        (shareUpdateRanger w shareId share).1.fs) ∧
    ((∀ e ∈ w.secretUpsertCallbacks, e.1 = (w.heap p).VolID) → ∀ key s,
      (secretUpsertEvent (shareUpdateRanger w shareId share).1 key s).fs =
        (shareUpdateRanger w shareId share).1.fs) := by
  have hfind := find?_of_filter_singleton _ _ _ hmatch
  rw [shareUpdateRanger_lost_eq w shareId share k p hfind hallowed hdeny]
  have hsubdir : ∀ sub : String, plainSegment sub →
      kindTargetPath (w.heap p) = Join [(w.heap p).TargetPath, sub] →
      (storeVolMapToDisk (unregisterBackingCallbacks
        { w with
          heap := Function.update w.heap p { w.heap p with Allowed := false }
          fs := (RemoveAll w.fs (kindTargetPath (w.heap p))).1 }
        (w.heap p).VolID)).1.fs.pathExists (Join [(w.heap p).TargetPath, sub]) = false := by
    intro sub hsub hkt
    apply pathExists_eq_false_of_node
    have hres := resolve_Join_pair (w.heap p).TargetPath sub hsub
    rw [storeVolMapToDisk_node]
    · show (RemoveAll w.fs (kindTargetPath (w.heap p))).1.node _ = none
      rw [hkt, RemoveAll_subdir_node w.fs _ sub hsub, hres, isPrefixOf_refl]
      rfl
    · intro e
      have hpre := isPrefixOf_append_self (resolve (w.heap p).TargetPath) [sub]
      rw [← hres, e] at hpre
      have : (unregisterBackingCallbacks
        { w with
          heap := Function.update w.heap p { w.heap p with Allowed := false }
          fs := (RemoveAll w.fs (kindTargetPath (w.heap p))).1 }
        (w.heap p).VolID).volMapOnDiskPath = w.volMapOnDiskPath := rfl
      rw [this, hmap] at hpre
      exact absurd hpre (by simp)
  refine ⟨rfl, ?_, ?_, ?_, ?_, ?_, ?_, ?_, ?_, ?_⟩
  · show Function.update w.heap p { w.heap p with Allowed := false } p = _
    simp
  · intro hk
    exact hsubdir "configmaps" plainSegment_configmaps (by simp [kindTargetPath, hk])
  · intro hk
    exact hsubdir "secrets" plainSegment_secrets (by
      have : ¬ (w.heap p).SharedDataKind = "ConfigMap" := by rw [hk]; decide
      simp [kindTargetPath, hk])
  · show mapGet (mapDelete w.configMapUpsertCallbacks (w.heap p).VolID) _ = none
    simp [mapGet_mapDelete]
  · show mapGet (mapDelete w.configMapDeleteCallbacks (w.heap p).VolID) _ = none
    simp [mapGet_mapDelete]
  · show mapGet (mapDelete w.secretUpsertCallbacks (w.heap p).VolID) _ = none
    simp [mapGet_mapDelete]
  · show mapGet (mapDelete w.secretDeleteCallbacks (w.heap p).VolID) _ = none
    simp [mapGet_mapDelete]
  · intro hall key cm
    apply configMapUpsertEvent_no_callbacks
    exact mapDelete_eq_nil w.configMapUpsertCallbacks _ hall
  · intro hall key s
    apply secretUpsertEvent_no_callbacks
    exact mapDelete_eq_nil w.secretUpsertCallbacks _ hall

/-- An instance of the permission lost: on the node where the access review denies, the share
update for `share1`,
even with the backing resource changed to the secret, clears `Allowed` of the record of `vol1`
and leaves its other fields. -/
theorem shareUpdateRanger_permission_lost_witness :
    exDenying.hostPathVolumes.filter
        (fun e => decide ((exDenying.heap e.2).SharedDataId = "share1")) = [("vol1", 0)] ∧
      (exDenying.heap 0).Allowed = true ∧
      (exDenying.ExecuteSAR "share1" (exDenying.heap 0).PodNamespace (exDenying.heap 0).PodName
        (exDenying.heap 0).PodSA).1 = false ∧
      (resolve (exDenying.heap 0).TargetPath).isPrefixOf (resolve exDenying.volMapOnDiskPath) =
        false ∧
      (shareUpdateRanger exDenying "share1" exShareSecret).1.heap 0 =
        { exDenying.heap 0 with Allowed := false } ∧
      (shareUpdateRanger exDenying "share1" exShareSecret).1.fs.pathExists
        (Join [(exDenying.heap 0).TargetPath, "configmaps"]) = false :=
  ⟨by decide, by decide, by decide, by decide,
    (shareUpdateRanger_permission_lost exDenying "share1" exShareSecret "vol1" 0 (by decide)
      (by decide) (Or.inl (by decide)) (by decide)).2.1,
    (shareUpdateRanger_permission_lost exDenying "share1" exShareSecret "vol1" 0 (by decide)
      (by decide) (Or.inl (by decide)) (by decide)).2.2.1 (by decide)⟩

/-! ## C5: a share delete keeps the record -/

/-- C5 (evaluation at the failing input): the volume `vol1` is published for a share whose
backing kind is written ` ConfigMap`, which `mapBackingResourceToPod` trims, so the entry `k1` is
materialized. `shareDeleteRanger` for `share1` returns `true`, keeps the volume id in the
registry and clears `Allowed` of the record, but its switch compares the kind untrimmed, the
target path stays empty, and neither the removal nor the store of the volume map is done: the
target subdirectory `/pods/t/configmaps` and the file of `k1` are still there and no volume map
file is written. For the kind `ConfigMap` the same call removes the subdirectory and writes the
volume map. -/
theorem shareDeleteRanger_untrimmed_kind_keeps_files :
    ((exPublishedBlank.heap 0).SharedDataKind = " ConfigMap" ∧
      (exPublishedBlank.heap 0).SharedDataId = "share1" ∧
      (exPublishedBlank.heap 0).Allowed = true ∧
      exPublishedBlank.fs.readFile "/pods/t/configmaps/n:cm1/k1" =
        some (Content.bytes (bytesOf "v1"))) ∧
    ((shareDeleteRanger exPublishedBlank "share1").2 = true ∧
      (shareDeleteRanger exPublishedBlank "share1").1.hostPathVolumes = [("vol1", 0)] ∧
      ((shareDeleteRanger exPublishedBlank "share1").1.heap 0).Allowed = false ∧
      (shareDeleteRanger exPublishedBlank "share1").1.fs.pathExists "/pods/t/configmaps" =
        true ∧
      (shareDeleteRanger exPublishedBlank "share1").1.fs.readFile
        "/pods/t/configmaps/n:cm1/k1" = some (Content.bytes (bytesOf "v1")) ∧
      (shareDeleteRanger exPublishedBlank "share1").1.fs.pathExists
        "/csi-volumes-map/volumemap.gob" = false) ∧
    ((exPublished.heap 0).SharedDataKind = "ConfigMap" ∧
      (shareDeleteRanger exPublished "share1").1.fs.pathExists "/pods/t/configmaps" = false ∧
      (shareDeleteRanger exPublished "share1").1.fs.pathExists
        "/csi-volumes-map/volumemap.gob" = true) := by
  decide

/-! ### The share delete for the kinds the share rangers compare -/

/-- The share delete, with the removal for a record whose kind is exactly `ConfigMap` or
`Secret`: for every registry and share id `shareDeleteRanger` returns true and leaves the map of
volume ids as it is. Without a record of the share id nothing changes. Otherwise, for the first
record `p` of the share id in the order of the loop, `Allowed` is cleared, every other field of
that record and every other record stay as they were, and, for a record with a volume id and
the volume map file outside its target path, the target subdirectory of its kind is removed. -/
theorem shareDeleteRanger_keeps_record (w : World) (shareId : String) :
    (shareDeleteRanger w shareId).2 = true ∧
    (shareDeleteRanger w shareId).1.hostPathVolumes = w.hostPathVolumes ∧
    (w.hostPathVolumes.find? (fun e => decide ((w.heap e.2).SharedDataId = shareId)) = none →
      (shareDeleteRanger w shareId).1 = w) ∧
    (∀ k p,
      w.hostPathVolumes.find? (fun e => decide ((w.heap e.2).SharedDataId = shareId)) =
        some (k, p) →
      (shareDeleteRanger w shareId).1.heap p = { w.heap p with Allowed := false } ∧
      (∀ q, q ≠ p → (shareDeleteRanger w shareId).1.heap q = w.heap q) ∧
      ((w.heap p).VolID ≠ "" →
        (resolve (w.heap p).TargetPath).isPrefixOf (resolve w.volMapOnDiskPath) = false →
        ((w.heap p).SharedDataKind = "ConfigMap" →
          (shareDeleteRanger w shareId).1.fs.pathExists
            (Join [(w.heap p).TargetPath, "configmaps"]) = false) ∧
        ((w.heap p).SharedDataKind = "Secret" →
          (shareDeleteRanger w shareId).1.fs.pathExists
            (Join [(w.heap p).TargetPath, "secrets"]) = false))) := by
  obtain ⟨hret, hvols, hheap⟩ := shareDeleteRanger_fields w shareId
  refine ⟨hret, hvols, ?_, ?_⟩
  · intro hnone
    have hloop := shareDeleteLoop_find_none w.heap shareId w.hostPathVolumes hnone
    unfold shareDeleteRanger
    simp [hloop]
  · intro k p hfind
    have hloop := shareDeleteLoop_find_some w.heap shareId w.hostPathVolumes k p hfind
    refine ⟨?_, ?_, ?_⟩
    · rw [hheap, hloop]; simp
    · intro q hq
      rw [hheap, hloop]
      simp [Function.update_noteq hq]
    · intro hvol hmap
      have hsubdir : ∀ sub : String, plainSegment sub →
          kindTargetPath (w.heap p) = Join [(w.heap p).TargetPath, sub] →
          (shareDeleteRanger w shareId).1.fs.pathExists
            (Join [(w.heap p).TargetPath, sub]) = false := by
        intro sub hsub hkt
        have hne : Join [(w.heap p).TargetPath, sub] ≠ "" :=
          Join_cons_plain_ne_empty _ [sub] (by simpa using hsub) (by simp)
        rw [shareDeleteRanger_remove_eq w shareId (by rw [hloop]; exact hvol)
          (by rw [hloop]; simp only; rw [hkt]; exact hne)]
        apply pathExists_eq_false_of_node
        have hres := resolve_Join_pair (w.heap p).TargetPath sub hsub
        rw [storeVolMapToDisk_node]
        · show (RemoveAll w.fs
            (shareDeleteLoop w.heap shareId w.hostPathVolumes).targetPath).1.node _ = none
          rw [hloop]
          simp only
          rw [hkt, RemoveAll_subdir_node w.fs _ sub hsub, hres, isPrefixOf_refl]
          rfl
        · intro e
          have hpre := isPrefixOf_append_self (resolve (w.heap p).TargetPath) [sub]
          rw [← hres, e] at hpre
          have hv : ({ w with
            heap := (shareDeleteLoop w.heap shareId w.hostPathVolumes).heap
            fs := (RemoveAll w.fs
              (shareDeleteLoop w.heap shareId w.hostPathVolumes).targetPath).1 } :
              World).volMapOnDiskPath = w.volMapOnDiskPath := rfl
          rw [hv, hmap] at hpre
          exact absurd hpre (by simp)
      refine ⟨?_, ?_⟩
      · intro hk
        exact hsubdir "configmaps" plainSegment_configmaps (by simp [kindTargetPath, hk])
      · intro hk
        exact hsubdir "secrets" plainSegment_secrets (by
          have : ¬ (w.heap p).SharedDataKind = "ConfigMap" := by rw [hk]; decide
          simp [kindTargetPath, hk])

/-- An instance of the share delete: for `share1` on the published volume `vol1` it clears
`Allowed` of its record and removes `/pods/t/configmaps`. -/
theorem shareDeleteRanger_keeps_record_witness :
    exPublished.hostPathVolumes.find?
        (fun e => decide ((exPublished.heap e.2).SharedDataId = "share1")) = some ("vol1", 0) ∧
      (shareDeleteRanger exPublished "share1").1.heap 0 =
        { exPublished.heap 0 with Allowed := false } ∧
      (shareDeleteRanger exPublished "share1").1.fs.pathExists
        (Join [(exPublished.heap 0).TargetPath, "configmaps"]) = false :=
  ⟨by decide,
    ((shareDeleteRanger_keeps_record exPublished "share1").2.2.2 "vol1" 0 (by decide)).1,
    (((shareDeleteRanger_keeps_record exPublished "share1").2.2.2 "vol1" 0 (by decide)).2.2
      (by decide) (by decide)).1 (by decide)⟩

/-! ## C6: rebind on a share update -/

/-- C6 (counterexample): the record of `vol1` matches `share1`, is allowed, and the access
review allows. When the share is rebound to a backing resource of kind `Pod`, the kind of the
record differs from the share, `shareUpdateRanger` sets kind, key and id of the record and
removes the old target subdirectory, but `mapBackingResourceToPod` rejects the kind and the error
is dropped: no upsert or delete callback is registered under `vol1`. When the share is rebound to
the secret `n:s1` and a regular file `secrets` is in the way, the re-materialization fails: the
data of the secret is not written and no secret callback is registered under `vol1`. -/
theorem shareUpdateRanger_rebind_without_callbacks :
    ((exWithSecret.heap 0).SharedDataId = "share1" ∧ (exWithSecret.heap 0).Allowed = true ∧
      exWithSecret.ExecuteSAR "share1" "n" "p" "s" = (true, false) ∧
      exSharePod.Spec.BackingResource.Kind ≠ (exWithSecret.heap 0).SharedDataKind) ∧
    (((shareUpdateRanger exWithSecret "share1" exSharePod).1.heap 0).SharedDataKind = "Pod" ∧
      ((shareUpdateRanger exWithSecret "share1" exSharePod).1.heap 0).Allowed = true ∧
      (shareUpdateRanger exWithSecret "share1" exSharePod).1.fs.pathExists
        "/pods/t/configmaps" = false ∧
      mapGet (shareUpdateRanger exWithSecret "share1" exSharePod).1.configMapUpsertCallbacks
        "vol1" = none ∧
      mapGet (shareUpdateRanger exWithSecret "share1" exSharePod).1.configMapDeleteCallbacks
        "vol1" = none ∧
      mapGet (shareUpdateRanger exWithSecret "share1" exSharePod).1.secretUpsertCallbacks
        "vol1" = none ∧
      mapGet (shareUpdateRanger exWithSecret "share1" exSharePod).1.secretDeleteCallbacks
        "vol1" = none) ∧
    (((shareUpdateRanger exSecretsInTheWay "share1" exShareSecret).1.heap 0).SharedDataKind =
        "Secret" ∧
      (shareUpdateRanger exSecretsInTheWay "share1" exShareSecret).1.fs.readFile
        "/pods/t/secrets/n:s1/pw" = none ∧
      mapGet (shareUpdateRanger exSecretsInTheWay "share1" exShareSecret).1.secretUpsertCallbacks
        "vol1" = none ∧
      mapGet (shareUpdateRanger exSecretsInTheWay "share1" exShareSecret).1.secretDeleteCallbacks
        "vol1" = none) := by
  decide

/-- C6 (amended): for the record `p` with the share id that the loop reaches (the only one when
a single record has the share id), of kind ConfigMap or Secret, that is allowed and stays
allowed by the access review, and whose kind or key differs from the backing resource of the
share: when the new kind is ConfigMap or Secret, the re-materialization reports no error and the
volume map file lies outside the target path, `shareUpdateRanger` returns true and afterwards
* kind, key (`BuildKey` of namespace and name of the share) and id of the record are those of
  the share, its other fields are unchanged;
* every regular file below the old target subdirectory is a file of the new backing object:
  nothing of the old one is left; when the kind changed and the key and the data keys are file
  names, the old target subdirectory does not exist;
* every data entry `(k, v)` of the new backing object that shares its file with no other
  entry (it is enough that every entry that names the same file has the value `v`) has the file
  `TargetPath/<subdirectory of the new kind>/<new key>/k` with content `v`;
* the upsert and delete callbacks of the new kind are registered under the volume id with the
  new target subdirectory, and those of the other kind are not registered. -/
theorem shareUpdateRanger_rebind (w : World) (shareId : String) (share : Share) (k : String)
    (p : Ptr)
    (hfind : w.hostPathVolumes.find? (fun e => decide ((w.heap e.2).SharedDataId = shareId)) =
      some (k, p))
    (hallowed : (w.heap p).Allowed = true)
    (hsar : w.ExecuteSAR shareId (w.heap p).PodNamespace (w.heap p).PodName
      (w.heap p).PodSA = (true, false))
    (hchange : share.Spec.BackingResource.Kind ≠ (w.heap p).SharedDataKind ∨
      w.BuildKey share.Spec.BackingResource.Namespace share.Spec.BackingResource.Name ≠
        (w.heap p).SharedDataKey)
    (hold : (w.heap p).SharedDataKind = "ConfigMap" ∨ (w.heap p).SharedDataKind = "Secret")
    (hnew : share.Spec.BackingResource.Kind = "ConfigMap" ∨
      share.Spec.BackingResource.Kind = "Secret")
    (hok : (mapBackingResourceToPod
      (rebindRecord w (kindTargetPath (w.heap p)) (w.heap p).VolID share p) p).2 = none)
    (hmap : (resolve (w.heap p).TargetPath).isPrefixOf (resolve w.volMapOnDiskPath) = false) :
    (shareUpdateRanger w shareId share).2 = true ∧
    (shareUpdateRanger w shareId share).1.heap p =
      { w.heap p with
        SharedDataKind := share.Spec.BackingResource.Kind
        SharedDataKey := w.BuildKey share.Spec.BackingResource.Namespace
          share.Spec.BackingResource.Name
        SharedDataId := share.Name } ∧
    (∀ q c, (resolve (kindTargetPath (w.heap p))).isPrefixOf q = true →
      (shareUpdateRanger w shareId share).1.fs.node q = some (Node.file c) →
      ∃ sub entries k v,
        backingData (shareUpdateRanger w shareId share).1 p = some (sub, entries) ∧
        (k, v) ∈ entries ∧
        q = resolve (Join [Join [Join [(w.heap p).TargetPath, sub],
          w.BuildKey share.Spec.BackingResource.Namespace share.Spec.BackingResource.Name],
          k]) ∧
        c = Content.bytes v) ∧
    (share.Spec.BackingResource.Kind ≠ (w.heap p).SharedDataKind →
      plainSegment (w.BuildKey share.Spec.BackingResource.Namespace
        share.Spec.BackingResource.Name) →
      (∀ sub entries,
        backingData (shareUpdateRanger w shareId share).1 p = some (sub, entries) →
        ∀ e ∈ entries, plainSegment e.1) →
      (shareUpdateRanger w shareId share).1.fs.pathExists (kindTargetPath (w.heap p)) =
        false) ∧
    (∀ sub entries,
      backingData (shareUpdateRanger w shareId share).1 p = some (sub, entries) →
      ∀ k v, (k, v) ∈ entries →
        (∀ e ∈ entries,
          resolve (Join [Join [Join [(w.heap p).TargetPath, sub],
            w.BuildKey share.Spec.BackingResource.Namespace share.Spec.BackingResource.Name],
            e.1]) =
          resolve (Join [Join [Join [(w.heap p).TargetPath, sub],
            w.BuildKey share.Spec.BackingResource.Namespace share.Spec.BackingResource.Name],
            k]) → e.2 = v) →
        resolve (Join [Join [Join [(w.heap p).TargetPath, sub],
          w.BuildKey share.Spec.BackingResource.Namespace share.Spec.BackingResource.Name],
          k]) ≠ resolve w.volMapOnDiskPath →
        (shareUpdateRanger w shareId share).1.fs.readFile
          (Join [Join [Join [(w.heap p).TargetPath, sub],
            w.BuildKey share.Spec.BackingResource.Namespace share.Spec.BackingResource.Name],
            k]) = some (Content.bytes v)) ∧
    (share.Spec.BackingResource.Kind = "ConfigMap" →
      mapGet (shareUpdateRanger w shareId share).1.configMapUpsertCallbacks (w.heap p).VolID =
        some { podPath := Join [(w.heap p).TargetPath, "configmaps"], hpv := p } ∧
      mapGet (shareUpdateRanger w shareId share).1.configMapDeleteCallbacks (w.heap p).VolID =
        some { podPath := Join [(w.heap p).TargetPath, "configmaps"], hpv := p } ∧
      mapGet (shareUpdateRanger w shareId share).1.secretUpsertCallbacks (w.heap p).VolID =
        none ∧
      mapGet (shareUpdateRanger w shareId share).1.secretDeleteCallbacks (w.heap p).VolID =
        none) ∧
    (share.Spec.BackingResource.Kind = "Secret" →
      mapGet (shareUpdateRanger w shareId share).1.secretUpsertCallbacks (w.heap p).VolID =
        some { podPath := Join [(w.heap p).TargetPath, "secrets"], hpv := p } ∧
      mapGet (shareUpdateRanger w shareId share).1.secretDeleteCallbacks (w.heap p).VolID =
        some { podPath := Join [(w.heap p).TargetPath, "secrets"], hpv := p } ∧
      mapGet (shareUpdateRanger w shareId share).1.configMapUpsertCallbacks (w.heap p).VolID =
        none ∧
      mapGet (shareUpdateRanger w shareId share).1.configMapDeleteCallbacks (w.heap p).VolID =
        none) := by
  rw [shareUpdateRanger_rebind_eq w shareId share k p hfind hallowed hsar hchange]
  -- the state before the re-materialization
  generalize hM : rebindRecord w (kindTargetPath (w.heap p)) (w.heap p).VolID share p = M
    at hok ⊢
  have hMheap : M.heap p =
      { w.heap p with
        SharedDataKind := share.Spec.BackingResource.Kind
        SharedDataKey := w.BuildKey share.Spec.BackingResource.Namespace
          share.Spec.BackingResource.Name
        SharedDataId := share.Name } := by
    rw [← hM]
    exact rebindRecord_heap_self w _ _ share p
  have hMfs : M.fs = (RemoveAll w.fs (kindTargetPath (w.heap p))).1 := by rw [← hM]; rfl
  have hMpath : M.volMapOnDiskPath = w.volMapOnDiskPath := by rw [← hM]; rfl
  have hMcu : M.configMapUpsertCallbacks =
      mapDelete w.configMapUpsertCallbacks (w.heap p).VolID := by rw [← hM]; rfl
  have hMcd : M.configMapDeleteCallbacks =
      mapDelete w.configMapDeleteCallbacks (w.heap p).VolID := by rw [← hM]; rfl
  have hMsu : M.secretUpsertCallbacks =
      mapDelete w.secretUpsertCallbacks (w.heap p).VolID := by rw [← hM]; rfl
  have hMsd : M.secretDeleteCallbacks =
      mapDelete w.secretDeleteCallbacks (w.heap p).VolID := by rw [← hM]; rfl
  have hMT : (M.heap p).TargetPath = (w.heap p).TargetPath := by rw [hMheap]
  have hMkey : (M.heap p).SharedDataKey =
      w.BuildKey share.Spec.BackingResource.Namespace share.Spec.BackingResource.Name := by
    rw [hMheap]
  have hMkind : (M.heap p).SharedDataKind = share.Spec.BackingResource.Kind := by rw [hMheap]
  have hMvol : (M.heap p).VolID = (w.heap p).VolID := by rw [hMheap]
  -- the state after it
  obtain ⟨hBheap, _, hBcm, hBsec, hBpath, _, _⟩ := mapBackingResourceToPod_unchanged M p
  obtain ⟨sub0, pl0, hplan, hmatok, hBfs⟩ := mapBackingResourceToPod_fs M p hok
  rw [hMT, hMkey, hMfs] at hmatok hBfs
  generalize hB : (mapBackingResourceToPod M p).1 = B at hBheap hBcm hBsec hBpath hBfs ⊢
  have hkindM : (M.heap p).SharedDataKind = "ConfigMap" ∨ (M.heap p).SharedDataKind = "Secret" := by
    rw [hMkind]; exact hnew
  have hbd : ∀ sub entries, backingData (storeVolMapToDisk B).1 p = some (sub, entries) →
      sub = sub0 ∧ ∃ pl, pl0 = some pl ∧ entries = payloadEntries pl := by
    intro sub entries h
    have h1 : backingData (storeVolMapToDisk B).1 p = backingData M p :=
      backingData_congr _ _ p (by show B.heap p = _; rw [hBheap]) (by show B.configMaps = _; rw [hBcm])
        (by show B.secrets = _; rw [hBsec])
    rw [h1] at h
    obtain ⟨pl, hpl, hes⟩ := kindPlan_of_backingData M p sub entries h
    rw [hplan] at hpl
    simp only [Option.some.injEq, Prod.mk.injEq] at hpl
    exact ⟨hpl.1.symm, pl, hpl.2, hes⟩
  -- the old target subdirectory
  have hsubOld : ∃ oldsub, plainSegment oldsub ∧
      kindTargetPath (w.heap p) = Join [(w.heap p).TargetPath, oldsub] ∧
      ((w.heap p).SharedDataKind = "ConfigMap" → oldsub = "configmaps") ∧
      ((w.heap p).SharedDataKind = "Secret" → oldsub = "secrets") := by
    rcases hold with h | h
    · exact ⟨"configmaps", plainSegment_configmaps, by simp [kindTargetPath, h],
        fun _ => rfl, fun h2 => by rw [h] at h2; exact absurd h2 (by decide)⟩
    · have hne : ¬ ("Secret" : String) = "ConfigMap" := by decide
      exact ⟨"secrets", plainSegment_secrets, by simp [kindTargetPath, h, hne],
        fun h2 => by rw [h] at h2; exact absurd h2 (by decide), fun _ => rfl⟩
  obtain ⟨oldsub, holdplain, hkt, hcmOld, hsecOld⟩ := hsubOld
  have hresOld : resolve (kindTargetPath (w.heap p)) =
      resolve (w.heap p).TargetPath ++ [oldsub] := by
    rw [hkt]; exact resolve_Join_pair _ _ holdplain
  have hnotmap : ∀ q, (resolve (w.heap p).TargetPath).isPrefixOf q = true →
      q ≠ resolve B.volMapOnDiskPath := by
    intro q hq e
    rw [hBpath, hMpath] at e
    rw [e, hmap] at hq
    exact absurd hq (by simp)
  have hunder : ∀ q, (resolve (kindTargetPath (w.heap p))).isPrefixOf q = true →
      (resolve (w.heap p).TargetPath).isPrefixOf q = true := by
    intro q hq
    rw [hresOld] at hq
    exact isPrefixOf_trans_append _ _ _ hq
  have hremoved : ∀ q, (resolve (kindTargetPath (w.heap p))).isPrefixOf q = true →
      (RemoveAll w.fs (kindTargetPath (w.heap p))).1.node q = none := by
    intro q hq
    rw [hkt, RemoveAll_subdir_node w.fs _ oldsub holdplain, ← hresOld, hq]
    rfl
  have hsub0 : (share.Spec.BackingResource.Kind = "ConfigMap" → sub0 = "configmaps") ∧
      (share.Spec.BackingResource.Kind = "Secret" → sub0 = "secrets") := by
    unfold kindPlan at hplan
    rcases hnew with h | h
    · rw [hMkind, h] at hplan
      simp only [trimSpace_configMap, if_true, Option.some.injEq, Prod.mk.injEq] at hplan
      exact ⟨fun _ => hplan.1.symm, fun h2 => by rw [h] at h2; exact absurd h2 (by decide)⟩
    · have hne : ¬ ("Secret" : String) = "ConfigMap" := by decide
      rw [hMkind, h] at hplan
      simp only [trimSpace_secret, hne, if_true, if_false, Option.some.injEq,
        Prod.mk.injEq] at hplan
      exact ⟨fun h2 => by rw [h] at h2; exact absurd h2 (by decide), fun _ => hplan.1.symm⟩
  refine ⟨rfl, ?_, ?_, ?_, ?_, ?_, ?_⟩
  · show B.heap p = _
    rw [hBheap, hMheap]
  · intro q c hq hnode
    rw [storeVolMapToDisk_node B q (hnotmap q (hunder q hq)), hBfs] at hnode
    rcases materializeFS_file_origin _ _ _ _ q c hnode with h1 | ⟨pl, k1, v1, hpl, hmem, hq1, hc1⟩
    · rw [hremoved q hq] at h1; simp at h1
    · refine ⟨sub0, payloadEntries pl, k1, v1, ?_, hmem, hq1, hc1⟩
      have h1 : backingData (storeVolMapToDisk B).1 p = backingData M p :=
        backingData_congr _ _ p (by show B.heap p = _; rw [hBheap])
          (by show B.configMaps = _; rw [hBcm]) (by show B.secrets = _; rw [hBsec])
      rw [h1]
      exact backingData_of_kindPlan M p sub0 pl hkindM (by rw [hplan, hpl])
  · intro hkindne hkeyplain hdataplain
    apply pathExists_eq_false_of_node
    have hq : (resolve (kindTargetPath (w.heap p))).isPrefixOf
        (resolve (kindTargetPath (w.heap p))) = true := isPrefixOf_refl _
    rw [storeVolMapToDisk_node B _ (hnotmap _ (hunder _ hq)), hBfs]
    have hsubne : sub0 ≠ oldsub := by
      rcases hnew with h | h <;> rcases hold with h2 | h2
      · exact absurd (h.trans h2.symm) hkindne
      · rw [hsub0.1 h, hsecOld h2]; decide
      · rw [hsub0.2 h, hcmOld h2]; decide
      · exact absurd (h.trans h2.symm) hkindne
    have hsub0plain : plainSegment sub0 := by
      rcases hnew with h | h
      · rw [hsub0.1 h]; exact plainSegment_configmaps
      · rw [hsub0.2 h]; exact plainSegment_secrets
    have hresNew := resolve_Join_pair (w.heap p).TargetPath sub0 hsub0plain
    rw [materializeFS_frame _ _ _ _ hkeyplain ?_ _ ?_ ?_]
    · exact hremoved _ hq
    · intro pl hpl e he
      have h1 : backingData (storeVolMapToDisk B).1 p = backingData M p :=
        backingData_congr _ _ p (by show B.heap p = _; rw [hBheap])
          (by show B.configMaps = _; rw [hBcm]) (by show B.secrets = _; rw [hBsec])
      exact hdataplain sub0 (payloadEntries pl)
        (by rw [h1]; exact backingData_of_kindPlan M p sub0 pl hkindM (by rw [hplan, hpl])) e he
    · rw [hresOld, hresNew, prefix_append_singleton_iff]
      exact fun e => hsubne e.symm
    · rw [hresOld, hresNew, prefix_append_singleton_iff]
      exact hsubne
  · intro sub entries hbdata k1 v1 hmem hsame hnesnap
    obtain ⟨hsub, pl, hpl, hes⟩ := hbd sub entries hbdata
    subst hsub; subst hes; subst hpl
    have hfile := materializeFS_file_entry _ _ _ pl hmatok k1 v1 hmem hsame
    rw [← hBfs] at hfile
    rw [← hfile]
    apply readFile_of_node_eq
    apply storeVolMapToDisk_node
    rw [hBpath, hMpath]
    exact hnesnap
  · intro hk
    have hkM : TrimSpace (M.heap p).SharedDataKind = "ConfigMap" := by
      rw [hMkind, hk]; exact trimSpace_configMap
    obtain ⟨h1, h2, h3, h4⟩ := mapBackingResourceToPod_callbacks_configMap M p hkM hok
    rw [hB] at h1 h2 h3 h4
    rw [hMT, hMvol] at h1 h2
    refine ⟨?_, ?_, ?_, ?_⟩
    · show mapGet B.configMapUpsertCallbacks _ = _
      rw [h1, mapGet_mapSet]; simp
    · show mapGet B.configMapDeleteCallbacks _ = _
      rw [h2, mapGet_mapSet]; simp
    · show mapGet B.secretUpsertCallbacks _ = _
      rw [h3, hMsu, mapGet_mapDelete]; simp
    · show mapGet B.secretDeleteCallbacks _ = _
      rw [h4, hMsd, mapGet_mapDelete]; simp
  · intro hk
    have hkM : TrimSpace (M.heap p).SharedDataKind = "Secret" := by
      rw [hMkind, hk]; exact trimSpace_secret
    obtain ⟨h1, h2, h3, h4⟩ := mapBackingResourceToPod_callbacks_secret M p hkM hok
    rw [hB] at h1 h2 h3 h4
    rw [hMT, hMvol] at h1 h2
    refine ⟨?_, ?_, ?_, ?_⟩
    · show mapGet B.secretUpsertCallbacks _ = _
      rw [h1, mapGet_mapSet]; simp
    · show mapGet B.secretDeleteCallbacks _ = _
      rw [h2, mapGet_mapSet]; simp
    · show mapGet B.configMapUpsertCallbacks _ = _
      rw [h3, hMcu, mapGet_mapDelete]; simp
    · show mapGet B.configMapDeleteCallbacks _ = _
      rw [h4, hMcd, mapGet_mapDelete]; simp

/-- Witness of C6: on the published volume `vol1`, the share update that rebinds `share1`
from the config map `n:cm1` to the secret `n:s1` sets kind, key and id of the record, removes
`/pods/t/configmaps`, writes `/pods/t/secrets/n:s1/pw` and registers the secret callbacks. -/
theorem shareUpdateRanger_rebind_witness :
    exWithSecret.hostPathVolumes.find?
        (fun e => decide ((exWithSecret.heap e.2).SharedDataId = "share1")) =
        some ("vol1", 0) ∧
      (exWithSecret.heap 0).Allowed = true ∧
      exWithSecret.ExecuteSAR "share1" (exWithSecret.heap 0).PodNamespace
        (exWithSecret.heap 0).PodName (exWithSecret.heap 0).PodSA = (true, false) ∧
      exShareSecret.Spec.BackingResource.Kind ≠ (exWithSecret.heap 0).SharedDataKind ∧
      (mapBackingResourceToPod
        (rebindRecord exWithSecret (kindTargetPath (exWithSecret.heap 0))
          (exWithSecret.heap 0).VolID exShareSecret 0) 0).2 = none ∧
      (resolve (exWithSecret.heap 0).TargetPath).isPrefixOf
        (resolve exWithSecret.volMapOnDiskPath) = false ∧
      (shareUpdateRanger exWithSecret "share1" exShareSecret).1.heap 0 =
        { exWithSecret.heap 0 with
          SharedDataKind := "Secret", SharedDataKey := "n:s1", SharedDataId := "share1" } ∧
      (shareUpdateRanger exWithSecret "share1" exShareSecret).1.fs.pathExists
        (kindTargetPath (exWithSecret.heap 0)) = false ∧
      (shareUpdateRanger exWithSecret "share1" exShareSecret).1.fs.readFile
        (Join [Join [Join [(exWithSecret.heap 0).TargetPath, "secrets"],
          exWithSecret.BuildKey exShareSecret.Spec.BackingResource.Namespace
            exShareSecret.Spec.BackingResource.Name], "pw"]) = some (Content.bytes [1, 2]) ∧
      mapGet (shareUpdateRanger exWithSecret "share1" exShareSecret).1.secretUpsertCallbacks
        (exWithSecret.heap 0).VolID =
        some { podPath := Join [(exWithSecret.heap 0).TargetPath, "secrets"], hpv := 0 } :=
  ⟨by decide, by decide, by decide, by decide, by decide, by decide,
    (shareUpdateRanger_rebind exWithSecret "share1" exShareSecret "vol1" 0 (by decide)
      (by decide) (by decide) (Or.inl (by decide)) (Or.inl (by decide)) (Or.inr (by decide))
      (by decide) (by decide)).2.1,
    (shareUpdateRanger_rebind exWithSecret "share1" exShareSecret "vol1" 0 (by decide)
      (by decide) (by decide) (Or.inl (by decide)) (Or.inl (by decide)) (Or.inr (by decide))
      (by decide) (by decide)).2.2.2.1 (by decide) (by decide) (by
        intro sub entries h e he
        have hb : backingData (shareUpdateRanger exWithSecret "share1" exShareSecret).1 0 =
            some ("secrets", [("pw", [1, 2])]) := by decide
        rw [hb] at h
        simp only [Option.some.injEq, Prod.mk.injEq] at h
        obtain ⟨_, rfl⟩ := h
        simp only [List.mem_singleton] at he
        subst he
        decide),
    (shareUpdateRanger_rebind exWithSecret "share1" exShareSecret "vol1" 0 (by decide)
      (by decide) (by decide) (Or.inl (by decide)) (Or.inl (by decide)) (Or.inr (by decide))
      (by decide) (by decide)).2.2.2.2.1 "secrets" [("pw", [1, 2])] (by decide) "pw" [1, 2]
      (by decide) (by decide) (by decide),
    ((shareUpdateRanger_rebind exWithSecret "share1" exShareSecret "vol1" 0 (by decide)
      (by decide) (by decide) (Or.inl (by decide)) (Or.inl (by decide)) (Or.inr (by decide))
      (by decide) (by decide)).2.2.2.2.2.2 (by decide)).1⟩

/-! ## C7: several records of one share -/

/-- C7 fails on the code. With the two published volumes `vol1` and `vol2` of the same share
`share1`, one call of the share delete ranger clears `Allowed` of the record of `vol1` and
removes its files, and leaves the record of `vol2` allowed with its file
`/pods/t2/configmaps/n:cm1/k1` in place; the share delete event, which calls the ranger once
for each registered volume, leaves it so as well. One call of the share update ranger, when
the access review denies, clears `Allowed` of `vol1` only and leaves the upsert callback of
`vol2` registered. With the map ranged over in the other order it is `vol2` that is handled and
`vol1` that is left. -/
theorem share_rangers_handle_first_record_only :
    (mapGet exTwo.hostPathVolumes "vol1" = some 0 ∧
      mapGet exTwo.hostPathVolumes "vol2" = some 1 ∧
      (exTwo.heap 0).SharedDataId = "share1" ∧ (exTwo.heap 1).SharedDataId = "share1" ∧
      (exTwo.heap 0).Allowed = true ∧ (exTwo.heap 1).Allowed = true) ∧
    (((shareDeleteRanger exTwo "share1").1.heap 0).Allowed = false ∧
      ((shareDeleteRanger exTwo "share1").1.heap 1).Allowed = true ∧
      (shareDeleteRanger exTwo "share1").1.fs.readFile "/pods/t/configmaps/n:cm1/k1" = none ∧
      (shareDeleteRanger exTwo "share1").1.fs.readFile "/pods/t2/configmaps/n:cm1/k1" =
        some (Content.bytes (bytesOf "v1")) ∧
      ((shareDeleteEvent exTwo "share1").heap 1).Allowed = true ∧
      (shareDeleteEvent exTwo "share1").fs.readFile "/pods/t2/configmaps/n:cm1/k1" =
        some (Content.bytes (bytesOf "v1"))) ∧
    (((shareUpdateRanger { exTwo with ExecuteSAR := fun _ _ _ _ => (false, false) }
        "share1" exShare).1.heap 0).Allowed = false ∧
      ((shareUpdateRanger { exTwo with ExecuteSAR := fun _ _ _ _ => (false, false) }
        "share1" exShare).1.heap 1).Allowed = true ∧
      (shareUpdateRanger { exTwo with ExecuteSAR := fun _ _ _ _ => (false, false) }
        "share1" exShare).1.fs.readFile "/pods/t2/configmaps/n:cm1/k1" =
        some (Content.bytes (bytesOf "v1")) ∧
      mapGet (shareUpdateRanger { exTwo with ExecuteSAR := fun _ _ _ _ => (false, false) }
        "share1" exShare).1.configMapUpsertCallbacks "vol2" =
        some { podPath := "/pods/t2/configmaps", hpv := 1 }) ∧
    (((shareDeleteRanger { exTwo with hostPathVolumes := exTwo.hostPathVolumes.reverse }
        "share1").1.heap 1).Allowed = false ∧
      ((shareDeleteRanger { exTwo with hostPathVolumes := exTwo.hostPathVolumes.reverse }
        "share1").1.heap 0).Allowed = true ∧
      (shareDeleteRanger { exTwo with hostPathVolumes := exTwo.hostPathVolumes.reverse }
        "share1").1.fs.readFile "/pods/t/configmaps/n:cm1/k1" =
        some (Content.bytes (bytesOf "v1"))) := by
  decide

/-! ## C8: the postcondition of unpublish -/

/-- C8: for every state and volume id `v`, after `deleteHostpathVolume` the registry has no
entry for `v`, every other entry and every record is unchanged, none of the six callbacks
(ConfigMap upsert and delete, Secret upsert and delete, share update, share delete) is
registered under `v`, and the staging path `VolPath` of the former record of `v` does not
exist, for a staging path that names a file other than the root and is not the volume map
file. -/
theorem deleteHostpathVolume_postcondition (w : World) (v : String) :
    mapGet (deleteHostpathVolume w v).1.hostPathVolumes v = none ∧
    (∀ u, u ≠ v →
      mapGet (deleteHostpathVolume w v).1.hostPathVolumes u = mapGet w.hostPathVolumes u) ∧
    (deleteHostpathVolume w v).1.heap = w.heap ∧
    mapGet (deleteHostpathVolume w v).1.configMapUpsertCallbacks v = none ∧
    mapGet (deleteHostpathVolume w v).1.configMapDeleteCallbacks v = none ∧
    mapGet (deleteHostpathVolume w v).1.secretUpsertCallbacks v = none ∧
    mapGet (deleteHostpathVolume w v).1.secretDeleteCallbacks v = none ∧
    mapGet (deleteHostpathVolume w v).1.shareUpdateCallbacks v = none ∧
    mapGet (deleteHostpathVolume w v).1.shareDeleteCallbacks v = none ∧
    (∀ hpv, mapGet w.hostPathVolumes v = some hpv →
      endsWithDot (w.heap hpv).VolPath = false →
      resolve (w.heap hpv).VolPath ≠ [] →
      resolve w.volMapOnDiskPath ≠ resolve (w.heap hpv).VolPath →
      (deleteHostpathVolume w v).1.fs.pathExists (w.heap hpv).VolPath = false) := by
  obtain ⟨hreg, hheap⟩ := deleteHostpathVolume_registry w v
  obtain ⟨h1, h2, h3, h4, h5, h6⟩ := deleteHostpathVolume_callbacks w v
  refine ⟨?_, ?_, hheap, ?_, ?_, ?_, ?_, ?_, ?_, ?_⟩
  · rw [hreg, mapGet_mapDelete]; simp
  · intro u hu
    rw [hreg, mapGet_mapDelete]; simp [hu]
  · rw [h1, mapGet_mapDelete]; simp
  · rw [h2, mapGet_mapDelete]; simp
  · rw [h3, mapGet_mapDelete]; simp
  · rw [h4, mapGet_mapDelete]; simp
  · rw [h5, mapGet_mapDelete]; simp
  · rw [h6, mapGet_mapDelete]; simp
  · intro hpv hget hdot hroot hmap
    by_cases hempty : (w.heap hpv).VolPath = ""
    · rw [hempty]; rfl
    · apply pathExists_eq_false_of_node
      rw [deleteHostpathVolume_fs w v hpv hget]
      refine (storeVolMapToDisk_node _ _ ?_).trans ?_
      · exact fun e => hmap e.symm
      · apply cleanupChain_node_none
        rw [RemoveAll_node w.fs _ _ hempty hdot hroot, isPrefixOf_refl]
        rfl

/-- Witness of C8: after `deleteHostpathVolume` for the published volume `vol1` its staging path
`/csi-data-dir/vol1/n/p/u/s` does not exist. -/
theorem deleteHostpathVolume_postcondition_witness :
    mapGet exPublished.hostPathVolumes "vol1" = some 0 ∧
      (exPublished.heap 0).VolPath = "/csi-data-dir/vol1/n/p/u/s" ∧
      endsWithDot (exPublished.heap 0).VolPath = false ∧
      resolve (exPublished.heap 0).VolPath ≠ [] ∧
      resolve exPublished.volMapOnDiskPath ≠ resolve (exPublished.heap 0).VolPath ∧
      exPublished.fs.pathExists (exPublished.heap 0).VolPath = true ∧
      (deleteHostpathVolume exPublished "vol1").1.fs.pathExists (exPublished.heap 0).VolPath =
        false :=
  ⟨by decide, by decide, by decide, by decide, by decide, by decide,
    (deleteHostpathVolume_postcondition exPublished "vol1").2.2.2.2.2.2.2.2.2 0 (by decide)
      (by decide) (by decide) (by decide)⟩

/-! ## C9: unpublish succeeds and is idempotent -/

/-- C9: for every state, every unmount behaviour and every request with a volume id and a
target path, `NodeUnpublishVolume` returns success, whether or not the unmount, the removal of
the staging directory or the write of the volume map fails; and a second
`deleteHostpathVolume` for a volume id returns nil and leaves the whole state, with the
registry, the callback tables and the file system, exactly as the first call left it. -/
theorem unpublish_succeeds_and_is_idempotent (ns : nodeServer) (w : World)
    (req : NodeUnpublishVolumeRequest) (hv : req.VolumeId ≠ "") (ht : req.TargetPath ≠ "") :
    (NodeUnpublishVolume ns w req).2 = Code.OK ∧
    ∀ (w0 : World) (v : String),
      deleteHostpathVolume (deleteHostpathVolume w0 v).1 v =
        ((deleteHostpathVolume w0 v).1, none) := by
  refine ⟨?_, fun w0 v => deleteHostpathVolume_twice w0 v⟩
  have h1 : ¬ req.VolumeId.length = 0 := by
    have := length_pos_of_ne_empty _ hv
    omega
  have h2 : ¬ req.TargetPath.length = 0 := by
    have := length_pos_of_ne_empty _ ht
    omega
  unfold NodeUnpublishVolume
  simp only [h1, h2, if_false]
  have h3 : ∀ x : World, (deleteHostpathVolume x req.VolumeId).2 = none := fun _ => rfl
  generalize hd : deleteHostpathVolume
    { w with
      fs := (ns.CleanupMountPoint req.TargetPath w.fs w.mountPoints).1
      mountPoints := (ns.CleanupMountPoint req.TargetPath w.fs w.mountPoints).2.1 }
    req.VolumeId = r
  have h4 := h3 { w with
    fs := (ns.CleanupMountPoint req.TargetPath w.fs w.mountPoints).1
    mountPoints := (ns.CleanupMountPoint req.TargetPath w.fs w.mountPoints).2.1 }
  rw [hd] at h4
  obtain ⟨r1, r2⟩ := r
  simp only at h4
  subst h4
  rfl

/-- Witness of C9: with a failing unmount, on a node where the write of the volume map fails,
the unpublish of `vol1` returns success. -/
theorem unpublish_succeeds_and_is_idempotent_witness :
    (exFailingUnmount.CleanupMountPoint "/pods/t" exNoMapDir.fs exNoMapDir.mountPoints).2.2 =
        some "unmount failed" ∧
      (storeVolMapToDisk exNoMapDir).2 = some "no such file or directory" ∧
      (NodeUnpublishVolume exFailingUnmount exNoMapDir
        { VolumeId := "vol1", TargetPath := "/pods/t" }).2 = Code.OK :=
  ⟨by decide, by decide,
    (unpublish_succeeds_and_is_idempotent exFailingUnmount exNoMapDir
      { VolumeId := "vol1", TargetPath := "/pods/t" } (by decide) (by decide)).1⟩

/-! ## C10: the cleanup of the staging directories -/

/-- C10: for a record whose `VolPath` was built by `getVolumePath` as
`root/volID/namespace/name/uid/serviceAccount` from components that are file names (the volume
map file not being the staging path itself), `deleteHostpathVolume` walks the four directories
above the staging path and afterwards
* nothing exists at or below the staging path;
* every path that is neither below the staging path nor one of the four directories is as it
  was (the volume map file apart, which is written), and a directory among them is still a
  directory;
* each of the four directories that has something below it outside the staging path and off
  the walk is left in place;
* the root directory is left in place. -/
theorem deleteHostpathVolume_cleanup (w : World) (hp : hostPath) (volID : String)
    (volCtx : List (String × String)) (key : String) (hpv : Ptr)
    (hget : mapGet w.hostPathVolumes key = some hpv)
    (hpath : (w.heap hpv).VolPath = getVolumePath hp volID volCtx)
    (hvol : plainSegment volID) (hns : plainSegment (getPodDetails volCtx).1)
    (hname : plainSegment (getPodDetails volCtx).2.1)
    (huid : plainSegment (getPodDetails volCtx).2.2.1)
    (hsa : plainSegment (getPodDetails volCtx).2.2.2)
    (hmap : resolve w.volMapOnDiskPath ≠ resolve (w.heap hpv).VolPath) :
    resolve (w.heap hpv).VolPath = stagingDir hp volID volCtx ∧
    [Dir (w.heap hpv).VolPath, Dir (Dir (w.heap hpv).VolPath),
      Dir (Dir (Dir (w.heap hpv).VolPath)),
      Dir (Dir (Dir (Dir (w.heap hpv).VolPath)))].map resolve = stagingChain hp volID volCtx ∧
    (∀ q, (stagingDir hp volID volCtx).isPrefixOf q = true →
      (deleteHostpathVolume w key).1.fs.node q = none) ∧
    (∀ q, (stagingDir hp volID volCtx).isPrefixOf q = false →
      q ∉ stagingChain hp volID volCtx → q ≠ resolve w.volMapOnDiskPath →
      (deleteHostpathVolume w key).1.fs.node q = w.fs.node q) ∧
    (∀ q, (stagingDir hp volID volCtx).isPrefixOf q = false →
      q ∉ stagingChain hp volID volCtx → w.fs.node q = some Node.dir →
      (deleteHostpathVolume w key).1.fs.node q = some Node.dir) ∧
    (∀ a ∈ stagingChain hp volID volCtx, ∀ c,
      a.isPrefixOf c = true → (stagingDir hp volID volCtx).isPrefixOf c = false →
      c ∉ stagingChain hp volID volCtx → w.fs.node c ≠ none → w.fs.node a = some Node.dir →
      (deleteHostpathVolume w key).1.fs.node a = some Node.dir) ∧
    (w.fs.node (resolve hp.root) = some Node.dir →
      (deleteHostpathVolume w key).1.fs.node (resolve hp.root) = some Node.dir) := by
  obtain ⟨hne, hdot, hres, hnames⟩ :=
    getVolumePath_chain hp volID volCtx hvol hns hname huid hsa
  obtain ⟨hnodup, hnotunder, hrootmem, hrootunder, hVne⟩ := stagingChain_facts hp volID volCtx
  rw [← hpath] at hne hdot hres hnames
  rw [deleteHostpathVolume_fs w key hpv hget]
  generalize hN : [Dir (w.heap hpv).VolPath, Dir (Dir (w.heap hpv).VolPath),
      Dir (Dir (Dir (w.heap hpv).VolPath)),
      Dir (Dir (Dir (Dir (w.heap hpv).VolPath)))] = names at hnames ⊢
  have hfs1 : ∀ q, (RemoveAll w.fs (w.heap hpv).VolPath).1.node q =
      if (stagingDir hp volID volCtx).isPrefixOf q then none else w.fs.node q := by
    intro q
    rw [RemoveAll_node w.fs _ q hne hdot (by rw [hres]; exact hVne), hres]
  have hnotmem : ∀ q, q ∉ stagingChain hp volID volCtx → ∀ n ∈ names, q ≠ resolve n := by
    intro q hq n hn e
    apply hq
    rw [← hnames, e]
    exact List.mem_map_of_mem resolve hn
  have hframe : ∀ q, (stagingDir hp volID volCtx).isPrefixOf q = false →
      q ∉ stagingChain hp volID volCtx →
      (cleanupChain (RemoveAll w.fs (w.heap hpv).VolPath).1 names).node q = w.fs.node q := by
    intro q hq hmem
    rw [cleanupChain_node_of_not_mem _ names q (hnotmem q hmem), hfs1 q, hq]
    rfl
  have hgone : ∀ q, (stagingDir hp volID volCtx).isPrefixOf q = true →
      (cleanupChain (RemoveAll w.fs (w.heap hpv).VolPath).1 names).node q = none := by
    intro q hq
    apply cleanupChain_node_none
    rw [hfs1 q, hq]
    rfl
  refine ⟨hres, hnames, ?_, ?_, ?_, ?_, ?_⟩
  · intro q hq
    by_cases hS : q = resolve w.volMapOnDiskPath
    · apply storeVolMapToDisk_node_none
      · exact hgone q hq
      · have hqV : q ≠ stagingDir hp volID volCtx := by
          intro e
          apply hmap
          rw [hres, ← e, hS]
        have := hgone q.dropLast (isPrefixOf_dropLast _ q hq hqV)
        show (cleanupChain (RemoveAll w.fs (w.heap hpv).VolPath).1 names).node q.dropLast ≠ _
        rw [this]
        simp
    · refine (storeVolMapToDisk_node _ q ?_).trans (hgone q hq)
      exact hS
  · intro q hq hmem hS
    refine (storeVolMapToDisk_node _ q ?_).trans (hframe q hq hmem)
    exact hS
  · intro q hq hmem hdir
    apply storeVolMapToDisk_dir
    show (cleanupChain (RemoveAll w.fs (w.heap hpv).VolPath).1 names).node q = _
    rw [hframe q hq hmem]
    exact hdir
  · intro a ha c hpre hcV hcmem hc hdir
    apply storeVolMapToDisk_dir
    show (cleanupChain (RemoveAll w.fs (w.heap hpv).VolPath).1 names).node a = _
    rw [← hnames] at ha
    simp only [List.mem_map] at ha
    obtain ⟨n0, hn0, rfl⟩ := ha
    have haV : (stagingDir hp volID volCtx).isPrefixOf (resolve n0) = false :=
      hnotunder _ (by rw [← hnames]; exact List.mem_map_of_mem resolve hn0)
    rw [cleanupChain_node_of_below _ names n0 c hn0 (by rw [hnames]; exact hnodup) hpre
      (hnotmem c hcmem) (by rw [hfs1 c, hcV]; exact hc), hfs1, haV]
    exact hdir
  · intro hdir
    apply storeVolMapToDisk_dir
    show (cleanupChain (RemoveAll w.fs (w.heap hpv).VolPath).1 names).node _ = _
    rw [hframe _ hrootunder hrootmem]
    exact hdir

/-- Witness of C10: with the two published volumes `vol1` and `vol2`, the deletion of `vol1`
removes its staging path `/csi-data-dir/vol1/n/p/u/s`, and leaves the root `/csi-data-dir` and
the staging path of `vol2` in place. -/
theorem deleteHostpathVolume_cleanup_witness :
    mapGet exTwo.hostPathVolumes "vol1" = some 0 ∧
      (exTwo.heap 0).VolPath = getVolumePath {} "vol1" exCtx ∧
      resolve exTwo.volMapOnDiskPath ≠ resolve (exTwo.heap 0).VolPath ∧
      stagingDir {} "vol1" exCtx = ["csi-data-dir", "vol1", "n", "p", "u", "s"] ∧
      exTwo.fs.node ["csi-data-dir", "vol1", "n", "p", "u", "s"] = some Node.dir ∧
      (deleteHostpathVolume exTwo "vol1").1.fs.node
        ["csi-data-dir", "vol1", "n", "p", "u", "s"] = none ∧
      (deleteHostpathVolume exTwo "vol1").1.fs.node ["csi-data-dir"] = some Node.dir ∧
      (deleteHostpathVolume exTwo "vol1").1.fs.node
        ["csi-data-dir", "vol2", "n", "p2", "u2", "s"] = some Node.dir :=
  ⟨by decide, by decide, by decide, by decide, by decide,
    (deleteHostpathVolume_cleanup exTwo {} "vol1" exCtx "vol1" 0 (by decide) (by decide)
      (by decide) (by decide) (by decide) (by decide) (by decide) (by decide)).2.2.1
      ["csi-data-dir", "vol1", "n", "p", "u", "s"] (by decide),
    (deleteHostpathVolume_cleanup exTwo {} "vol1" exCtx "vol1" 0 (by decide) (by decide)
      (by decide) (by decide) (by decide) (by decide) (by decide) (by decide)).2.2.2.2.2.2
      (by decide),
    (deleteHostpathVolume_cleanup exTwo {} "vol1" exCtx "vol1" 0 (by decide) (by decide)
      (by decide) (by decide) (by decide) (by decide) (by decide) (by decide)).2.2.2.2.1
      ["csi-data-dir", "vol2", "n", "p2", "u2", "s"] (by decide) (by decide) (by decide)⟩

/-! ## C11: the round trip of the volume map -/

/-- C11 (evaluation at the failing input): `vol1` (pod `p`, config map `n:cm1` of `share1`) and
`vol2` (pod `p2`, secret `n:s1` of `share2`) are stored, the process restarts with both pods
present, and the map is loaded. The stored record of `vol1` is the record of `vol1`, but after
the load both volume ids refer to the one cell of the loop variable, which holds the record of
`vol2`, the entry ranged over last; ranged over in the other order both refer to the record of
`vol1`; and when pod `p2` is gone, the surviving `vol1` still shows the fields of the dropped
`vol2`. An upsert of the config map `n:cm1` then no longer reaches the file of `vol1`, whose
upsert callback filters by the key read through the shared cell. -/
theorem loadVolMapFromDisk_aliases_records :
    ((mapGet exTwoShares.hostPathVolumes "vol1").map exTwoShares.heap =
        some { VolID := "vol1", VolPath := "/csi-data-dir/vol1/n/p/u/s", TargetPath := "/pods/t",
               SharedDataKey := "n:cm1", SharedDataKind := "ConfigMap", SharedDataId := "share1",
               PodNamespace := "n", PodName := "p", PodUID := "u", PodSA := "s",
               Allowed := true } ∧
      exPods "n" "p" = some "u" ∧ exPods "n" "p2" = some "u2") ∧
    (mapGet exReloaded.hostPathVolumes "vol1" = mapGet exReloaded.hostPathVolumes "vol2" ∧
      (mapGet exReloaded.hostPathVolumes "vol1").map exReloaded.heap =
        some { VolID := "vol2", VolPath := "/csi-data-dir/vol2/n/p2/u2/s", TargetPath := "/pods/t2",
               SharedDataKey := "n:s1", SharedDataKind := "Secret", SharedDataId := "share2",
               PodNamespace := "n", PodName := "p2", PodUID := "u2", PodSA := "s",
               Allowed := true }) ∧
    ((mapGet exReloadedRev.hostPathVolumes "vol2").map
        (fun p => (exReloadedRev.heap p).VolID) = some "vol1") ∧
    (exReloadedOne.hostPathVolumes.map Prod.fst = ["vol1"] ∧
      (mapGet exReloadedOne.hostPathVolumes "vol1").map
        (fun p => (exReloadedOne.heap p).VolID) = some "vol2") ∧
    ((configMapUpsertEvent exTwoShares "n:cm1" { Data := [("k1", "v9")] }).fs.readFile
        "/pods/t/configmaps/n:cm1/k1" = some (Content.bytes (bytesOf "v9")) ∧
      (configMapUpsertEvent exReloaded "n:cm1" { Data := [("k1", "v9")] }).fs.readFile
        "/pods/t/configmaps/n:cm1/k1" = some (Content.bytes (bytesOf "v1"))) := by
  decide

/-! ## C12: the reload drops exactly the mismatches -/

/-- C12: when the volume map file holds an encoded map, `loadVolMapFromDisk` returns nil,
whatever the pod lookup answers and whether or not `mapVolumeToPod` fails for a surviving
record, and afterwards a volume id is a key of `hostPathVolumes` exactly when the file has an
entry under it whose pod lookup succeeds and returns the UID of the entry: the entries whose pod
is missing or has another UID are dropped. -/
theorem loadVolMapFromDisk_drops_mismatches (w : World) (m : List (String × hostPathVolume))
    (hfile : w.fs.readFile w.volMapOnDiskPath = some (Content.volMap m)) :
    (loadVolMapFromDisk w).2 = none ∧
    ∀ k : String, (∃ p, mapGet (loadVolMapFromDisk w).1.hostPathVolumes k = some p) ↔
      ∃ r, (k, r) ∈ m ∧ w.GetPod r.PodNamespace r.PodName = some r.PodUID := by
  have hopen : Open w.fs w.volMapOnDiskPath = Except.ok (Node.file (Content.volMap m)) := by
    unfold FS.readFile at hfile
    unfold Open
    by_cases hp : w.volMapOnDiskPath = ""
    · simp [hp] at hfile
    · simp only [hp, if_false] at hfile ⊢
      cases hn : w.fs.node (resolve w.volMapOnDiskPath) with
      | none => rw [hn] at hfile; simp at hfile
      | some n =>
        rw [hn] at hfile
        cases n with
        | dir => simp at hfile
        | file c =>
          simp only [Option.some.injEq] at hfile
          rw [hfile]
  unfold loadVolMapFromDisk
  rw [hopen]
  refine ⟨rfl, fun k => ?_⟩
  dsimp only
  constructor
  · rintro ⟨p, hp⟩
    rcases (loadVolMapLoop_keys w.nextPtr m _ k p).1 hp with ⟨hex, _⟩ | ⟨_, hget⟩
    · exact hex
    · simp [mapGet] at hget
  · intro hex
    exact ⟨w.nextPtr, (loadVolMapLoop_keys w.nextPtr m _ k w.nextPtr).2 (Or.inl ⟨hex, rfl⟩)⟩

/-- Witness of C12: of the four entries of the example file, `vol2` (pod missing) and `vol3`
(other UID) are dropped; `vol1` and `vol4` survive, the result is nil although mapping `vol4`
fails, which leaves `vol4` without callbacks. -/
theorem loadVolMapFromDisk_drops_mismatches_witness :
    (exSnapshot.GetPod "n" "gone" = none ∧ exSnapshot.GetPod "n" "p2" = some "u2" ∧
      (loadVolMapFromDisk exSnapshot).1.hostPathVolumes.map Prod.fst = ["vol1", "vol4"] ∧
      (mapBackingResourceToPod
        { heap := (fun _ => { VolID := "vol4", SharedDataKind := "Pod" }) } 0).2 = some "invalid share backing resource kind Pod" ∧
      mapGet (loadVolMapFromDisk exSnapshot).1.shareUpdateCallbacks "vol4" = none ∧
      mapGet (loadVolMapFromDisk exSnapshot).1.shareUpdateCallbacks "vol1" = some ()) ∧
    ((loadVolMapFromDisk exSnapshot).2 = none ∧
      ∀ k : String, (∃ p, mapGet (loadVolMapFromDisk exSnapshot).1.hostPathVolumes k = some p) ↔
        ∃ r, (k, r) ∈ exSnapshotEntries ∧
          exSnapshot.GetPod r.PodNamespace r.PodName = some r.PodUID) :=
  ⟨by decide, loadVolMapFromDisk_drops_mismatches exSnapshot _ (by decide)⟩

/-! ## C13: the argument checks of publish -/

/-- C13: a `NodePublishVolume` request without volume capability, with an empty volume id or
target path, with a nil or empty volume context, or whose volume context lacks the pod name, the
pod namespace, the pod UID or the service account name or has it empty, is answered with
`InvalidArgument`, and the state after the call is the state before it: the registry, the
records, the file system, the mount table and the callback tables; this holds for every mounter,
so nothing is mounted. -/
theorem NodePublishVolume_invalid_argument (ns : nodeServer) (w : World) (share : Share)
    (req : NodePublishVolumeRequest)
    (h : req.VolumeCapability = none ∨ req.VolumeId = "" ∨ req.TargetPath = "" ∨
      req.VolumeContext = none ∨ req.VolumeContext = some [] ∨
      missingOrEmpty req.GetVolumeContext CSIPodName ∨
      missingOrEmpty req.GetVolumeContext CSIPodNamespace ∨
      missingOrEmpty req.GetVolumeContext CSIPodUID ∨
      missingOrEmpty req.GetVolumeContext CSIPodSA) :
    NodePublishVolume ns w share req = (w, Code.InvalidArgument) := by
  unfold NodePublishVolume
  cases hcap : req.VolumeCapability with
  | none => rfl
  | some capability =>
    simp only []
    by_cases h1 : req.VolumeId.length = 0
    · simp only [h1, if_true]
    by_cases h2 : req.TargetPath.length = 0
    · simp only [h1, h2, if_true, if_false]
    by_cases h3 : req.VolumeContext = none ∨ req.GetVolumeContext.length = 0
    · simp only [h1, h2, h3, if_true, if_false]
    by_cases h4 : ((mapGet req.GetVolumeContext CSIPodName).getD "").length = 0 ∨
        ((mapGet req.GetVolumeContext CSIPodNamespace).getD "").length = 0 ∨
        ((mapGet req.GetVolumeContext CSIPodUID).getD "").length = 0 ∨
        ((mapGet req.GetVolumeContext CSIPodSA).getD "").length = 0
    · simp only [h1, h2, h3, if_false, getPodDetails_eq, h4, if_true]
    exfalso
    simp only [length_eq_zero_iff, getD_eq_empty_iff] at h1 h2 h4
    simp only [not_or] at h3 h4
    rcases h with h | h | h | h | h | h | h | h | h
    · rw [hcap] at h; exact Option.noConfusion h
    · exact h1 h
    · exact h2 h
    · exact h3.1 h
    · apply h3.2
      unfold NodePublishVolumeRequest.GetVolumeContext
      rw [h]; rfl
    · exact h4.1 h
    · exact h4.2.1 h
    · exact h4.2.2.1 h
    · exact h4.2.2.2 h

/-- Witness of C13: the request of the example without the pod UID in its volume context. -/
theorem NodePublishVolume_invalid_argument_witness :
    missingOrEmpty
        ({ exRequest with
            VolumeContext := some [(CSIPodName, "p"), (CSIPodNamespace, "n"), (CSIPodSA, "s")] } :
          NodePublishVolumeRequest).GetVolumeContext CSIPodUID ∧
      (NodePublishVolume exServer exWorld exShare exRequest).2 = Code.OK ∧
      NodePublishVolume exServer exWorld exShare
          { exRequest with
            VolumeContext := some [(CSIPodName, "p"), (CSIPodNamespace, "n"), (CSIPodSA, "s")] } =
        (exWorld, Code.InvalidArgument) :=
  ⟨Or.inl (by decide), by decide,
    NodePublishVolume_invalid_argument exServer exWorld exShare _
      (Or.inr (Or.inr (Or.inr (Or.inr (Or.inr (Or.inr (Or.inr (Or.inl (Or.inl (by decide))))))))))⟩

/-! ## C14: the ephemeral marker and the mount capability -/

/-- C14 (counterexample): the request of the example with the ephemeral marker present and
empty, a value other than `true`, passes the identity checks and is not rejected: the call
returns success and has created the record of `vol1`. -/
theorem NodePublishVolume_accepts_empty_marker :
    mapGet ({ exRequest with VolumeContext := some (exCtx ++ [(CSIEphemeral, "")]) } :
        NodePublishVolumeRequest).GetVolumeContext CSIEphemeral = some "" ∧
      (NodePublishVolume exServer exWorld exShare
        { exRequest with VolumeContext := some (exCtx ++ [(CSIEphemeral, "")]) }).2 = Code.OK ∧
      mapGet (NodePublishVolume exServer exWorld exShare
        { exRequest with VolumeContext := some (exCtx ++ [(CSIEphemeral, "")]) }).1.hostPathVolumes
        "vol1" = some 0 ∧
      mapGet exWorld.hostPathVolumes "vol1" = none := by
  decide

/-- C14 (amended): for a `NodePublishVolume` request that passes the argument checks and the
checks of the pod details,
* an ephemeral marker that is present with a value that is neither `true` nor empty ends the
  call with `InvalidArgument` and leaves the state, with the registry, as it was;
* a capability that is not a mount capability does the same, whatever the marker is;
* with a marker that is absent, `true` or empty, and a mount capability, the call goes on to
  create the volume and is not answered with `InvalidArgument`. -/
theorem NodePublishVolume_gating (ns : nodeServer) (w : World) (share : Share)
    (req : NodePublishVolumeRequest) (capability : VolumeCapability)
    (hcap : req.VolumeCapability = some capability) (hid : req.VolumeId ≠ "")
    (htarget : req.TargetPath ≠ "") (hctx : req.VolumeContext ≠ none)
    (hctx2 : req.VolumeContext ≠ some [])
    (hname : ¬ missingOrEmpty req.GetVolumeContext CSIPodName)
    (hns : ¬ missingOrEmpty req.GetVolumeContext CSIPodNamespace)
    (huid : ¬ missingOrEmpty req.GetVolumeContext CSIPodUID)
    (hsa : ¬ missingOrEmpty req.GetVolumeContext CSIPodSA) :
    ((∃ v, mapGet req.GetVolumeContext CSIEphemeral = some v ∧ v ≠ "true" ∧ v ≠ "") →
      NodePublishVolume ns w share req = (w, Code.InvalidArgument)) ∧
    (capability.Mount = none →
      NodePublishVolume ns w share req = (w, Code.InvalidArgument)) ∧
    ((mapGet req.GetVolumeContext CSIEphemeral = none ∨
        mapGet req.GetVolumeContext CSIEphemeral = some "true" ∨
        mapGet req.GetVolumeContext CSIEphemeral = some "") →
      capability.Mount ≠ none →
      NodePublishVolume ns w share req = publishVolume ns w share req ∧
        (NodePublishVolume ns w share req).2 ≠ Code.InvalidArgument) := by
  have hpub := NodePublishVolume_checked ns w share req capability hcap hid htarget hctx hctx2
    hname hns huid hsa
  refine ⟨?_, ?_, ?_⟩
  · rintro ⟨v, hv, h1, h2⟩
    rw [hpub, hv]
    simp [h1, h2]
  · intro hm
    rw [hpub, hm]
    split <;> rfl
  · intro he hm
    have he2 : (mapGet req.GetVolumeContext CSIEphemeral).getD "" = "true" ∨
        (mapGet req.GetVolumeContext CSIEphemeral).getD "" = "" := by
      rcases he with h | h | h <;> rw [h] <;> simp
    have heq : NodePublishVolume ns w share req = publishVolume ns w share req := by
      rw [hpub, if_pos he2]
      cases hmc : capability.Mount with
      | none => exact absurd hmc hm
      | some m => rfl
    refine ⟨heq, ?_⟩
    rw [heq]
    rcases publishVolume_code ns w share req with h | h <;> rw [h] <;> decide

/-- Witness of C14: the request of the example, whose marker is `true`, goes on to
`publishVolume` and returns success; with the marker `false` it is answered with
`InvalidArgument` and the state is unchanged, and so it is with a capability that is not a mount
capability. -/
theorem NodePublishVolume_gating_witness :
    (NodePublishVolume exServer exWorld exShare exRequest).2 = Code.OK ∧
    NodePublishVolume exServer exWorld exShare
        { exRequest with VolumeContext := some (exCtx ++ [(CSIEphemeral, "false")]) } =
      (exWorld, Code.InvalidArgument) ∧
    NodePublishVolume exServer exWorld exShare
        { exRequest with VolumeCapability := some { Mount := none } } =
      (exWorld, Code.InvalidArgument) ∧
    (NodePublishVolume exServer exWorld exShare exRequest =
        publishVolume exServer exWorld exShare exRequest ∧
      (NodePublishVolume exServer exWorld exShare exRequest).2 ≠ Code.InvalidArgument) :=
  ⟨by decide,
    (NodePublishVolume_gating exServer exWorld exShare
      { exRequest with VolumeContext := some (exCtx ++ [(CSIEphemeral, "false")]) }
      { Mount := some {} } rfl (by decide) (by decide) (by decide) (by decide)
      (by unfold missingOrEmpty; decide) (by unfold missingOrEmpty; decide)
      (by unfold missingOrEmpty; decide) (by unfold missingOrEmpty; decide)).1
      ⟨"false", by decide, by decide, by decide⟩,
    (NodePublishVolume_gating exServer exWorld exShare
      { exRequest with VolumeCapability := some { Mount := none } }
      { Mount := none } rfl (by decide) (by decide) (by decide) (by decide)
      (by unfold missingOrEmpty; decide) (by unfold missingOrEmpty; decide)
      (by unfold missingOrEmpty; decide) (by unfold missingOrEmpty; decide)).2.1 rfl,
    (NodePublishVolume_gating exServer exWorld exShare exRequest
      { Mount := some {} } rfl (by decide) (by decide) (by decide) (by decide)
      (by unfold missingOrEmpty; decide) (by unfold missingOrEmpty; decide)
      (by unfold missingOrEmpty; decide) (by unfold missingOrEmpty; decide)).2.2
      (Or.inr (Or.inl (by decide))) (by decide)⟩

/-! ## C15: a denied share at publish -/

/-- C15 (evaluation at the failing input): on a node whose access review denies every request,
`createHostpathVolume` for `vol1` and the share `share1` succeeds and builds the record with
`Allowed` set, and `mapVolumeToPod` for that record returns without error and materializes the
entry `k1` of the backing config map under `TargetPath/configmaps`. Neither function consults
the access review or tests `Allowed`. -/
theorem createHostpathVolume_ignores_denial :
    exDenyingWorld.ExecuteSAR "share1" "n" "p" "s" = (false, false) ∧
      (createHostpathVolume {} exDenyingWorld "vol1" "/pods/t" exCtx exShare tib
        accessType.mountAccess).2.toOption = some 0 ∧
      ((createHostpathVolume {} exDenyingWorld "vol1" "/pods/t" exCtx exShare tib
        accessType.mountAccess).1.heap 0).Allowed = true ∧
      (mapVolumeToPod (createHostpathVolume {} exDenyingWorld "vol1" "/pods/t" exCtx exShare tib
        accessType.mountAccess).1 0).2 = none ∧
      (mapVolumeToPod (createHostpathVolume {} exDenyingWorld "vol1" "/pods/t" exCtx exShare tib
        accessType.mountAccess).1 0).1.fs.readFile "/pods/t/configmaps/n:cm1/k1" =
        some (Content.bytes (bytesOf "v1")) := by
  decide

/-! ## C16: a second record for a volume id -/

/-- C16 (counterexample): the registry of the published example has a record for `vol1`;
`createHostpathVolume` for `vol1` with another target path and another pod does not fail, and
afterwards `vol1` refers to the new record, not to the one it had. -/
theorem createHostpathVolume_accepts_duplicate :
    (mapGet exPublished.hostPathVolumes "vol1").map
        (fun p => (exPublished.heap p).TargetPath) = some "/pods/t" ∧
      (createHostpathVolume {} exPublished "vol1" "/pods/other" exCtx2 exShare 0
        accessType.mountAccess).2.toOption = some 1 ∧
      (mapGet (createHostpathVolume {} exPublished "vol1" "/pods/other" exCtx2 exShare 0
          accessType.mountAccess).1.hostPathVolumes "vol1").map
        (fun p => ((createHostpathVolume {} exPublished "vol1" "/pods/other" exCtx2 exShare 0
          accessType.mountAccess).1.heap p).TargetPath) = some "/pods/other" := by
  decide

/-- C16 (amended): when the registry already has a record for a volume id and the staging
directory can be made, `createHostpathVolume` for that volume id as a mount volume does not
fail: it returns a new record, and the volume id refers to it afterwards. The registry has the
same volume ids as before, so still one entry for the volume id; the entries of the other volume
ids are unchanged; and every record that existed, the one the volume id referred to included, is
itself unchanged, though the registry no longer refers to it under the volume id. -/
theorem createHostpathVolume_replaces (hp : hostPath) (w : World) (volID targetPath : String)
    (volCtx : List (String × String)) (share : Share) (cap : Int) (p : Ptr)
    (hold : mapGet w.hostPathVolumes volID = some p) (hfresh : p ≠ w.nextPtr)
    (hmk : (MkdirAll w.fs (getVolumePath hp volID volCtx)).2 = none) :
    (createHostpathVolume hp w volID targetPath volCtx share cap accessType.mountAccess).2 =
        Except.ok w.nextPtr ∧
    mapGet (createHostpathVolume hp w volID targetPath volCtx share cap
        accessType.mountAccess).1.hostPathVolumes volID = some w.nextPtr ∧
    (createHostpathVolume hp w volID targetPath volCtx share cap
        accessType.mountAccess).1.heap w.nextPtr =
      newRecord hp w volID targetPath volCtx share cap ∧
    (createHostpathVolume hp w volID targetPath volCtx share cap
        accessType.mountAccess).1.hostPathVolumes.map Prod.fst =
      w.hostPathVolumes.map Prod.fst ∧
    (∀ k, k ≠ volID →
      mapGet (createHostpathVolume hp w volID targetPath volCtx share cap
        accessType.mountAccess).1.hostPathVolumes k = mapGet w.hostPathVolumes k) ∧
    (∀ q, q ≠ w.nextPtr →
      (createHostpathVolume hp w volID targetPath volCtx share cap
        accessType.mountAccess).1.heap q = w.heap q) ∧
    (createHostpathVolume hp w volID targetPath volCtx share cap
        accessType.mountAccess).1.heap p = w.heap p ∧
    mapGet (createHostpathVolume hp w volID targetPath volCtx share cap
        accessType.mountAccess).1.hostPathVolumes volID ≠ some p := by
  rw [createHostpathVolume_mount]
  cases hm : MkdirAll w.fs (getVolumePath hp volID volCtx) with
  | mk fs1 e =>
    rw [hm] at hmk
    simp only at hmk
    subst hmk
    dsimp only
    refine ⟨rfl, ?_, ?_, ?_, ?_, ?_, ?_, ?_⟩
    · rw [mapGet_mapSet]; simp
    · simp
    · exact mapSet_keys_of_mem _ _ _ _ hold
    · intro k hk
      rw [mapGet_mapSet]
      simp [Ne.symm hk]
    · intro q hq
      simp [Function.update, hq]
    · simp [Function.update, hfresh]
    · rw [mapGet_mapSet]
      simp only [if_true, ne_eq, Option.some.injEq]
      exact fun h => hfresh h.symm

/-- Witness of C16: the second `createHostpathVolume` for `vol1` in the published example. -/
theorem createHostpathVolume_replaces_witness :
    mapGet exPublished.hostPathVolumes "vol1" = some 0 ∧
    (createHostpathVolume {} exPublished "vol1" "/pods/other" exCtx2 exShare 0
        accessType.mountAccess).2 = Except.ok exPublished.nextPtr ∧
    mapGet (createHostpathVolume {} exPublished "vol1" "/pods/other" exCtx2 exShare 0
        accessType.mountAccess).1.hostPathVolumes "vol1" = some exPublished.nextPtr ∧
    (createHostpathVolume {} exPublished "vol1" "/pods/other" exCtx2 exShare 0
        accessType.mountAccess).1.heap 0 = exPublished.heap 0 :=
  ⟨by decide,
    (createHostpathVolume_replaces {} exPublished "vol1" "/pods/other" exCtx2 exShare 0 0
      (by decide) (by decide) (by decide)).1,
    (createHostpathVolume_replaces {} exPublished "vol1" "/pods/other" exCtx2 exShare 0 0
      (by decide) (by decide) (by decide)).2.1,
    (createHostpathVolume_replaces {} exPublished "vol1" "/pods/other" exCtx2 exShare 0 0
      (by decide) (by decide) (by decide)).2.2.2.2.2.2.1⟩

/-! ## C17: a delete after an upsert -/

/-- C17 (evaluation at the failing input): after an upsert has written the entry `k1` for the key
`n:cm1`, the delete callback for the same key returns `true` and removes nothing: `os.Remove` of
the directory of the key fails because the directory is not empty, the error is dropped, and the
file of `k1` is still there; the same happens through the delete event of the config map on the
published example. Only a delete after an upsert with an empty payload removes the directory of
the key. A delete for another key changes nothing. -/
theorem commonDeleteRanger_leaves_files :
    ((commonUpsertRanger [] "/pods/t/configmaps" "n:cm1" "n:cm1"
        { StringData := [("k1", "v1")] }).2 = none ∧
      exUpserted.readFile "/pods/t/configmaps/n:cm1/k1" = some (Content.bytes (bytesOf "v1"))) ∧
    ((Remove exUpserted (Join ["/pods/t/configmaps", "n:cm1"])).2 = some "directory not empty" ∧
      commonDeleteRanger exUpserted "/pods/t/configmaps" "n:cm1" "n:cm1" = (exUpserted, true) ∧
      (commonDeleteRanger exUpserted "/pods/t/configmaps" "n:cm1" "n:cm1").1.readFile
        "/pods/t/configmaps/n:cm1/k1" = some (Content.bytes (bytesOf "v1"))) ∧
    ((configMapDeleteEvent exPublished "n:cm1").fs.readFile "/pods/t/configmaps/n:cm1/k1" =
      some (Content.bytes (bytesOf "v1"))) ∧
    ((commonDeleteRanger
        (commonUpsertRanger [] "/pods/t/configmaps" "n:cm1" "n:cm1" {}).1
        "/pods/t/configmaps" "n:cm1" "n:cm1").1.pathExists "/pods/t/configmaps/n:cm1" = false) ∧
    commonDeleteRanger exUpserted "/pods/t/configmaps" "n:cm1" "n:other" = (exUpserted, true) := by
  decide

/-! ## C18: where the writer writes -/

/-- C18 (counterexample): a payload with the data key `../../evil`. The upsert returns without
error, the content is written to `/pods/t/evil`, which is not inside the target subdirectory
`/pods/t/configmaps`, and the directory made for the event key has nothing in it. With the data
key `sub/k` and a directory `sub` in the directory of the event key, the file is written inside
`sub`, not directly inside the directory of the event key. -/
theorem commonUpsertRanger_escapes :
    ((commonUpsertRanger [] "/pods/t/configmaps" "n:cm1" "n:cm1"
        { StringData := [("../../evil", "x")] }).2 = none ∧
      (commonUpsertRanger [] "/pods/t/configmaps" "n:cm1" "n:cm1"
        { StringData := [("../../evil", "x")] }).1.readFile "/pods/t/evil" =
          some (Content.bytes (bytesOf "x")) ∧
      (resolve "/pods/t/configmaps").isPrefixOf (resolve "/pods/t/evil") = false ∧
      (commonUpsertRanger [] "/pods/t/configmaps" "n:cm1" "n:cm1"
        { StringData := [("../../evil", "x")] }).1.noChild
          (resolve "/pods/t/configmaps/n:cm1") = true) ∧
    ((commonUpsertRanger [(["pods"], Node.dir), (["pods", "t"], Node.dir),
          (["pods", "t", "configmaps"], Node.dir), (["pods", "t", "configmaps", "n:cm1"], Node.dir),
          (["pods", "t", "configmaps", "n:cm1", "sub"], Node.dir)]
        "/pods/t/configmaps" "n:cm1" "n:cm1" { StringData := [("sub/k", "x")] }).1.node
          ["pods", "t", "configmaps", "n:cm1", "sub", "k"] =
        some (Node.file (Content.bytes (bytesOf "x")))) := by
  decide

/-- C18 (amended): for an event key that is a file name and a payload whose data keys are file
names (not empty, without separator, neither `.` nor `..`), every data key names the file with
that name directly inside the directory of the event key under `podPath`, and every path
`commonUpsertRanger` changes is one of these:
* a directory on the way to `podPath`, or `podPath` itself, that did not exist and is made;
* the directory of the event key directly inside `podPath`, that did not exist and is made;
* the file of a data key directly inside the directory of the event key, which holds a regular
  file afterwards.
So no file is written outside the directory of the event key, and nothing outside `podPath` is
changed but missing directories on the way to it. -/
theorem commonUpsertRanger_writes_inside (fs : FS) (podPath key : String) (payload : Payload)
    (hkey : plainSegment key) (hdata : ∀ e ∈ payloadEntries payload, plainSegment e.1) :
    (∀ e ∈ payloadEntries payload,
      resolve (Join [Join [podPath, key], e.1]) = resolve podPath ++ [key, e.1]) ∧
    ∀ q : List String, (commonUpsertRanger fs podPath key key payload).1.node q ≠ fs.node q →
      (q <+: resolve podPath ∧ fs.node q = none ∧
        (commonUpsertRanger fs podPath key key payload).1.node q = some Node.dir) ∨
      (q = resolve podPath ++ [key] ∧ fs.node q = none ∧
        (commonUpsertRanger fs podPath key key payload).1.node q = some Node.dir) ∨
      (∃ e ∈ payloadEntries payload, q = resolve podPath ++ [key, e.1] ∧
        ∃ c, (commonUpsertRanger fs podPath key key payload).1.node q = some (Node.file c)) := by
  have hres : ∀ e ∈ payloadEntries payload,
      resolve (Join [Join [podPath, key], e.1]) = resolve podPath ++ [key, e.1] := by
    intro e he
    rw [resolve_Join_pair _ _ (hdata e he), resolve_Join_pair _ _ hkey]
    simp
  refine ⟨hres, fun q hq => ?_⟩
  rw [commonUpsertRanger_eq] at hq ⊢
  have hmk := MkdirAll_node_cases fs (Join [podPath, key]) q
  have hframe := MkdirAll_node_frame fs (Join [podPath, key]) q
  rw [resolve_Join_pair _ _ hkey] at hframe
  cases hm : MkdirAll fs (Join [podPath, key]) with
  | mk fs1 err =>
    rw [hm] at hq hmk hframe
    simp only at hmk hframe
    have hdir : fs1.node q ≠ fs.node q →
        (q <+: resolve podPath ∧ fs.node q = none ∧ fs1.node q = some Node.dir) ∨
        (q = resolve podPath ++ [key] ∧ fs.node q = none ∧ fs1.node q = some Node.dir) := by
      intro hne
      rcases hmk with h | ⟨h1, h2⟩
      · exact absurd h hne
      · have hpre : q <+: resolve podPath ++ [key] := by
          by_contra hcon
          exact hne (hframe hcon)
        rcases prefix_concat_cases q _ key hpre with h | h
        · exact Or.inl ⟨h, h1, h2⟩
        · exact Or.inr ⟨h, h1, h2⟩
    cases err with
    | some e1 =>
      simp only at hq ⊢
      rcases hdir hq with h | h
      · exact Or.inl h
      · exact Or.inr (Or.inl h)
    | none =>
      simp only at hq ⊢
      by_cases hw : (writeEntries fs1 (Join [podPath, key]) (payloadEntries payload)).1.node q =
          fs1.node q
      · have hne : fs1.node q ≠ fs.node q := fun h => hq (hw.trans h)
        rcases hdir hne with h | h
        · exact Or.inl ⟨h.1, h.2.1, hw.trans h.2.2⟩
        · exact Or.inr (Or.inl ⟨h.1, h.2.1, hw.trans h.2.2⟩)
      · obtain ⟨e, he, hqe, c, hc⟩ := writeEntries_changed _ _ fs1 q hw
        exact Or.inr (Or.inr ⟨e, he, hqe.trans (hres e he), c, hc⟩)

/-- Witness of C18: the upsert of the example, with the data key `k1`, changes the path of the
file `k1` in the directory of the key, where a regular file is afterwards. -/
theorem commonUpsertRanger_writes_inside_witness :
    plainSegment "n:cm1" ∧
    (commonUpsertRanger [] "/pods/t/configmaps" "n:cm1" "n:cm1"
        { StringData := [("k1", "v1")] }).1.node ["pods", "t", "configmaps", "n:cm1", "k1"] ≠
      FS.node [] ["pods", "t", "configmaps", "n:cm1", "k1"] ∧
    ((["pods", "t", "configmaps", "n:cm1", "k1"] <+: resolve "/pods/t/configmaps" ∧
        FS.node [] ["pods", "t", "configmaps", "n:cm1", "k1"] = none ∧
        (commonUpsertRanger [] "/pods/t/configmaps" "n:cm1" "n:cm1"
          { StringData := [("k1", "v1")] }).1.node ["pods", "t", "configmaps", "n:cm1", "k1"] =
            some Node.dir) ∨
      (["pods", "t", "configmaps", "n:cm1", "k1"] = resolve "/pods/t/configmaps" ++ ["n:cm1"] ∧
        FS.node [] ["pods", "t", "configmaps", "n:cm1", "k1"] = none ∧
        (commonUpsertRanger [] "/pods/t/configmaps" "n:cm1" "n:cm1"
          { StringData := [("k1", "v1")] }).1.node ["pods", "t", "configmaps", "n:cm1", "k1"] =
            some Node.dir) ∨
      (∃ e ∈ payloadEntries { StringData := [("k1", "v1")] },
        ["pods", "t", "configmaps", "n:cm1", "k1"] =
          resolve "/pods/t/configmaps" ++ ["n:cm1", e.1] ∧
        ∃ c, (commonUpsertRanger [] "/pods/t/configmaps" "n:cm1" "n:cm1"
          { StringData := [("k1", "v1")] }).1.node ["pods", "t", "configmaps", "n:cm1", "k1"] =
            some (Node.file c))) :=
  ⟨by decide, by decide,
    (commonUpsertRanger_writes_inside [] "/pods/t/configmaps" "n:cm1"
      { StringData := [("k1", "v1")] } (by decide) (by decide)).2
      ["pods", "t", "configmaps", "n:cm1", "k1"] (by decide)⟩

/-! ## C19: a share update without effect -/

/-- C19: when no record of the registry has the share id, or when the record with the share id
that the loop reaches (the only one when a single record has it) has `Allowed` equal to the
answer of the access review (the verdict, and denied on an error) and kind and key equal to the
backing kind of the share and to `BuildKey` of its namespace and name, then `shareUpdateRanger`
returns `true` and the state after it is the state before it: every record, the file system, so
also the volume map file, which is not written, and every callback table. -/
theorem shareUpdateRanger_noop (w : World) (shareId : String) (share : Share)
    (h : w.hostPathVolumes.find? (fun e => decide ((w.heap e.2).SharedDataId = shareId)) = none ∨
      ∃ k p, w.hostPathVolumes.find? (fun e => decide ((w.heap e.2).SharedDataId = shareId)) =
          some (k, p) ∧
        (w.heap p).Allowed =
          ((w.ExecuteSAR shareId (w.heap p).PodNamespace (w.heap p).PodName (w.heap p).PodSA).1 &&
            !(w.ExecuteSAR shareId (w.heap p).PodNamespace (w.heap p).PodName
              (w.heap p).PodSA).2) ∧
        (w.heap p).SharedDataKind = share.Spec.BackingResource.Kind ∧
        (w.heap p).SharedDataKey =
          w.BuildKey share.Spec.BackingResource.Namespace share.Spec.BackingResource.Name) :
    shareUpdateRanger w shareId share = (w, true) := by
  rcases h with h | ⟨k, p, hfind, hallowed, hkind, hkey⟩
  · obtain ⟨last, hl⟩ := shareUpdateLoop_find_none w shareId share none w.hostPathVolumes h
    unfold shareUpdateRanger
    rw [hl]
    cases last <;> rfl
  · have hscan : updateScanAt w shareId share p = { heap := w.heap, hpv := some p } := by
      unfold updateScanAt
      simp only [← hallowed, ← hkind, ← hkey]
      cases ha : (w.heap p).Allowed <;> simp [ha]
    unfold shareUpdateRanger
    rw [shareUpdateLoop_find_some w shareId share none w.hostPathVolumes k p hfind, hscan]
    rfl

/-- Witness of C19: on the published example, whose access review allows, a share update with
the unchanged share `share1` changes nothing, and so does an update of a share no record
uses. -/
theorem shareUpdateRanger_noop_witness :
    shareUpdateRanger exPublished "share1" exShare = (exPublished, true) ∧
      shareUpdateRanger exPublished "share9" exShareSecret = (exPublished, true) :=
  ⟨shareUpdateRanger_noop exPublished "share1" exShare
      (Or.inr ⟨"vol1", 0, by decide, by decide, by decide, by decide⟩),
    shareUpdateRanger_noop exPublished "share9" exShareSecret (Or.inl (by decide))⟩

end ProjectedResource
